import Mathlib

/-!
Verification development for the LumixEngine entity/world model and
animation-blending runtime (`src/engine/world.cpp`, `src/animation/nodes.cpp`,
`src/animation/animation_module.cpp`).

The source is shallowly embedded: machine floats and doubles become ℚ,
the fixed-point `Time` type becomes ℕ raw ticks, dense C++ arrays become
`List`s with safe indexed access, and recursion that the C++ performs over
linked entity structures is expressed with explicit fuel.  Division by zero
in ℚ yields 0 (the engine never divides by zero on the paths the theorems
traverse).  Code of the repository that lives outside `src` (the math and
`Time` headers, the compiled input-condition evaluator, external resource
classes) is modelled from the spec, and is marked as such in doc comments.
-/

namespace LumixVer

/-- Rational 3-vector. Models the engine float vector `Vec3` and the
high-precision `DVec3` (engine/math is not in `src`; modelled from the spec:
positions are high-precision 3-vectors, scale is a 3-vector). -/
structure V3 where
  x : ℚ
  y : ℚ
  z : ℚ
deriving DecidableEq, Repr

def V3.add (a b : V3) : V3 := ⟨a.x + b.x, a.y + b.y, a.z + b.z⟩

def V3.neg (a : V3) : V3 := ⟨-a.x, -a.y, -a.z⟩

def V3.hadamard (a b : V3) : V3 := ⟨a.x * b.x, a.y * b.y, a.z * b.z⟩

def V3.recip (a : V3) : V3 := ⟨1 / a.x, 1 / a.y, 1 / a.z⟩

def V3.smul (q : ℚ) (a : V3) : V3 := ⟨q * a.x, q * a.y, q * a.z⟩

def V3.zero : V3 := ⟨0, 0, 0⟩

def V3.one : V3 := ⟨1, 1, 1⟩

/-- Rational 2-vector, models the engine `Vec2` (used by Blend2D). -/
structure V2 where
  x : ℚ
  y : ℚ
deriving DecidableEq, Repr

def V2.sub (a b : V2) : V2 := ⟨a.x - b.x, a.y - b.y⟩

def V2.add (a b : V2) : V2 := ⟨a.x + b.x, a.y + b.y⟩

def V2.smul (q : ℚ) (a : V2) : V2 := ⟨q * a.x, q * a.y⟩

/-- Engine `dot` on Vec2. -/
def V2.dot (a b : V2) : ℚ := a.x * b.x + a.y * b.y

/-- Engine `squaredLength` on Vec2. -/
def V2.squaredLength (a : V2) : ℚ := a.x * a.x + a.y * a.y

/-- Engine `Vec2::ortho` (perpendicular vector), used by the circumcircle
computation. Modelled from the spec (engine/math is not in `src`). -/
def V2.ortho (a : V2) : V2 := ⟨a.y, -a.x⟩

def V2.min2 (a b : V2) : V2 := ⟨min a.x b.x, min a.y b.y⟩

def V2.max2 (a b : V2) : V2 := ⟨max a.x b.x, max a.y b.y⟩

/-- Quaternion over ℚ. Models the engine `Quat` (engine/math is not in `src`;
modelled from the spec: rotations are unit quaternions with the standard
Hamilton product). -/
structure Quat where
  x : ℚ
  y : ℚ
  z : ℚ
  w : ℚ
deriving DecidableEq, Repr

def Quat.id : Quat := ⟨0, 0, 0, 1⟩

def Quat.mul (a b : Quat) : Quat :=
  ⟨a.w * b.x + a.x * b.w + a.y * b.z - a.z * b.y,
   a.w * b.y - a.x * b.z + a.y * b.w + a.z * b.x,
   a.w * b.z + a.x * b.y - a.y * b.x + a.z * b.w,
   a.w * b.w - a.x * b.x - a.y * b.y - a.z * b.z⟩

def Quat.conjugated (a : Quat) : Quat := ⟨-a.x, -a.y, -a.z, a.w⟩

/-- Rotation of a vector by a quaternion, computed exactly as q * v * conj q. -/
def Quat.rotate (q : Quat) (v : V3) : V3 :=
  let p : Quat := ⟨v.x, v.y, v.z, 0⟩
  let r := (q.mul p).mul q.conjugated
  ⟨r.x, r.y, r.z⟩

/-- Engine `Transform`: position, rotation, non-uniform scale. -/
structure Tfm where
  pos : V3
  rot : Quat
  scale : V3
deriving DecidableEq, Repr

def Tfm.id : Tfm := ⟨V3.zero, Quat.id, V3.one⟩

/-- Transform composition. Modelled from the spec (engine/math is not in
`src`): the child position is scaled, rotated and offset by the parent. -/
def Tfm.mul (a b : Tfm) : Tfm :=
  ⟨(a.rot.rotate (b.pos.hadamard a.scale)).add a.pos,
   a.rot.mul b.rot,
   a.scale.hadamard b.scale⟩

/-- Transform inverse. Modelled from the spec (engine/math is not in `src`);
exact for unit quaternions, ℚ division by a zero scale component yields 0. -/
def Tfm.inverted (a : Tfm) : Tfm :=
  let r := a.rot.conjugated
  ⟨(r.rotate a.pos.neg).hadamard a.scale.recip, r, a.scale.recip⟩

/-- Engine `LocalRigidTransform`: position plus rotation, no scale. -/
structure LRT where
  pos : V3
  rot : Quat
deriving DecidableEq, Repr

def LRT.id : LRT := ⟨V3.zero, Quat.id⟩

/-- Composition of local rigid transforms (engine/math is not in `src`;
modelled from the spec). -/
def LRT.mul (a b : LRT) : LRT :=
  ⟨(a.rot.rotate b.pos).add a.pos, a.rot.mul b.rot⟩

/-- Inverse of a local rigid transform (conjugate rotation; exact for unit
quaternions). -/
def LRT.inverted (a : LRT) : LRT :=
  let r := a.rot.conjugated
  ⟨r.rotate a.pos.neg, r⟩

/-- Blend of two local rigid transforms by weight `t`.  Modelled from the
spec: root motions of blended children are interpolated by weight
(`LocalRigidTransform::interpolate`, engine/math is not in `src`).  The
engine re-normalizes the interpolated quaternion; normalization (a square
root) is not representable over ℚ and no claim observes interpolated
rotation magnitudes, so the linear blend is kept unnormalized here. -/
def LRT.interpolate (a b : LRT) (t : ℚ) : LRT :=
  ⟨(V3.smul (1 - t) a.pos).add (V3.smul t b.pos),
   ⟨(1 - t) * a.rot.x + t * b.rot.x,
    (1 - t) * a.rot.y + t * b.rot.y,
    (1 - t) * a.rot.z + t * b.rot.z,
    (1 - t) * a.rot.w + t * b.rot.w⟩⟩

/-! ## World entity/transform/hierarchy store (src/engine/world.cpp)

Entity handles: a C++ `EntityRef` carries a valid index and becomes `Nat`;
an `EntityPtr` may be `INVALID_ENTITY` (index -1) and becomes `Option Nat`
(the `world.h` header is not in `src`; this encoding is modelled from the
spec: an entity is an opaque integer handle, invalid = -1). -/

/-- Hierarchy record (`World::Hierarchy`): parent, first-child, next-sibling
links and the cached local transform. -/
structure Hrec where
  entity : Nat
  parent : Option Nat
  firstChild : Option Nat
  nextSibling : Option Nat
  localTf : Tfm
deriving DecidableEq, Repr

/-- Per-entity record (`World::EntityData`).  The component mask and the
partition handle are omitted: component creation/destruction dispatches to
externally registered scenes (out of scope per the spec) and no claim reads
partitions.  `prev`/`next` double as free-list links exactly as in the
source; `-1` means none. -/
structure EData where
  valid : Bool
  prev : Int
  next : Int
  name : Option Nat
  hierarchy : Option Nat
deriving DecidableEq, Repr

/-- Named-entity record (`World::EntityName`). -/
structure EName where
  entity : Nat
  name : String
deriving DecidableEq, Repr

/-- The World state: dense parallel `m_entities` / `m_transforms` arrays, the
sparse `m_hierarchy` array, the name table and the free-list head. -/
structure World where
  entities : List EData
  transforms : List Tfm
  names : List EName
  hierarchy : List Hrec
  firstFree : Int
deriving DecidableEq, Repr

def World.empty : World := ⟨[], [], [], [], -1⟩

/-- Index of the hierarchy record of entity `e` (`m_entities[e].hierarchy`). -/
def hiOf (w : World) (e : Nat) : Option Nat :=
  w.entities[e]?.bind (·.hierarchy)

/-- Hierarchy record of entity `e`, if any. -/
def hrecOf (w : World) (e : Nat) : Option Hrec :=
  (hiOf w e).bind (fun i => w.hierarchy[i]?)

/-- `World::getParent`. -/
def getParent (w : World) (e : Nat) : Option Nat :=
  match hrecOf w e with
  | none => none
  | some h => h.parent

/-- `World::getFirstChild`. -/
def getFirstChild (w : World) (e : Nat) : Option Nat :=
  match hrecOf w e with
  | none => none
  | some h => h.firstChild

/-- `World::getNextSibling`. -/
def getNextSibling (w : World) (e : Nat) : Option Nat :=
  match hrecOf w e with
  | none => none
  | some h => h.nextSibling

/-- `World::hasEntity`: index in range and the slot is live. -/
def hasEntity (w : World) (e : Nat) : Bool :=
  match w.entities[e]? with
  | none => false
  | some d => d.valid

/-- `World::getTransform` (out-of-range reads, impossible for live entities,
default to the identity). -/
def getTransform (w : World) (e : Nat) : Tfm :=
  w.transforms[e]?.getD Tfm.id

def getPosition (w : World) (e : Nat) : V3 := (getTransform w e).pos

def getScale (w : World) (e : Nat) : V3 := (getTransform w e).scale

/-- Replace entity record `i` by `f` applied to it (in-place C++ field write;
writes out of range are dropped, matching the safe-access convention). -/
def entUpdate (w : World) (i : Nat) (f : EData → EData) : World :=
  match w.entities[i]? with
  | none => w
  | some d => { w with entities := w.entities.set i (f d) }

/-- Replace hierarchy record `i` by `f` applied to it. -/
def hierUpdate (w : World) (i : Nat) (f : Hrec → Hrec) : World :=
  match w.hierarchy[i]? with
  | none => w
  | some h => { w with hierarchy := w.hierarchy.set i (f h) }

/-- Replace transform record `i`. -/
def trSet (w : World) (i : Nat) (t : Tfm) : World :=
  { w with transforms := w.transforms.set i t }

/-- The chain of entities reached from a first-child pointer by following
next-sibling links, with explicit fuel (the C++ walks this chain with raw
pointers; in well-formed worlds the chain length is bounded by the number of
hierarchy records, so the fuel used below never runs out there). -/
def chainListF (w : World) : Option Nat → Nat → Option (List Nat)
  | none, _ => some []
  | some _, 0 => none
  | some e, fuel + 1 =>
    match chainListF w (getNextSibling w e) fuel with
    | none => none
    | some l => some (e :: l)

/-- The list of children of `p` in sibling order (`World::childrenOf`). -/
def childListF (w : World) (p : Nat) : Option (List Nat) :=
  chainListF w (getFirstChild w p) (w.hierarchy.length + 1)

/-- Depth-first search step of `World::isDescendant`: scans a child chain,
recursing into each child before moving to its next sibling.  Fuel bounds the
recursion depth in the (first-child, next-sibling) representation. -/
def isDescChain (w : World) (descendant : Nat) : Option Nat → Nat → Bool
  | none, _ => false
  | some _, 0 => false
  | some c, fuel + 1 =>
    if c = descendant then true
    else if isDescChain w descendant (getFirstChild w c) fuel then true
    else isDescChain w descendant (getNextSibling w c) fuel

/-- `World::isDescendant`. -/
def isDescendant (w : World) (ancestor descendant : Nat) : Bool :=
  isDescChain w descendant (getFirstChild w ancestor) (w.hierarchy.length + 1)

/-- The `collectGarbage` lambda inside `World::setParent`: frees the
hierarchy record of `entity` when it has neither parent nor children, by
moving the last record into its slot and popping (mirrors the statement
order of the source exactly, including the back-pointer updates). -/
def collectGarbage (w : World) (entity : Nat) : World :=
  match hiOf w entity with
  | none => w
  | some hidx =>
    match w.hierarchy[hidx]? with
    | none => w
    | some h =>
      if h.parent.isSome then w
      else if h.firstChild.isSome then w
      else
        match w.hierarchy.getLast? with
        | none => w
        | some last =>
          let w1 := entUpdate w last.entity (fun d => { d with hierarchy := some hidx })
          let w2 := entUpdate w1 entity (fun d => { d with hierarchy := none })
          let w3 := hierUpdate w2 hidx (fun _ => last)
          { w3 with hierarchy := w3.hierarchy.dropLast }

/-- Walk of the unlink loop in `World::setParent` beyond the first link: `y`
is the entity whose record currently holds the pointer being examined; when
its next sibling is `child` that pointer is redirected to `ns` and the loop
stops; when the chain ends the loop exits with no write. -/
def unlinkWalk (w : World) (child : Nat) (ns : Option Nat) : Nat → Nat → World
  | _, 0 => w
  | y, fuel + 1 =>
    match hiOf w y with
    | none => w
    | some yi =>
      match w.hierarchy[yi]? with
      | none => w
      | some yh =>
        match yh.nextSibling with
        | none => w
        | some z =>
          if z = child then hierUpdate w yi (fun h => { h with nextSibling := ns })
          else unlinkWalk w child ns z fuel

/-- The unlink loop in `World::setParent`: removes the first occurrence of
`child` from the sibling chain headed by the record at `opIdx` (the walk is
pointer-based in C++, starting at `&old_parent_h.first_child`; the
replacement value `getNextSibling(child)` is constant during the walk since
nothing is written before the single redirect). -/
def unlinkFromSiblings (w : World) (opIdx : Nat) (child : Nat) : World :=
  match w.hierarchy[opIdx]? with
  | none => w
  | some oph =>
    let ns := getNextSibling w child
    match oph.firstChild with
    | none => w
    | some y0 =>
      if y0 = child then hierUpdate w opIdx (fun h => { h with firstChild := ns })
      else unlinkWalk w child ns y0 (w.hierarchy.length + 1)

/-- `World::setParent`.  Mirrors the source: cycle guard, unlink from the old
parent with garbage collection, record creation for child and new parent as
needed, then the four writes that link `child` at the head of the new
parent's child list.  The refreshed `child_idx` read (source line 557) is
expressed by re-reading `hiOf` after the first phase, which is the identity
in the branches where the source does not refresh it. -/
def setParentPhase1 (w : World) (newParent : Option Nat) (child : Nat) : World :=
  match hiOf w child with
  | some childIdx =>
    match w.hierarchy[childIdx]? with
    | none => w
    | some ch =>
      match ch.parent with
      | none => w
      | some oldP =>
        let wA :=
          match hiOf w oldP with
          | none => w
          | some opIdx => unlinkFromSiblings w opIdx child
        let wB := hierUpdate wA childIdx
          (fun h => { h with parent := none, nextSibling := none })
        collectGarbage wB oldP
  | none =>
    match newParent with
    | some _ =>
      let idx := w.hierarchy.length
      let wn := entUpdate w child (fun d => { d with hierarchy := some idx })
      { wn with hierarchy := wn.hierarchy ++ [⟨child, none, none, none, Tfm.id⟩] }
    | none => w

def setParentPhase2 (w1 : World) (newParent : Option Nat) (child : Nat) : World :=
  match newParent with
  | some np =>
    match hiOf w1 child with
    | none => w1
    | some childIdx =>
      let step :=
        match hiOf w1 np with
        | some i => (w1, i)
        | none =>
          let i := w1.hierarchy.length
          let wn := entUpdate w1 np (fun d => { d with hierarchy := some i })
          ({ wn with hierarchy := wn.hierarchy ++ [(⟨np, none, none, none, Tfm.id⟩ : Hrec)] }, i)
      let w2 := step.1
      let npIdx := step.2
      let ptr := getTransform w2 np
      let ctr := getTransform w2 child
      let w3 := hierUpdate w2 childIdx
        (fun h => { h with parent := some np, localTf := ptr.inverted.mul ctr })
      let fc := w3.hierarchy[npIdx]?.bind (·.firstChild)
      let w4 := hierUpdate w3 childIdx (fun h => { h with nextSibling := fc })
      hierUpdate w4 npIdx (fun h => { h with firstChild := some child })
  | none =>
    match hiOf w1 child with
    | some _ => collectGarbage w1 child
    | none => w1

def setParent (w : World) (newParent : Option Nat) (child : Nat) : World :=
  let wouldCycle :=
    match newParent with
    | some np => isDescendant w child np
    | none => false
  if wouldCycle then w
  else setParentPhase2 (setParentPhase1 w newParent child) newParent child

mutual

/-- `World::transformEntity`: after a world-transform change, recompute the
cached local transform when requested, then push the new world transform to
every descendant (depth-first).  Fuel bounds the walk over the
(first-child, next-sibling) structure; in well-formed worlds the walk visits
each hierarchy record at most once. -/
def transformEntity (w : World) (entity : Nat) (updateLocal : Bool) : Nat → World
  | 0 => w
  | fuel + 1 =>
    match hiOf w entity with
    | none => w
    | some hidx =>
      let myTf := getTransform w entity
      let w1 :=
        if updateLocal then
          match w.hierarchy[hidx]?.bind (·.parent) with
          | some par =>
            hierUpdate w hidx
              (fun h => { h with localTf := (getTransform w par).inverted.mul myTf })
          | none => w
        else w
      transformChildren w1 myTf (w1.hierarchy[hidx]?.bind (·.firstChild)) fuel

/-- The child loop of `World::transformEntity`.  The child record is captured
before the recursive descent, exactly as the C++ reference `child_h` is; the
descent runs with `update_local = false` and therefore never modifies
hierarchy records, so the captured next-sibling matches the source read. -/
def transformChildren (w : World) (myTf : Tfm) : Option Nat → Nat → World
  | none, _ => w
  | some _, 0 => w
  | some c, fuel + 1 =>
    let childH := hrecOf w c
    let absTf := myTf.mul ((childH.map (·.localTf)).getD Tfm.id)
    let w1 := trSet w c absTf
    let w2 := transformEntity w1 c false fuel
    transformChildren w2 myTf (childH.bind (·.nextSibling)) fuel

end

/-- Default fuel for hierarchy walks: one more than the record count. -/
def hfuel (w : World) : Nat := w.hierarchy.length + 1

/-- `World::setPosition`. -/
def setPosition (w : World) (entity : Nat) (pos : V3) : World :=
  let t := getTransform w entity
  transformEntity (trSet w entity ⟨pos, t.rot, t.scale⟩) entity true (hfuel w)

/-- `World::setRotation`. -/
def setRotation (w : World) (entity : Nat) (rot : Quat) : World :=
  let t := getTransform w entity
  transformEntity (trSet w entity ⟨t.pos, rot, t.scale⟩) entity true (hfuel w)

/-- `World::setScale`. -/
def setScale (w : World) (entity : Nat) (scale : V3) : World :=
  let t := getTransform w entity
  transformEntity (trSet w entity ⟨t.pos, t.rot, scale⟩) entity true (hfuel w)

/-- `World::setTransform` (Transform overload). -/
def setTransform (w : World) (entity : Nat) (t : Tfm) : World :=
  transformEntity (trSet w entity t) entity true (hfuel w)

/-- `World::updateGlobalTransform`: recompose the world transform of `entity`
from its parent chain and cached local transform (the source asserts the
parent is valid). -/
def updateGlobalTransform (w : World) (entity : Nat) : World :=
  match hrecOf w entity with
  | none => w
  | some h =>
    match h.parent with
    | none => w
    | some par => setTransform w entity ((getTransform w par).mul h.localTf)

/-- `World::setLocalPosition`. -/
def setLocalPosition (w : World) (entity : Nat) (pos : V3) : World :=
  match hiOf w entity with
  | none => setPosition w entity pos
  | some hidx =>
    let w1 := hierUpdate w hidx
      (fun h => { h with localTf := ⟨pos, h.localTf.rot, h.localTf.scale⟩ })
    updateGlobalTransform w1 entity

/-- `World::createEntity`: reuse the head of the free list when one exists,
otherwise grow the dense arrays; initialize transform and entity record and
return the new handle. -/
def createPick (w : World) : Nat × World :=
  if 0 ≤ w.firstFree then
    let idx := w.firstFree.toNat
    let dnext := (w.entities[idx]?.map (·.next)).getD (-1)
    let wA := if 0 ≤ dnext then entUpdate w dnext.toNat (fun d => { d with prev := -1 }) else w
    (idx, { wA with firstFree := dnext })
  else
    (w.entities.length,
     { w with entities := w.entities ++ [⟨false, -1, -1, none, none⟩],
              transforms := w.transforms ++ [Tfm.id] })

def createEntity (w : World) (position : V3) (rotation : Quat) : Nat × World :=
  let pick := createPick w
  let idx := pick.1
  let wB := pick.2
  let wC := trSet wB idx ⟨position, rotation, V3.one⟩
  let wD := entUpdate wC idx (fun d => { d with name := none, hierarchy := none, valid := true })
  (idx, wD)

/-- The child-detach loop at the top of `World::destroyEntity`: keep
reparenting the first child to no-parent until none remains. -/
def detachChildren (w : World) (e : Nat) : Nat → World
  | 0 => w
  | fuel + 1 =>
    match getFirstChild w e with
    | none => w
    | some c => detachChildren (setParent w none c) e fuel

/-- `World::destroyEntity`: detach children and self from the hierarchy, mark
the slot dead, push it on the free list and recycle the name slot.  The
per-component destructor loop dispatches to externally registered scenes
(components are external collaborators per the spec) and only toggles the
unmodelled component mask, so it is omitted here. -/
def destroyMark (w2 : World) (entity : Nat) : World :=
  entUpdate w2 entity
    (fun d => { d with next := w2.firstFree, prev := -1, hierarchy := none, valid := false })

def destroyFreeLink (w2 : World) (entity : Nat) : World :=
  if 0 ≤ w2.firstFree
  then entUpdate (destroyMark w2 entity) w2.firstFree.toNat
    (fun d => { d with prev := (entity : Int) })
  else destroyMark w2 entity

def recycleName (w4 : World) (entity : Nat) : World :=
  match w4.entities[entity]?.bind (·.name) with
  | none => w4
  | some nidx =>
    let wA :=
      match w4.names.getLast? with
      | none => w4
      | some lastN => entUpdate w4 lastN.entity (fun d => { d with name := some nidx })
    let wB := { wA with names :=
      (match wA.names.getLast? with
       | none => wA.names
       | some lastN => (wA.names.set nidx lastN).dropLast) }
    entUpdate wB entity (fun d => { d with name := none })

def destroyRecycle (w2 : World) (entity : Nat) : World :=
  { recycleName (destroyFreeLink w2 entity) entity with firstFree := (entity : Int) }

def destroyEntity (w : World) (entity : Nat) : World :=
  destroyRecycle (setParent (detachChildren w entity (hfuel w)) none entity) entity

/-! ## World serialization (World::serialize / World::deserialize)

The C++ writes raw bytes into a memory stream; both sides agree on the value
sequence, so the stream is modelled as a list of typed items read back in
writing order (a type mismatch, impossible for streams produced by
`serialize`, makes the reader fail). -/

/-- One serialized value. -/
inductive WItem where
  | u32 (n : Nat)
  | ent (e : Option Nat)
  | dv3 (v : V3)
  | quat (q : Quat)
  | v3 (v : V3)
  | flt (q : ℚ)
  | str (s : String)
deriving DecidableEq, Repr

/-- `EntityMap`: remap table from serialized entity ids to runtime ids. -/
structure EntityMap where
  map : List (Option Nat)
deriving DecidableEq, Repr

def EntityMap.empty : EntityMap := ⟨[]⟩

/-- `EntityMap::get` (EntityPtr overload): bounds-checked lookup, invalid and
out-of-range ids map to invalid. -/
def EntityMap.get (m : EntityMap) (e : Option Nat) : Option Nat :=
  match e with
  | none => none
  | some i => if i < m.map.length then m.map[i]?.getD none else none

/-- `EntityMap::get` (EntityRef overload): unchecked lookup; the C++ assumes
the mapping exists and is valid, a missing entry defaults to entity 0. -/
def EntityMap.getRef (m : EntityMap) (e : Nat) : Nat :=
  ((m.map[e]?.getD none).getD 0)

/-- `EntityMap::set`: grow with invalid entries up to `src`, then assign. -/
def EntityMap.set (m : EntityMap) (src dst : Nat) : EntityMap :=
  let padded := m.map ++ List.replicate (src + 1 - m.map.length) (none : Option Nat)
  ⟨padded.set src (some dst)⟩

/-- `World::serialize`: entity count, the live entities with their transforms
terminated by an invalid-entity sentinel, the name table, then the whole
hierarchy table. -/
def serializeWorld (w : World) : List WItem :=
  [WItem.u32 w.entities.length]
  ++ (List.range w.entities.length).foldr
      (fun i acc =>
        match w.entities[i]? with
        | some d =>
          if d.valid then
            WItem.ent (some i) :: WItem.dv3 (getTransform w i).pos ::
            WItem.quat (getTransform w i).rot :: WItem.v3 (getTransform w i).scale :: acc
          else acc
        | none => acc) []
  ++ [WItem.ent none]
  ++ [WItem.u32 w.names.length]
  ++ (w.names.map (fun n => [WItem.ent (some n.entity), WItem.str n.name])).flatten
  ++ [WItem.u32 w.hierarchy.length]
  ++ (w.hierarchy.map
      (fun h => [WItem.ent (some h.entity), WItem.ent h.parent, WItem.ent h.firstChild,
                 WItem.ent h.nextSibling, WItem.dv3 h.localTf.pos, WItem.quat h.localTf.rot,
                 WItem.v3 h.localTf.scale])).flatten

def readU32 : List WItem → Option (Nat × List WItem)
  | WItem.u32 n :: r => some (n, r)
  | _ => none

def readEnt : List WItem → Option (Option Nat × List WItem)
  | WItem.ent e :: r => some (e, r)
  | _ => none

def readDv3 : List WItem → Option (V3 × List WItem)
  | WItem.dv3 v :: r => some (v, r)
  | _ => none

def readQuat : List WItem → Option (Quat × List WItem)
  | WItem.quat q :: r => some (q, r)
  | _ => none

def readV3 : List WItem → Option (V3 × List WItem)
  | WItem.v3 v :: r => some (v, r)
  | _ => none

def readFlt : List WItem → Option (ℚ × List WItem)
  | WItem.flt q :: r => some (q, r)
  | _ => none

def readStr : List WItem → Option (String × List WItem)
  | WItem.str s :: r => some (s, r)
  | _ => none

/-- Entity loop of `World::deserialize`: read entities until the sentinel,
creating each in the target world and recording the id mapping.  After the
scale read the source unconditionally copies `scale.x` into `scale.y` and
`scale.z` (world.cpp line 735), on the `vec3_scale` branch as well; that
statement is translated as written. -/
def dsEntities (w : World) (em : EntityMap) (vec3Scale : Bool) :
    List WItem → Nat → Option (World × EntityMap × List WItem)
  | _, 0 => none
  | items, fuel + 1 => do
    let (e, r0) ← readEnt items
    match e with
    | none => some (w, em, r0)
    | some orig =>
      let c := createEntity w V3.zero Quat.id
      let newE := c.1
      let w1 := c.2
      let em1 := em.set orig newE
      let (pos, r1) ← readDv3 r0
      let (rot, r2) ← readQuat r1
      let (scale, r3) ←
        if vec3Scale then readV3 r2
        else do
          let (sx, ra) ← readFlt r2
          let (_, rb) ← readFlt ra
          some ((⟨sx, 0, 0⟩ : V3), rb)
      let w2 := trSet w1 newE ⟨pos, rot, scale⟩
      let t := getTransform w2 newE
      let w3 := trSet w2 newE ⟨t.pos, t.rot, ⟨t.scale.x, t.scale.x, t.scale.x⟩⟩
      dsEntities w3 em1 vec3Scale r3 fuel

/-- Name loop of `World::deserialize`. -/
def dsNames (w : World) (em : EntityMap) : List WItem → Nat → Option (World × List WItem)
  | items, 0 => some (w, items)
  | items, count + 1 => do
    let (e, r0) ← readEnt items
    let orig ← e
    let mapped := em.getRef orig
    let (s, r1) ← readStr r0
    let w1 := { w with names := w.names ++ [⟨mapped, s⟩] }
    let w2 := entUpdate w1 mapped (fun d => { d with name := some (w1.names.length - 1) })
    dsNames w2 em r1 count

/-- Hierarchy loop of `World::deserialize`: read each record, remap every
entity reference through the map, and point the owning entity at the new
record index. -/
def dsHier (w : World) (em : EntityMap) (vec3Scale : Bool) :
    List WItem → Nat → Option (World × List WItem)
  | items, 0 => some (w, items)
  | items, count + 1 => do
    let (e, r0) ← readEnt items
    let ent0 ← e
    let (par, r1) ← readEnt r0
    let (fc, r2) ← readEnt r1
    let (ns, r3) ← readEnt r2
    let (lpos, r4) ← readDv3 r3
    let (lrot, r5) ← readQuat r4
    let (lscale, r6) ←
      if vec3Scale then readV3 r5
      else do
        let (sx, ra) ← readFlt r5
        let (_, rb) ← readFlt ra
        some ((⟨sx, sx, sx⟩ : V3), rb)
    let entM := em.getRef ent0
    let idx := w.hierarchy.length
    let w1 := { w with hierarchy := w.hierarchy ++
      [(⟨entM, em.get par, em.get fc, em.get ns, ⟨lpos, lrot, lscale⟩⟩ : Hrec)] }
    let w2 := entUpdate w1 entM (fun d => { d with hierarchy := some idx })
    dsHier w2 em vec3Scale r6 count

/-- `World::deserialize`. -/
def deserializeWorld (w : World) (items : List WItem) (em : EntityMap) (vec3Scale : Bool) :
    Option (World × EntityMap) := do
  let (_, r0) ← readU32 items
  let (w1, em1, r1) ← dsEntities w em vec3Scale r0 (items.length + 1)
  let (nameCount, r2) ← readU32 r1
  let (w2, r3) ← dsNames w1 em1 r2 nameCount
  let (hierCount, r4) ← readU32 r3
  let (w3, _) ← dsHier w2 em1 vec3Scale r4 hierCount
  some (w3, em1)

/-! ## Theorems about the World store -/

/-- Auxiliary: the singleton world used by the serialization round-trip
evaluation, holding one live entity with the non-uniform scale (1, 2, 3). -/
def scaleWorld : World :=
  setScale (createEntity World.empty V3.zero Quat.id).2 0 ⟨1, 2, 3⟩

/-- C2: serializing a world with a live entity of non-uniform scale (1,2,3)
and deserializing the stream into a fresh world with `vec3_scale = true`
(identity entity remap: the single live entity 0 maps to 0) yields scale
(1,1,1), not (1,2,3): the unconditional flattening at world.cpp line 735
overwrites the y and z components that `serialize` wrote and `deserialize`
read, so the round trip does not reproduce the full 3-component scale. -/
theorem roundTripDropsScale :
    getScale scaleWorld 0 = ⟨1, 2, 3⟩ ∧
    (deserializeWorld World.empty (serializeWorld scaleWorld) EntityMap.empty true).map
      (fun p => getScale p.1 0) = some ⟨1, 1, 1⟩ ∧
    (deserializeWorld World.empty (serializeWorld scaleWorld) EntityMap.empty true).map
      (fun p => p.2.get (some 0)) = some (some 0) := by
  decide

/-- Stage worlds for the C8 scenario, written out explicitly so each step of
the scenario can be checked by definitional unfolding. -/
def tfmA : Tfm := ⟨V3.zero, Quat.id, V3.one⟩

def w2X (bt : Tfm) : World :=
  ⟨[⟨true, -1, -1, none, none⟩, ⟨true, -1, -1, none, none⟩],
   [tfmA, bt], [], [], -1⟩

theorem tfm_id_mul (b : Tfm) : tfmA.mul b = b := by
  cases b with
  | mk p r s =>
    cases p; cases r; cases s
    simp only [tfmA, Tfm.mul, Quat.rotate, Quat.mul, Quat.conjugated, Quat.id,
      V3.hadamard, V3.add, V3.one, V3.zero, Tfm.mk.injEq, V3.mk.injEq, Quat.mk.injEq]
    norm_num

theorem tfm_id_inverted : tfmA.inverted = tfmA := by
  simp only [tfmA, Tfm.inverted, Quat.conjugated, Quat.rotate, Quat.mul, V3.neg,
    V3.recip, V3.hadamard, V3.zero, V3.one, Quat.id, Tfm.mk.injEq, V3.mk.injEq,
    Quat.mk.injEq]
  norm_num

/-- World shape shared by the later stages of the C8 scenario: entity 1 is
the sole child of entity 0, with world transforms `t0`, `t1` and cached local
transform `lt` on the child record. -/
def wLinked (t0 t1 lt : Tfm) : World :=
  ⟨[⟨true, -1, -1, none, some 1⟩, ⟨true, -1, -1, none, some 0⟩],
   [t0, t1], [],
   [⟨1, some 0, none, none, lt⟩, ⟨0, none, some 1, none, Tfm.id⟩], -1⟩

/-- C8: create A at the origin with identity rotation, create B anywhere,
parent B under A (`setParent(A, B)`), set the local position of B to
(1,0,0): the world position of B is (1,0,0); after `setPosition(A, (5,0,0))`
the hierarchy propagation yields position (6,0,0) for B. -/
theorem parentChildPositions (bpos : V3) (brot : Quat) :
    (let a := createEntity World.empty V3.zero Quat.id
     let b := createEntity a.2 bpos brot
     let w3 := setParent b.2 (some a.1) b.1
     let w4 := setLocalPosition w3 b.1 ⟨1, 0, 0⟩
     let w5 := setPosition w4 a.1 ⟨5, 0, 0⟩
     getPosition w4 b.1 = ⟨1, 0, 0⟩ ∧ getPosition w5 b.1 = ⟨6, 0, 0⟩) := by
  show getPosition (setLocalPosition (setParent (w2X ⟨bpos, brot, V3.one⟩) (some 0) 1) 1 ⟨1, 0, 0⟩) 1
        = ⟨1, 0, 0⟩ ∧
      getPosition (setPosition (setLocalPosition (setParent (w2X ⟨bpos, brot, V3.one⟩) (some 0) 1)
          1 ⟨1, 0, 0⟩) 0 ⟨5, 0, 0⟩) 1 = ⟨6, 0, 0⟩
  have h3 : setParent (w2X ⟨bpos, brot, V3.one⟩) (some 0) 1 =
      wLinked tfmA ⟨bpos, brot, V3.one⟩ (tfmA.inverted.mul ⟨bpos, brot, V3.one⟩) := rfl
  rw [h3, tfm_id_inverted, tfm_id_mul]
  have h4 : setLocalPosition (wLinked tfmA ⟨bpos, brot, V3.one⟩ ⟨bpos, brot, V3.one⟩) 1 ⟨1, 0, 0⟩ =
      wLinked tfmA (tfmA.mul ⟨⟨1, 0, 0⟩, brot, V3.one⟩)
        (tfmA.inverted.mul (tfmA.mul ⟨⟨1, 0, 0⟩, brot, V3.one⟩)) := rfl
  rw [h4, tfm_id_inverted, tfm_id_mul, tfm_id_mul]
  constructor
  · rfl
  · have h5 : setPosition (wLinked tfmA ⟨⟨1, 0, 0⟩, brot, V3.one⟩ ⟨⟨1, 0, 0⟩, brot, V3.one⟩)
        0 ⟨5, 0, 0⟩ =
        wLinked ⟨⟨5, 0, 0⟩, Quat.id, V3.one⟩
          ((⟨⟨5, 0, 0⟩, Quat.id, V3.one⟩ : Tfm).mul ⟨⟨1, 0, 0⟩, brot, V3.one⟩)
          ⟨⟨1, 0, 0⟩, brot, V3.one⟩ := rfl
    rw [h5]
    show ((⟨⟨5, 0, 0⟩, Quat.id, V3.one⟩ : Tfm).mul ⟨⟨1, 0, 0⟩, brot, V3.one⟩).pos = ⟨6, 0, 0⟩
    simp only [Tfm.mul, Quat.rotate, Quat.mul, Quat.conjugated, Quat.id, V3.hadamard, V3.one,
      V3.add, V3.mk.injEq]
    norm_num

/-! ## C9: hasEntity after createEntity and destroyEntity -/

/-- Free-list sanity: the head of the free list, when present, indexes into
the dense entity array (the C++ maintains this; `createEntity` dereferences
the head without a check). -/
def freeOk (w : World) : Bool :=
  w.firstFree < 0 || w.firstFree.toNat < w.entities.length

/-- Two worlds with pointwise identical liveness flags. -/
def ValidSame (w v : World) : Prop :=
  ∀ j : Nat, v.entities[j]?.map (·.valid) = w.entities[j]?.map (·.valid)

theorem validSame_refl (w : World) : ValidSame w w := fun _ => rfl

theorem validSame_trans {w v u : World} (h1 : ValidSame w v) (h2 : ValidSame v u) :
    ValidSame w u := fun j => (h2 j).trans (h1 j)

theorem validSame_of_entities_eq {w v : World} (h : v.entities = w.entities) :
    ValidSame w v := fun j => by rw [h]

theorem validSame_entUpdate (w : World) (i : Nat) (f : EData → EData)
    (hf : ∀ d, (f d).valid = d.valid) : ValidSame w (entUpdate w i f) := by
  intro j
  unfold entUpdate
  cases h : w.entities[i]? with
  | none => rfl
  | some d =>
    by_cases hij : i = j
    · subst hij
      simp only [List.getElem?_set_self', h, Option.map_map]
      simp [hf d, Function.const]
    · simp only [List.getElem?_set_ne hij]

theorem entities_hierUpdate (w : World) (i : Nat) (f : Hrec → Hrec) :
    (hierUpdate w i f).entities = w.entities := by
  unfold hierUpdate
  cases w.hierarchy[i]? <;> rfl

theorem entities_trSet (w : World) (i : Nat) (t : Tfm) :
    (trSet w i t).entities = w.entities := rfl

theorem validSame_collectGarbage (w : World) (e : Nat) :
    ValidSame w (collectGarbage w e) := by
  unfold collectGarbage
  split
  · exact validSame_refl w
  rename_i hidx heq1
  split
  · exact validSame_refl w
  rename_i h heq2
  split
  · exact validSame_refl w
  split
  · exact validSame_refl w
  split
  · exact validSame_refl w
  rename_i last heq3
  have s1 : ValidSame w (entUpdate w last.entity (fun d => { d with hierarchy := some hidx })) :=
    validSame_entUpdate _ _ _ (fun _ => rfl)
  have s2 := validSame_trans s1 (validSame_entUpdate
    (entUpdate w last.entity (fun d => { d with hierarchy := some hidx })) e
    (fun d => { d with hierarchy := none }) (fun _ => rfl))
  have s3 := validSame_trans s2 (validSame_of_entities_eq (entities_hierUpdate
    (entUpdate (entUpdate w last.entity (fun d => { d with hierarchy := some hidx })) e
      (fun d => { d with hierarchy := none })) hidx (fun _ => last)))
  exact validSame_trans s3 (validSame_of_entities_eq rfl)

theorem validSame_unlinkWalk (w : World) (child : Nat) (ns : Option Nat) (y fuel : Nat) :
    ValidSame w (unlinkWalk w child ns y fuel) := by
  induction fuel generalizing y with
  | zero => exact validSame_refl w
  | succ fuel ih =>
    unfold unlinkWalk
    repeat' split
    any_goals exact validSame_refl w
    · exact validSame_of_entities_eq (entities_hierUpdate _ _ _)
    · exact ih _

theorem validSame_unlinkFromSiblings (w : World) (opIdx child : Nat) :
    ValidSame w (unlinkFromSiblings w opIdx child) := by
  unfold unlinkFromSiblings
  repeat' split
  any_goals exact validSame_refl w
  · exact validSame_of_entities_eq (entities_hierUpdate _ _ _)
  · exact validSame_unlinkWalk _ _ _ _ _

theorem validSame_hier_then_gc (w : World) (i : Nat) (f : Hrec → Hrec) (g : Nat) :
    ValidSame w (collectGarbage (hierUpdate w i f) g) :=
  validSame_trans (validSame_of_entities_eq (entities_hierUpdate w i f))
    (validSame_collectGarbage _ g)

theorem validSame_hier3 (w : World) (i1 i2 i3 : Nat) (f1 f2 f3 : Hrec → Hrec) :
    ValidSame w (hierUpdate (hierUpdate (hierUpdate w i1 f1) i2 f2) i3 f3) :=
  validSame_trans (validSame_of_entities_eq (entities_hierUpdate w i1 f1))
    (validSame_trans (validSame_of_entities_eq (entities_hierUpdate _ i2 f2))
      (validSame_of_entities_eq (entities_hierUpdate _ i3 f3)))

theorem validSame_setParentPhase1 (w : World) (np : Option Nat) (child : Nat) :
    ValidSame w (setParentPhase1 w np child) := by
  unfold setParentPhase1
  split
  · rename_i childIdx heq1
    split
    · exact validSame_refl w
    rename_i ch heq2
    split
    · exact validSame_refl w
    rename_i oldP heq3
    have sA : ValidSame w (match hiOf w oldP with
        | none => w
        | some opIdx => unlinkFromSiblings w opIdx child) := by
      split
      · exact validSame_refl w
      · exact validSame_unlinkFromSiblings _ _ _
    exact validSame_trans sA (validSame_hier_then_gc _ _ _ _)
  · split
    · exact validSame_trans
        (validSame_entUpdate w child (fun d => { d with hierarchy := some w.hierarchy.length })
          (fun _ => rfl))
        (validSame_of_entities_eq rfl)
    · exact validSame_refl w

theorem validSame_setParentPhase2 (w1 : World) (np : Option Nat) (child : Nat) :
    ValidSame w1 (setParentPhase2 w1 np child) := by
  unfold setParentPhase2
  split
  · rename_i np2
    split
    · exact validSame_refl w1
    rename_i childIdx heq1
    have sStep : ValidSame w1 (match hiOf w1 np2 with
        | some i => (w1, i)
        | none =>
          let i := w1.hierarchy.length
          let wn := entUpdate w1 np2 (fun d => { d with hierarchy := some i })
          ({ wn with hierarchy := wn.hierarchy ++ [(⟨np2, none, none, none, Tfm.id⟩ : Hrec)] },
           i)).1 := by
      split
      · exact validSame_refl w1
      · exact validSame_trans
          (validSame_entUpdate w1 np2
            (fun d => { d with hierarchy := some w1.hierarchy.length }) (fun _ => rfl))
          (validSame_of_entities_eq rfl)
    exact validSame_trans sStep (validSame_hier3 _ _ _ _ _ _ _)
  · split
    · exact validSame_collectGarbage _ _
    · exact validSame_refl w1

theorem validSame_setParent (w : World) (np : Option Nat) (child : Nat) :
    ValidSame w (setParent w np child) := by
  unfold setParent
  cases np with
  | none =>
    exact validSame_trans (validSame_setParentPhase1 w none child)
      (validSame_setParentPhase2 _ none child)
  | some np2 =>
    show ValidSame w (if isDescendant w child np2 = true then w
      else setParentPhase2 (setParentPhase1 w (some np2) child) (some np2) child)
    by_cases hc : isDescendant w child np2 = true
    · rw [if_pos hc]
      exact validSame_refl w
    · rw [if_neg hc]
      exact validSame_trans (validSame_setParentPhase1 w (some np2) child)
        (validSame_setParentPhase2 _ (some np2) child)

theorem validSame_detachChildren (w : World) (e fuel : Nat) :
    ValidSame w (detachChildren w e fuel) := by
  induction fuel generalizing w with
  | zero => exact validSame_refl w
  | succ fuel ih =>
    unfold detachChildren
    split
    · exact validSame_refl w
    · exact validSame_trans (validSame_setParent w none _) (ih _)

theorem entities_length_entUpdate (w : World) (i : Nat) (f : EData → EData) :
    (entUpdate w i f).entities.length = w.entities.length := by
  unfold entUpdate
  cases w.entities[i]? with
  | none => rfl
  | some d => exact List.length_set ..

theorem hasEntity_entUpdate_self (w : World) (i : Nat) (f : EData → EData)
    (hi : i < w.entities.length) (hv : ∀ d, (f d).valid = true) :
    hasEntity (entUpdate w i f) i = true := by
  unfold entUpdate hasEntity
  cases h : w.entities[i]? with
  | none =>
    rw [List.getElem?_eq_none_iff] at h
    omega
  | some d =>
    simp only [List.getElem?_set_self', h, Option.map_some']
    exact hv d

theorem hasEntity_create_aux (w0 : World) (idx : Nat) (pos : V3) (rot : Quat)
    (hlt : idx < w0.entities.length) :
    hasEntity (entUpdate (trSet w0 idx ⟨pos, rot, V3.one⟩) idx
      (fun d => { d with name := none, hierarchy := none, valid := true })) idx = true :=
  hasEntity_entUpdate_self _ idx _ hlt (fun _ => rfl)

theorem createPick_fst_lt (w : World) (h : freeOk w = true) :
    (createPick w).1 < (createPick w).2.entities.length := by
  unfold createPick
  split
  · rename_i hf
    have hlt : w.firstFree.toNat < w.entities.length := by
      unfold freeOk at h
      rw [Bool.or_eq_true, decide_eq_true_iff, decide_eq_true_iff] at h
      omega
    show w.firstFree.toNat <
      (if 0 ≤ (w.entities[w.firstFree.toNat]?.map (·.next)).getD (-1)
       then entUpdate w ((w.entities[w.firstFree.toNat]?.map (·.next)).getD (-1)).toNat
         (fun d => { d with prev := -1 })
       else w).entities.length
    split
    · rw [entities_length_entUpdate]; exact hlt
    · exact hlt
  · show w.entities.length < (w.entities ++ [(⟨false, -1, -1, none, none⟩ : EData)]).length
    simp

theorem validSame_recycleName (w4 : World) (e : Nat) :
    ValidSame w4 (recycleName w4 e) := by
  unfold recycleName
  split
  · exact validSame_refl w4
  rename_i nidx heq
  have sA : ValidSame w4 (match w4.names.getLast? with
      | none => w4
      | some lastN => entUpdate w4 lastN.entity (fun d => { d with name := some nidx })) := by
    split
    · exact validSame_refl w4
    · exact validSame_entUpdate w4 _ _ (fun _ => rfl)
  refine validSame_trans sA ?_
  refine validSame_trans (validSame_of_entities_eq rfl) ?_
  exact validSame_entUpdate _ e _ (fun _ => rfl)

theorem validSame_destroyFreeLink (w2 : World) (e : Nat) :
    ValidSame (destroyMark w2 e) (destroyFreeLink w2 e) := by
  unfold destroyFreeLink
  split
  · exact validSame_entUpdate (destroyMark w2 e) _ _ (fun _ => rfl)
  · exact validSame_refl (destroyMark w2 e)

theorem destroyMark_valid (w2 : World) (e : Nat) (d : EData)
    (hd : w2.entities[e]? = some d) :
    (destroyMark w2 e).entities[e]?.map (·.valid) = some false := by
  unfold destroyMark entUpdate
  rw [hd]
  simp [List.getElem?_set_self', hd]

theorem hasEntity_destroyRecycle (w2 : World) (e : Nat) (d : EData)
    (hd : w2.entities[e]? = some d) :
    hasEntity (destroyRecycle w2 e) e = false := by
  have key : (destroyRecycle w2 e).entities[e]?.map (·.valid) = some false := by
    calc (destroyRecycle w2 e).entities[e]?.map (·.valid)
        = (recycleName (destroyFreeLink w2 e) e).entities[e]?.map (·.valid) := rfl
      _ = (destroyFreeLink w2 e).entities[e]?.map (·.valid) :=
          validSame_recycleName (destroyFreeLink w2 e) e e
      _ = (destroyMark w2 e).entities[e]?.map (·.valid) := validSame_destroyFreeLink w2 e e
      _ = some false := destroyMark_valid w2 e d hd
  unfold hasEntity
  cases hy : (destroyRecycle w2 e).entities[e]? with
  | none => rfl
  | some d2 => rw [hy] at key; simpa using key

/-- C9: `hasEntity` is true for the handle returned by `createEntity`, on
both the free-list-reuse path and the dense-array-growth path (the free-list
head, when present, is in range), and false immediately after
`destroyEntity` of a live entity. -/
theorem hasEntityCreateDestroy :
    (∀ (w : World) (pos : V3) (rot : Quat), freeOk w = true →
      hasEntity (createEntity w pos rot).2 (createEntity w pos rot).1 = true) ∧
    (∀ (w : World) (e : Nat), hasEntity w e = true →
      hasEntity (destroyEntity w e) e = false) := by
  constructor
  · intro w pos rot h
    exact hasEntity_create_aux (createPick w).2 (createPick w).1 pos rot (createPick_fst_lt w h)
  · intro w e h
    have hs : ValidSame w (setParent (detachChildren w e (hfuel w)) none e) :=
      validSame_trans (validSame_detachChildren w e (hfuel w)) (validSame_setParent _ none e)
    have h2 : (setParent (detachChildren w e (hfuel w)) none e).entities[e]?.map (·.valid) =
        some true := by
      rw [hs e]
      unfold hasEntity at h
      revert h
      cases hx : w.entities[e]? with
      | none => intro h; simp at h
      | some d => intro h; simp at h; simp [h]
    obtain ⟨d, hd, _⟩ : ∃ d,
        (setParent (detachChildren w e (hfuel w)) none e).entities[e]? = some d ∧
        d.valid = true := by
      cases hx : (setParent (detachChildren w e (hfuel w)) none e).entities[e]? with
      | none => rw [hx] at h2; exact absurd h2 (by simp)
      | some d => rw [hx] at h2; exact ⟨d, rfl, by simpa using h2⟩
    exact hasEntity_destroyRecycle _ e d hd

/-- Witness for C9: a fresh world exercises the growth path, and creating
into the world left by a destroy exercises the free-list-reuse path. -/
theorem hasEntityCreateDestroy_witness :
    (freeOk World.empty = true ∧
      hasEntity (createEntity World.empty V3.zero Quat.id).2
        (createEntity World.empty V3.zero Quat.id).1 = true) ∧
    (hasEntity (createEntity World.empty V3.zero Quat.id).2 0 = true ∧
      hasEntity (destroyEntity (createEntity World.empty V3.zero Quat.id).2 0) 0 = false) ∧
    (freeOk (destroyEntity (createEntity World.empty V3.zero Quat.id).2 0) = true ∧
      hasEntity (createEntity (destroyEntity (createEntity World.empty V3.zero Quat.id).2 0)
          V3.zero Quat.id).2
        (createEntity (destroyEntity (createEntity World.empty V3.zero Quat.id).2 0)
          V3.zero Quat.id).1 = true) :=
  ⟨⟨by decide, hasEntityCreateDestroy.1 World.empty V3.zero Quat.id (by decide)⟩,
   ⟨by decide, hasEntityCreateDestroy.2 (createEntity World.empty V3.zero Quat.id).2 0 (by decide)⟩,
   ⟨by decide, hasEntityCreateDestroy.1 (destroyEntity (createEntity World.empty V3.zero Quat.id).2 0)
      V3.zero Quat.id (by decide)⟩⟩

/-! ## Blend1D active-pair selection (nodes.cpp, getActivePair) -/

/-- Result of `getActivePair`: the C++ returns pointers into the child
array plus an interpolation weight; indices stand for the pointers
(`ia` = `pair.a`, `ib` = `pair.b`, `t` = `pair.t`). -/
structure APair where
  ia : Nat
  ib : Option Nat
  t : ℚ
deriving DecidableEq, Repr

/-- Parameter value of Blend1D child `i` (`children[i].value`); children are
(value, slot) pairs.  Out-of-range reads, which the C++ never performs on the
paths modelled, default to value 0. -/
def apVal (children : List (ℚ × Nat)) (i : Nat) : ℚ :=
  (children.getD i (0, 0)).1

/-- The linear scan inside `getActivePair`: starting at index 1, return the
first bracketing pair; the fuel is the child count, enough for the whole
scan, and exhaustion coincides with the loop fall-through result. -/
def apScan (children : List (ℚ × Nat)) (v : ℚ) : Nat → Nat → APair
  | _, 0 => ⟨0, none, 0⟩
  | i, fuel + 1 =>
    if i < children.length then
      if v < apVal children i then
        ⟨i - 1, some i,
         (v - apVal children (i - 1)) / (apVal children i - apVal children (i - 1))⟩
      else apScan children v (i + 1) fuel
    else ⟨0, none, 0⟩

/-- `getActivePair` (nodes.cpp): boundary children outside the range, else
the bracketing pair found by linear scan. -/
def getActivePair (children : List (ℚ × Nat)) (v : ℚ) : APair :=
  if v > apVal children 0 then
    if v ≥ apVal children (children.length - 1) then ⟨children.length - 1, none, 0⟩
    else apScan children v 1 children.length
  else ⟨0, none, 0⟩

theorem apVal_mono (children : List (ℚ × Nat))
    (hs : children.Pairwise (fun a b => a.1 < b.1)) {i j : Nat}
    (hij : i < j) (hj : j < children.length) :
    apVal children i < apVal children j := by
  have h := List.pairwise_iff_getElem.mp hs i j (lt_trans hij hj) hj hij
  have hi : i < children.length := lt_trans hij hj
  simp only [apVal, List.getD_eq_getElem?_getD, List.getElem?_eq_getElem hi,
    List.getElem?_eq_getElem hj, Option.getD_some]
  exact h

theorem apScan_spec (children : List (ℚ × Nat)) (v : ℚ)
    (hlast : v < apVal children (children.length - 1)) :
    ∀ fuel i, children.length ≤ i + fuel → 1 ≤ i → i < children.length →
      apVal children (i - 1) ≤ v →
      ∃ j, i ≤ j ∧ j < children.length ∧ apVal children (j - 1) ≤ v ∧ v < apVal children j ∧
        apScan children v i fuel =
          ⟨j - 1, some j,
           (v - apVal children (j - 1)) / (apVal children j - apVal children (j - 1))⟩ := by
  intro fuel
  induction fuel with
  | zero =>
    intro i hle h1 hlt _
    omega
  | succ fuel ih =>
    intro i hle h1 hlt hprev
    by_cases hv : v < apVal children i
    · refine ⟨i, le_refl i, hlt, hprev, hv, ?_⟩
      unfold apScan
      rw [if_pos hlt, if_pos hv]
    · push_neg at hv
      have hinext : i + 1 < children.length := by
        by_contra hc
        push_neg at hc
        have hi : i = children.length - 1 := by omega
        rw [hi] at hv
        exact absurd hlast (not_lt.mpr hv)
      obtain ⟨j, hj1, hj2, hj3, hj4, hj5⟩ :=
        ih (i + 1) (by omega) (by omega) hinext (by simpa using hv)
      refine ⟨j, by omega, hj2, hj3, hj4, ?_⟩
      unfold apScan
      rw [if_pos hlt, if_neg (not_lt.mpr hv)]
      exact hj5

/-- C7: for a Blend1D node with strictly ascending child parameter values,
the active-pair selection returns the first child alone (weight 0) when the
input is at most the first value, the last child alone when the input is at
least the last value, and otherwise the bracketing pair with the linear
interpolation weight; in particular children at values [0, 1] with input 0.5
give exactly that pair with weight 0.5. -/
theorem blend1dActivePair (children : List (ℚ × Nat)) (v : ℚ)
    (hne : children ≠ [])
    (hs : children.Pairwise (fun a b => a.1 < b.1)) :
    (v ≤ apVal children 0 → getActivePair children v = ⟨0, none, 0⟩) ∧
    (apVal children (children.length - 1) ≤ v →
      getActivePair children v = ⟨children.length - 1, none, 0⟩) ∧
    (apVal children 0 < v → v < apVal children (children.length - 1) →
      ∃ i, 0 < i ∧ i < children.length ∧ apVal children (i - 1) ≤ v ∧ v < apVal children i ∧
        getActivePair children v =
          ⟨i - 1, some i,
           (v - apVal children (i - 1)) / (apVal children i - apVal children (i - 1))⟩) ∧
    (∀ s0 s1 : Nat, getActivePair [(0, s0), (1, s1)] (1 / 2) = ⟨0, some 1, 1 / 2⟩) := by
  have hpos : 0 < children.length := List.length_pos.mpr hne
  refine ⟨?_, ?_, ?_, ?_⟩
  · intro h
    unfold getActivePair
    rw [if_neg (not_lt.mpr h)]
  · intro h
    by_cases hgt : apVal children 0 < v
    · unfold getActivePair
      rw [if_pos hgt, if_pos h]
    · push_neg at hgt
      have hlen1 : children.length = 1 := by
        by_contra hc
        have h2 : 2 ≤ children.length := by omega
        have := apVal_mono children hs (i := 0) (j := children.length - 1)
          (by omega) (by omega)
        have : apVal children 0 < apVal children 0 :=
          lt_of_lt_of_le this (le_trans h hgt)
        exact absurd this (lt_irrefl _)
      unfold getActivePair
      rw [if_neg (not_lt.mpr hgt), hlen1]
  · intro hgt hlt
    have h2 : 2 ≤ children.length := by
      by_contra hc
      have hlen1 : children.length = 1 := by omega
      rw [hlen1] at hlt
      simp only [Nat.sub_self] at hlt
      exact absurd (lt_trans hgt hlt) (lt_irrefl _)
    obtain ⟨j, hj1, hj2, hj3, hj4, hj5⟩ :=
      apScan_spec children v hlt children.length 1 (by omega) (le_refl 1) (by omega)
        (by simpa using le_of_lt hgt)
    refine ⟨j, by omega, hj2, hj3, hj4, ?_⟩
    unfold getActivePair
    rw [if_pos hgt, if_neg (not_le.mpr hlt)]
    exact hj5
  · intro s0 s1
    unfold getActivePair apScan apVal
    norm_num

/-- Witness for C7: applies the theorem at the two-child configuration of
the claim. -/
theorem blend1dActivePair_witness :
    ([((0 : ℚ), (5 : Nat)), (1, 7)] ≠ []) ∧
    (List.Pairwise (fun a b => a.1 < b.1) [((0 : ℚ), (5 : Nat)), (1, 7)]) ∧
    getActivePair [((0 : ℚ), (5 : Nat)), (1, 7)] (1 / 2) = ⟨0, some 1, 1 / 2⟩ :=
  ⟨by decide, by decide,
   (blend1dActivePair [((0 : ℚ), (5 : Nat)), (1, 7)] (1 / 2) (by decide) (by decide)).2.2.2 5 7⟩

/-! ## Blend2D triangulation (nodes.cpp, Blend2DNode::dataChanged) -/

/-- Blend2D triangle (`Blend2DNode::Triangle`): three child indices and the
cached circumcircle center. -/
structure B2Tri where
  a : Nat
  b : Nat
  c : Nat
  circumcircleCenter : V2
deriving DecidableEq, Repr

/-- Division of a Vec2 by a scalar (componentwise; ℚ division by zero is 0,
the C++ float would produce inf/nan, irrelevant to the claims proved). -/
def V2.divScalar (v : V2) (q : ℚ) : V2 := ⟨v.x / q, v.y / q⟩

/-- `computeCircumcircleCenter` (nodes.cpp). -/
def computeCircumcircleCenter (a b c : V2) : V2 :=
  let dab := b.sub a
  let dac := c.sub a
  let o := (((V2.smul dab.squaredLength dac).sub (V2.smul dac.squaredLength dab)).ortho).divScalar
    ((dab.x * dac.y - dab.y * dac.x) * 2)
  o.add a

/-- Blend2D child: 2D parameter point and animation slot
(`Blend2DNode::Child`). -/
abbrev B2Child := V2 × Nat

/-- The `pushTriangle` lambda in `dataChanged`. -/
def pushTriangle (children : List B2Child) (tris : List B2Tri) (a b c : Nat) : List B2Tri :=
  tris ++ [⟨a, b, c, computeCircumcircleCenter
    (children.getD a (⟨0, 0⟩, 0)).1 (children.getD b (⟨0, 0⟩, 0)).1
    (children.getD c (⟨0, 0⟩, 0)).1⟩]

/-- Bowyer-Watson edge with the validity mark used by the duplicate scan. -/
structure BWEdge where
  ea : Nat
  eb : Nat
  keep : Bool
deriving DecidableEq, Repr

/-- Edge equality of the source (`operator ==`): unordered endpoints. -/
def edgeEq (x y : BWEdge) : Bool :=
  (x.ea == y.ea && x.eb == y.eb) || (x.ea == y.eb && x.eb == y.ea)

/-- `Array::swapAndPop`: move the last element into slot `ti`, drop the last. -/
def swapAndPop (tris : List B2Tri) (ti : Nat) : List B2Tri :=
  match tris.getLast? with
  | none => tris
  | some last => (tris.set ti last).dropLast

/-- The downward triangle scan of one Bowyer-Watson insertion: triangles whose
circumcircle contains `p` are removed (swap-and-pop) and contribute their
edges. -/
def bwCollect (children : List B2Child) (p : V2) :
    Nat → List B2Tri → List BWEdge → List B2Tri × List BWEdge
  | 0, tris, edges => (tris, edges)
  | ti + 1, tris, edges =>
    match tris[ti]? with
    | none => bwCollect children p ti tris edges
    | some t =>
      let center := t.circumcircleCenter
      if (p.sub center).squaredLength >
          (((children.getD t.a (⟨0, 0⟩, 0)).1).sub center).squaredLength then
        bwCollect children p ti tris edges
      else
        bwCollect children p ti (swapAndPop tris ti)
          (edges ++ [⟨t.a, t.b, true⟩, ⟨t.b, t.c, true⟩, ⟨t.c, t.a, true⟩])

/-- Inner loop of the duplicate-edge scan: compare edge `i` against each
`j < jc`, marking both duplicates invalid. -/
def markDupInner (i : Nat) : Nat → List BWEdge → List BWEdge
  | 0, edges => edges
  | j + 1, edges =>
    let edges2 :=
      match edges[i]?, edges[j]? with
      | some x, some y =>
        if edgeEq x y then (edges.set i { x with keep := false }).set j { y with keep := false }
        else edges
      | _, _ => edges
    markDupInner i j edges2

/-- Outer loop of the duplicate-edge scan (`i` from the top down to 1). -/
def markDupOuter : Nat → List BWEdge → List BWEdge
  | 0, edges => edges
  | i + 1, edges =>
    if i = 0 then edges
    else markDupOuter i (markDupInner i i edges)

/-- One point insertion of the incremental Delaunay triangulation. -/
def bwInsertPoint (children : List B2Child) (tris : List B2Tri) (ch : Nat) : List B2Tri :=
  let p := (children.getD ch (⟨0, 0⟩, 0)).1
  let res := bwCollect children p tris.length tris []
  let edges := (markDupOuter res.2.length res.2).filter (·.keep)
  edges.foldl (fun acc e => pushTriangle children acc e.ea e.eb ch) res.1

/-- FLT_MAX stand-in for the bounding-box fold seeds (any value above every
coordinate in use works; the claims do not depend on it). -/
def fltMax : ℚ := 2 ^ 128

/-- The three synthetic bounding-triangle vertices appended by `dataChanged`
(their slot field is left default-initialized in the C++ as well). -/
def bounding3 (children0 : List B2Child) : List B2Child :=
  let minv := children0.foldl (fun (acc : V2) c => acc.min2 c.1) ⟨fltMax, fltMax⟩
  let maxv := children0.foldl (fun (acc : V2) c => acc.max2 c.1) ⟨-fltMax, -fltMax⟩
  let d := maxv.sub minv
  let dmax := max d.x d.y
  let mid := V2.smul (1 / 2) (maxv.add minv)
  [(⟨mid.x - 20 * dmax, mid.y - dmax⟩, 0),
   (⟨mid.x, mid.y + 20 * dmax⟩, 0),
   (⟨mid.x + 20 * dmax, mid.y - dmax⟩, 0)]

/-- The triangulation proper, over the child list already extended with the
bounding triangle: the three initial triangles tie the synthetic vertices to
child 0, then children 1 .. (count-4) are inserted incrementally. -/
def dataChangedCore (children : List B2Child) : List B2Tri :=
  let n := children.length
  let tris0 := pushTriangle children [] (n - 1) (n - 2) 0
  let tris1 := pushTriangle children tris0 (n - 2) (n - 3) 0
  let tris2 := pushTriangle children tris1 (n - 3) (n - 1) 0
  let c := children.length - 3
  (List.range' 1 (c - 1)).foldl (fun acc ch => bwInsertPoint children acc ch) tris2

/-- `Blend2DNode::dataChanged`: clear and return early below 3 children; else
append the synthetic bounding triangle, triangulate, pop the three synthetic
vertices and erase every triangle that still references an index outside the
real children (the C++ `eraseItems` removes by swap-and-pop; survivor order
does not matter to any claim). -/
def dataChanged (children0 : List B2Child) : List B2Child × List B2Tri :=
  if children0.length < 3 then (children0, [])
  else
    ((children0 ++ bounding3 children0).dropLast.dropLast.dropLast,
     (dataChangedCore (children0 ++ bounding3 children0)).filter
       (fun t =>
         !(decide ((children0 ++ bounding3 children0).dropLast.dropLast.dropLast.length ≤ t.a) ||
           decide ((children0 ++ bounding3 children0).dropLast.dropLast.dropLast.length ≤ t.b) ||
           decide ((children0 ++ bounding3 children0).dropLast.dropLast.dropLast.length ≤ t.c))))

theorem dropLast3_append {α : Type} (l : List α) (x y z : α) :
    (l ++ [x, y, z]).dropLast.dropLast.dropLast = l := by
  have h1 : l ++ [x, y, z] = ((l ++ [x]) ++ [y]) ++ [z] := by simp
  rw [h1, List.dropLast_concat, List.dropLast_concat, List.dropLast_concat]

theorem dropLast3_append_len {α : Type} (l l3 : List α) (h : l3.length = 3) :
    (l ++ l3).dropLast.dropLast.dropLast = l := by
  match l3, h with
  | [x, y, z], _ => exact dropLast3_append l x y z

/-- C10: after `dataChanged` returns, the three synthetic bounding-triangle
vertices have been removed (the child list is exactly the original one), and
every remaining triangle has all three vertex indices strictly below the real
child count, so triangle lookup and pose blending never reference a synthetic
vertex. -/
theorem dataChangedCleansUp (children0 : List B2Child) :
    (dataChanged children0).1 = children0 ∧
    ∀ t ∈ (dataChanged children0).2,
      t.a < children0.length ∧ t.b < children0.length ∧ t.c < children0.length := by
  unfold dataChanged
  by_cases h : children0.length < 3
  · rw [if_pos h]
    exact ⟨rfl, by intro t ht; simp at ht⟩
  · rw [if_neg h]
    have hpop : (children0 ++ bounding3 children0).dropLast.dropLast.dropLast = children0 :=
      dropLast3_append_len children0 (bounding3 children0) rfl
    refine ⟨hpop, ?_⟩
    intro t ht
    rw [List.mem_filter] at ht
    obtain ⟨_, hkeep⟩ := ht
    rw [hpop] at hkeep
    simp only [Bool.not_eq_eq_eq_not, Bool.not_true, Bool.or_eq_false_iff,
      decide_eq_false_iff_not, not_le] at hkeep
    exact ⟨hkeep.1.1, hkeep.1.2, hkeep.2⟩

/-! ## IK chain gating (animation_module.cpp, updateAnimator loop over
`animator.inverse_kinematics`) -/

/-- The dispatch loop over the animator's IK slots: `i` is the index of the
head of the remaining slot list; a slot of weight 0 stops the loop
(`if (ik.weight == 0) break;`), any other slot is solved and blended
(`updateIK`).  Returns the indices of the slots that run. -/
def ikRun : List ℚ → Nat → List Nat
  | [], _ => []
  | wgt :: rest, i => if wgt = 0 then [] else i :: ikRun rest (i + 1)

/-- C6 counterexample: with slot weights [0, 1/2], slot 1 has weight greater
than 0 yet is never solved — the loop breaks at the zero-weight slot 0, so a
chain does not run regardless of the other slots' weights. -/
theorem ikBreaksAtZero :
    ikRun [0, 1 / 2] 0 = [] ∧ (0 : ℚ) < 1 / 2 ∧ 1 ∉ ikRun [0, 1 / 2] 0 := by
  refine ⟨rfl, by norm_num, ?_⟩
  rw [show ikRun [0, 1 / 2] 0 = [] from rfl]
  simp

theorem ikRun_mem (ws : List ℚ) (k i : Nat) :
    i ∈ ikRun ws k ↔ k ≤ i ∧ i - k < ws.length ∧ ∀ j, j ≤ i - k → ws.getD j 0 ≠ 0 := by
  induction ws generalizing k i with
  | nil =>
    simp [ikRun]
  | cons wgt rest ih =>
    unfold ikRun
    by_cases hw : wgt = 0
    · rw [if_pos hw]
      simp only [List.not_mem_nil, false_iff, not_and]
      intro _ _ hall
      exact absurd hw (hall 0 (Nat.zero_le _))
    · rw [if_neg hw]
      simp only [List.mem_cons]
      constructor
      · rintro (rfl | hmem)
        · refine ⟨le_refl i, by simp, ?_⟩
          intro j hj
          have : j = 0 := by omega
          subst this
          simpa using hw
        · obtain ⟨h1, h2, h3⟩ := (ih (k + 1) i).mp hmem
          refine ⟨by omega, by simp; omega, ?_⟩
          intro j hj
          cases j with
          | zero => simpa using hw
          | succ j2 =>
            rw [List.getD_cons_succ]
            exact h3 j2 (by omega)
      · rintro ⟨h1, h2, h3⟩
        by_cases hik : i = k
        · exact Or.inl hik
        · refine Or.inr ((ih (k + 1) i).mpr ⟨by omega, by simp at h2; omega, ?_⟩)
          intro j hj
          have := h3 (j + 1) (by omega)
          rw [List.getD_cons_succ] at this
          exact this

/-- C6 amended: the IK slots are processed in order and processing stops at
the first slot whose weight is exactly 0; a chain at index `i` is solved and
blended if and only if it exists and every slot up to and including `i` has
nonzero weight. -/
theorem ikChainGating (ws : List ℚ) (i : Nat) :
    i ∈ ikRun ws 0 ↔ (i < ws.length ∧ ∀ j, j ≤ i → ws.getD j 0 ≠ 0) := by
  have h := ikRun_mem ws 0 i
  simpa using h

/-! ## Blend node tree runtime (src/animation/nodes.cpp)

The persistent runtime streams: `ctx.data` (written by `update`/`enter`) and
`ctx.input_runtime` (read back) hold raw bytes in C++; both sides agree on
the value sequence, so they are modelled as lists of typed items.  `Time`
(its header is not in `src`) is modelled from the spec as a fixed-point
integer tick count, 32768 ticks per second; u32 wrap-around (after roughly
36 hours of playback) is not modelled.  Animation resources are external
collaborators (spec §6): ready flag, length, and an abstract root-motion
sampling function. -/

def oneSecond : Nat := 32768

/-- `Time::fromSeconds` (fixed-point; negative values, never produced on the
modelled paths, clamp to 0 like a u32 float cast would not - see doc above). -/
def timeFromSeconds (q : ℚ) : Nat := (Int.floor (q * oneSecond)).toNat

/-- `Time::seconds`. -/
def timeSeconds (t : Nat) : ℚ := (t : ℚ) / (oneSecond : ℚ)

/-- `Time * float` (truncating). -/
def timeMulQ (t : Nat) (q : ℚ) : Nat := (Int.floor ((t : ℚ) * q)).toNat

/-- `Time / Time` as a float ratio. -/
def timeDivTime (a b : Nat) : ℚ := (a : ℚ) / (b : ℚ)

/-- `lerp` on two Times by a float weight. -/
def lerpTime (a b : Nat) (t : ℚ) : Nat :=
  (Int.floor ((a : ℚ) + ((b : ℚ) - (a : ℚ)) * t)).toNat

/-- `fmodf(x, 1)`: remainder truncated toward zero. -/
def qfmod1 (x : ℚ) : ℚ :=
  if 0 ≤ x then x - (Int.floor x : ℚ) else x - (Int.ceil x : ℚ)

/-- Animation resource (external collaborator): readiness, clip length and
the root-motion pose sampling `getRootMotion(t)`, abstract here. -/
structure AnimRes where
  isReady : Bool
  len : Nat
  rootMotionAt : Nat → LRT

/-- Runtime context slice that the node functions read: bound animations per
slot, float input values, the compiled boolean input conditions (the
condition compiler is in condition.cpp, not in `src`; modelled from the spec
as an oracle per condition index), and the frame time delta. -/
structure Ctx where
  animations : List (Option AnimRes)
  inputs : List ℚ
  conds : List Bool
  timeDelta : Nat

def getInputValue (ctx : Ctx) (idx : Nat) : ℚ := ctx.inputs.getD idx 0

/-- `getRootMotionEx` (nodes.cpp): relative root motion between two in-clip
times. -/
def getRootMotionEx (anim : AnimRes) (t0 t1 : Nat) : LRT :=
  (anim.rootMotionAt t0).inverted.mul (anim.rootMotionAt t1)

/-- `getRootMotion` (nodes.cpp): wraps both times into the clip and splits
a wrapped interval into end-of-clip and start-of-clip segments. -/
def getRootMotion (anim : AnimRes) (t0abs t1abs : Nat) : LRT :=
  let t0 := t0abs % anim.len
  let t1 := t1abs % anim.len
  if t0 ≤ t1 then getRootMotionEx anim t0 t1
  else (getRootMotionEx anim t0 anim.len).mul (getRootMotionEx anim 0 t1)

/-- One typed item of the persistent runtime stream: an `AnimationNode`
time, a blend node relative time, or the `RuntimeData` headers of the
Condition / Select / Group nodes. -/
inductive SItem where
  | time (t : Nat)
  | flt (x : ℚ)
  | condData (t : Nat) (isTrue : Bool)
  | selData (src dst : Nat) (t : Nat)
  | grpData (src dst : Nat) (t blendLen : Nat)
deriving DecidableEq, Repr

def readTime : List SItem → Option (Nat × List SItem)
  | SItem.time t :: r => some (t, r)
  | _ => none

def readFltS : List SItem → Option (ℚ × List SItem)
  | SItem.flt x :: r => some (x, r)
  | _ => none

def readCondData : List SItem → Option ((Nat × Bool) × List SItem)
  | SItem.condData t b :: r => some ((t, b), r)
  | _ => none

def readSelData : List SItem → Option ((Nat × Nat × Nat) × List SItem)
  | SItem.selData s d t :: r => some ((s, d, t), r)
  | _ => none

def readGrpData : List SItem → Option ((Nat × Nat × Nat × Nat) × List SItem)
  | SItem.grpData s d t bl :: r => some ((s, d, t, bl), r)
  | _ => none

/-- `getBarycentric` (nodes.cpp): barycentric coordinates of `p` in the
triangle `a b c` plus the containment test (a degenerate triangle divides by
zero; ℚ yields coordinates 0, the C++ float a nan whose comparisons also
fail the test). -/
def getBarycentric (p a b c : V2) : ℚ × ℚ × Bool :=
  let ab := b.sub a
  let ac := c.sub a
  let ap := p.sub a
  let d00 := ab.dot ab
  let d01 := ab.dot ac
  let d11 := ac.dot ac
  let d20 := ap.dot ab
  let d21 := ap.dot ac
  let denom := d00 * d11 - d01 * d01
  let u := (d11 * d20 - d01 * d21) / denom
  let v := (d00 * d21 - d01 * d20) / denom
  (u, v, decide (0 ≤ u) && decide (0 ≤ v) && decide (u + v ≤ 1))

/-- Result of `getActiveTrio`: child indices in place of the C++ child
pointers, with the three weights. -/
structure ActiveTrio where
  ia : Nat
  ib : Nat
  ic : Nat
  ta : ℚ
  tb : ℚ
  tc : ℚ
deriving DecidableEq, Repr

/-- The triangle scan of `getActiveTrio`: first triangle containing the
input wins; no hit falls back to the first child at full weight. -/
def trioScan (children : List B2Child) (inputVal : V2) : List B2Tri → ActiveTrio
  | [] => ⟨0, 0, 0, 1, 0, 0⟩
  | t :: rest =>
    let bc := getBarycentric inputVal (children.getD t.a (⟨0, 0⟩, 0)).1
      (children.getD t.b (⟨0, 0⟩, 0)).1 (children.getD t.c (⟨0, 0⟩, 0)).1
    if bc.2.2 then ⟨t.a, t.b, t.c, 1 - bc.1 - bc.2.1, bc.1, bc.2.1⟩
    else trioScan children inputVal rest

def getActiveTrio (children : List B2Child) (tris : List B2Tri) (inputVal : V2) : ActiveTrio :=
  trioScan children inputVal tris

/-- Transitions of a Group node (`GroupNode::Transition`): `from`/`to` child
indices with `none` standing for the 0xffFFffFF wildcard, the optional
normalized exit time (negative = disabled, as in the source float), and the
crossfade length. -/
structure GTrans where
  src : Option Nat
  dst : Option Nat
  exitTime : ℚ
  blendLen : Nat
deriving DecidableEq, Repr

/-- The blend node tree.  Children of Blend1D/Blend2D are (value, slot)
entries, not nodes.  Condition carries optional true/false branch nodes;
Select children are (max_value, node); Group children are
(selectable-flag, condition index, node); Layers entries are (mask, node). -/
inductive ANode where
  | animN (slot : Nat) (looped : Bool)
  | blend1dN (inputIdx : Nat) (children : List (ℚ × Nat))
  | blend2dN (xIdx yIdx : Nat) (children : List B2Child) (tris : List B2Tri)
  | condN (condIdx : Nat) (blendLen : Nat) (tNode fNode : Option ANode)
  | selectN (blendLen : Nat) (inputIdx : Nat) (children : List (ℚ × ANode))
  | groupN (blendLen : Nat) (children : List (Bool × Nat × ANode)) (transitions : List GTrans)
  | layersN (layers : List (Nat × ANode))

/-- `SelectNode::getChildIndex` scan: first child whose max value is not
exceeded. -/
def selScan (v : ℚ) : List (ℚ × ANode) → Nat → Option Nat
  | [], _ => none
  | (mx, _) :: rest, i => if v ≤ mx then some i else selScan v rest (i + 1)

/-- `SelectNode::getChildIndex`: falls into the last bucket above all
thresholds. -/
def selectChildIndex (children : List (ℚ × ANode)) (v : ℚ) : Nat :=
  (selScan v children 0).getD (children.length - 1)

/-- The scan in `GroupNode::enter`: first selectable child whose guard
holds. -/
def groupFirstSelectable (ctx : Ctx) : List (Bool × Nat × ANode) → Nat → Option Nat
  | [], _ => none
  | (sel, cIdx, _) :: rest, i =>
    if sel && ctx.conds.getD cIdx false then some i
    else groupFirstSelectable ctx rest (i + 1)

/-- The fallback scan in `GroupNode::update`: first selectable child other
than the current one whose guard holds. -/
def groupScan (ctx : Ctx) (src : Nat) : List (Bool × Nat × ANode) → Nat → Option Nat
  | [], _ => none
  | (sel, cIdx, _) :: rest, i =>
    if i ≠ src ∧ sel = true ∧ ctx.conds.getD cIdx false = true then some i
    else groupScan ctx src rest (i + 1)

/-- `Node::length` per node kind (never recursive: the composite kinds
return constants).  `AnimationNode::length` returns 0 with no bound
animation and the clip length otherwise (without a readiness check);
`Blend2DNode::length` returns one raw tick below 3 children. -/
def nodeLength (ctx : Ctx) : ANode → List SItem → Nat
  | .animN slot _, _ =>
    match ctx.animations.getD slot none with
    | none => 0
    | some anim => anim.len
  | .blend1dN inputIdx children, _ =>
    let pair := getActivePair children (getInputValue ctx inputIdx)
    (match ctx.animations.getD (children.getD pair.ia (0, 0)).2 none with
     | none => timeFromSeconds 1
     | some a =>
       if !a.isReady then timeFromSeconds 1
       else
         match pair.ib with
         | none => a.len
         | some ib =>
           match ctx.animations.getD (children.getD ib (0, 0)).2 none with
           | none => a.len
           | some b => if !b.isReady then a.len else lerpTime a.len b.len pair.t)
  | .blend2dN xIdx yIdx children tris, _ =>
    if children.length < 3 then 1
    else
      let trio := getActiveTrio children tris ⟨getInputValue ctx xIdx, getInputValue ctx yIdx⟩
      (match ctx.animations.getD (children.getD trio.ia (⟨0, 0⟩, 0)).2 none,
             ctx.animations.getD (children.getD trio.ib (⟨0, 0⟩, 0)).2 none,
             ctx.animations.getD (children.getD trio.ic (⟨0, 0⟩, 0)).2 none with
       | some a, some b, some c =>
         if !a.isReady || !b.isReady || !c.isReady then timeFromSeconds 1
         else timeMulQ a.len trio.ta + timeMulQ b.len trio.tb + timeMulQ c.len trio.tc
       | _, _, _ => timeFromSeconds 1)
  | .condN .., _ => timeFromSeconds 1
  | .selectN .., _ => timeFromSeconds 1
  | .groupN .., _ => timeFromSeconds 1
  | .layersN _, _ => timeFromSeconds 1

/-- `Node::time` per node kind: AnimationNode peeks its stored absolute
time (`getAs<Time>`), the blend nodes scale their length by the stored
relative time, the composite kinds return 0 (Condition returns
`fromSeconds(0)` = 0).  A read of the wrong item kind, impossible in
layout-aligned states, is a fault. -/
def nodeTime (ctx : Ctx) : ANode → List SItem → Option Nat
  | .animN _ _, inp => (readTime inp).map (·.1)
  | .blend1dN inputIdx children, inp =>
    (readFltS inp).map (fun p => timeMulQ (nodeLength ctx (.blend1dN inputIdx children) inp) p.1)
  | .blend2dN xIdx yIdx children tris, inp =>
    (readFltS inp).map (fun p => timeMulQ (nodeLength ctx (.blend2dN xIdx yIdx children tris) inp) p.1)
  | .condN .., _ => some 0
  | .selectN .., _ => some 0
  | .groupN .., _ => some 0
  | .layersN _, _ => some 0

/-- Outcome of the transition-search loop of `GroupNode::update`: an
explicit transition fired, a wildcard-target transition broke out
("can go anywhere"), the loop ended while an exit-time gate was pending
(`waiting_for_exit_time`), or it ended with nothing. -/
inductive TrOut where
  | fired (dst blendLen : Nat)
  | anywhere
  | wait
  | nothing
deriving DecidableEq, Repr

/-- The transition-search loop (GroupNode::update lines 989-1017).  `lenF`
and `begF` are the current child's `length(ctx)` / `time(ctx)`; the source
re-evaluates them per candidate but nothing changes between iterations.
`waiting` threads the sticky `waiting_for_exit_time` flag.  Indexing a
transition's target outside the children is a fault (`none`). -/
def groupTrLoop (ctx : Ctx) (children : List (Bool × Nat × ANode))
    (dataFrom dataTo : Nat) (lenF : Nat) (begF : Option Nat) :
    List GTrans → Bool → Option TrOut
  | [], waiting => some (if waiting then TrOut.wait else TrOut.nothing)
  | tr :: rest, waiting =>
    if tr.dst = some dataTo then groupTrLoop ctx children dataFrom dataTo lenF begF rest waiting
    else if tr.src ≠ some dataFrom ∧ tr.src ≠ none then
      groupTrLoop ctx children dataFrom dataTo lenF begF rest waiting
    else
      let guardOk : Option Bool :=
        match tr.dst with
        | none => some true
        | some d =>
          match children[d]? with
          | none => none
          | some c => some (ctx.conds.getD c.2.1 false)
      match guardOk with
      | none => none
      | some false => groupTrLoop ctx children dataFrom dataTo lenF begF rest waiting
      | some true =>
        if 0 ≤ tr.exitTime then
          match begF with
          | none => none
          | some beg =>
            let endT := beg + ctx.timeDelta
            let loopStart := beg - beg % lenF
            let t := loopStart + timeFromSeconds (tr.exitTime * timeSeconds lenF)
            if t < beg ∨ endT ≤ t then
              groupTrLoop ctx children dataFrom dataTo lenF begF rest true
            else
              match tr.dst with
              | none => some TrOut.anywhere
              | some d => some (TrOut.fired d tr.blendLen)
        else
          match tr.dst with
          | none => some TrOut.anywhere
          | some d => some (TrOut.fired d tr.blendLen)

/-- Decision taken by `GroupNode::update` when the current child stopped
matching: a transition from the loop, else the fallback guard scan when the
gate `(!is_current_matching || can_go_anywhere) && !waiting_for_exit_time`
lets it run, else stay. -/
inductive GDec where
  | fire (dst blendLen : Nat)
  | stable
deriving DecidableEq, Repr

def groupDecide (ctx : Ctx) (children : List (Bool × Nat × ANode)) (transitions : List GTrans)
    (nodeBlendLen : Nat) (src dst : Nat) (lenF : Nat) (begF : Option Nat)
    (isCurrentMatching : Bool) : Option GDec := do
  let outcome ← groupTrLoop ctx children src dst lenF begF transitions false
  match outcome with
  | TrOut.fired d bl => some (GDec.fire d bl)
  | TrOut.wait => some GDec.stable
  | TrOut.anywhere =>
    match groupScan ctx src children 0 with
    | some i => some (GDec.fire i nodeBlendLen)
    | none => some GDec.stable
  | TrOut.nothing =>
    if !isCurrentMatching then
      match groupScan ctx src children 0 with
      | some i => some (GDec.fire i nodeBlendLen)
      | none => some GDec.stable
    else some GDec.stable

/-- `Node::enter` per node kind: write this node's fresh runtime slice and
recurse into the child that becomes active.  The fuel bounds tree depth; all
theorems instantiate it above the depth of the tree at hand. -/
def nodeEnter (ctx : Ctx) : Nat → ANode → Option (List SItem)
  | 0, _ => none
  | _ + 1, .animN _ _ => some [SItem.time 0]
  | _ + 1, .blend1dN _ _ => some [SItem.flt 0]
  | _ + 1, .blend2dN _ _ _ _ => some [SItem.flt 0]
  | fuel + 1, .condN condIdx blendLen tN fN =>
    match tN, fN with
    | some tn, some fn =>
      let isTrue := ctx.conds.getD condIdx false
      (nodeEnter ctx fuel (if isTrue then tn else fn)).map
        (SItem.condData blendLen isTrue :: ·)
    | _, _ => some []
  | fuel + 1, .selectN _ inputIdx children =>
    if children.isEmpty then some []
    else
      let src := selectChildIndex children (getInputValue ctx inputIdx)
      match children[src]? with
      | some c => (nodeEnter ctx fuel c.2).map (SItem.selData src src 0 :: ·)
      | none => some [SItem.selData src src 0]
  | fuel + 1, .groupN _ children _ =>
    let rd :=
      match groupFirstSelectable ctx children 0 with
      | some i => (i, i)
      | none => (0, 0)
    match children[rd.1]? with
    | some c => (nodeEnter ctx fuel c.2.2).map (SItem.grpData rd.1 rd.2 0 0 :: ·)
    | none => some [SItem.grpData rd.1 rd.2 0 0]
  | fuel + 1, .layersN layers =>
    layers.foldlM (fun acc l => (nodeEnter ctx fuel l.2).map (acc ++ ·)) []

/-- `Node::skip` per node kind: advance the read cursor over the previous
frame's stream without writing.  `GroupNode::skip` indexes
`m_children[data.from]` without the empty-children guard that `update` and
`getPose` both have; an out-of-bounds index is a fault (`none`). -/
def nodeSkip (ctx : Ctx) : Nat → ANode → List SItem → Option (List SItem)
  | 0, _, _ => none
  | _ + 1, .animN _ _, inp => (readTime inp).map (·.2)
  | _ + 1, .blend1dN _ _, inp => (readFltS inp).map (·.2)
  | _ + 1, .blend2dN _ _ _ _, inp => (readFltS inp).map (·.2)
  | fuel + 1, .condN _ _ tN fN, inp =>
    match tN, fN with
    | some tn, some fn => do
      let (d, r) ← readCondData inp
      nodeSkip ctx fuel (if d.2 then tn else fn) r
    | _, _ => some inp
  | fuel + 1, .selectN _ _ children, inp =>
    if children.isEmpty then some inp
    else do
      let ((src, dst, _), r) ← readSelData inp
      let cF ← children[src]?
      let r1 ← nodeSkip ctx fuel cF.2 r
      if src ≠ dst then
        let cT ← children[dst]?
        nodeSkip ctx fuel cT.2 r1
      else some r1
  | fuel + 1, .groupN _ children _, inp => do
    let ((src, dst, _, _), r) ← readGrpData inp
    let cF ← children[src]?
    let r1 ← nodeSkip ctx fuel cF.2.2 r
    if src ≠ dst then
      let cT ← children[dst]?
      nodeSkip ctx fuel cT.2.2 r1
    else some r1
  | fuel + 1, .layersN layers, inp =>
    layers.foldlM (fun acc l => nodeSkip ctx fuel l.2 acc) inp

/-- Result of one `update` call: the remaining read stream, the items the
node appended to `ctx.data`, and the root motion.  `rm` models the C++
by-reference out parameter: a path that never assigns it returns the
caller's value unchanged. -/
structure UpdRes where
  rest : List SItem
  out : List SItem
  rm : LRT
deriving DecidableEq, Repr

/-- `Node::update` per node kind (nodes.cpp).  Event emission
(`emitEvents`) appends to the separate `ctx.events` stream and is not
modelled; root-motion blending mirrors the source statement for statement.
The C++ declares the nested `LocalRigidTransform tmp` blend inputs
uninitialized; they are modelled as the identity. -/
def nodeUpdate (ctx : Ctx) : Nat → ANode → List SItem → LRT → Option UpdRes
  | 0, _, _, _ => none
  | _ + 1, .animN slot looped, inp, _ => do
    let (t0, r) ← readTime inp
    let t := t0 + ctx.timeDelta
    match ctx.animations.getD slot none with
    | some anim =>
      if anim.isReady then
        let t2 := if looped then t else min t anim.len
        let p2 := if looped then t0 else min t0 anim.len
        some ⟨r, [SItem.time t2], getRootMotion anim p2 t2⟩
      else some ⟨r, [SItem.time t], LRT.id⟩
    | none => some ⟨r, [SItem.time t], LRT.id⟩
  | _ + 1, .blend1dN inputIdx children, inp, _ => do
    let (relt0, r) ← readFltS inp
    let pair := getActivePair children (getInputValue ctx inputIdx)
    let chA ← children[pair.ia]?
    let animA := ctx.animations.getD chA.2 none
    let animB :=
      match pair.ib with
      | none => none
      | some ib =>
        match children[ib]? with
        | some chB => ctx.animations.getD chB.2 none
        | none => none
    let wlen :=
      match animA with
      | some a => lerpTime a.len (match animB with | some b => b.len | none => a.len) pair.t
      | none => timeFromSeconds 1
    let relt := qfmod1 (relt0 + timeDivTime ctx.timeDelta wlen)
    let rm1 :=
      match animA with
      | some a => getRootMotion a (timeMulQ a.len relt0) (timeMulQ a.len relt)
      | none => LRT.id
    let rm2 :=
      match animB with
      | some b =>
        if b.isReady then
          rm1.interpolate (getRootMotion b (timeMulQ b.len relt0) (timeMulQ b.len relt)) pair.t
        else rm1
      | none => rm1
    some ⟨r, [SItem.flt relt], rm2⟩
  | _ + 1, .blend2dN xIdx yIdx children tris, inp, rm => do
    let (relt0, r) ← readFltS inp
    if children.length > 2 then
      let trio := getActiveTrio children tris ⟨getInputValue ctx xIdx, getInputValue ctx yIdx⟩
      match ctx.animations.getD (children.getD trio.ia (⟨0, 0⟩, 0)).2 none,
            ctx.animations.getD (children.getD trio.ib (⟨0, 0⟩, 0)).2 none,
            ctx.animations.getD (children.getD trio.ic (⟨0, 0⟩, 0)).2 none with
      | some a, some b, some c =>
        if !a.isReady || !b.isReady || !c.isReady then some ⟨r, [SItem.flt relt0], rm⟩
        else
          let wlen := timeMulQ a.len trio.ta + timeMulQ b.len trio.tb + timeMulQ c.len trio.tc
          let relt := qfmod1 (relt0 + timeDivTime ctx.timeDelta wlen)
          let rm1 := getRootMotion a (timeMulQ a.len relt0) (timeMulQ a.len relt)
          let rm2 :=
            if 0 < trio.tb then
              rm1.interpolate (getRootMotion b (timeMulQ b.len relt0) (timeMulQ b.len relt))
                (trio.tb / (trio.ta + trio.tb))
            else rm1
          let rm3 :=
            if 0 < trio.tc then
              rm2.interpolate (getRootMotion c (timeMulQ c.len relt0) (timeMulQ c.len relt))
                trio.tc
            else rm2
          some ⟨r, [SItem.flt relt], rm3⟩
      | _, _, _ => some ⟨r, [SItem.flt relt0], rm⟩
    else some ⟨r, [SItem.flt relt0], rm⟩
  | fuel + 1, .condN condIdx blendLen tN fN, inp, rm =>
    match tN, fN with
    | some tn, some fn => do
      let pr ← readCondData inp
      let t0 := pr.1.1
      let isTrue := pr.1.2
      let r := pr.2
      if t0 < blendLen then
        let t1 := t0 + ctx.timeDelta
        if blendLen ≤ t1 then
          let r1 ← nodeSkip ctx fuel (if isTrue then fn else tn) r
          let res ← nodeUpdate ctx fuel (if isTrue then tn else fn) r1 rm
          some ⟨res.rest, SItem.condData t1 isTrue :: res.out, res.rm⟩
        else
          let resOld ← nodeUpdate ctx fuel (if isTrue then fn else tn) r rm
          let resNew ← nodeUpdate ctx fuel (if isTrue then tn else fn) resOld.rest LRT.id
          some ⟨resNew.rest, SItem.condData t1 isTrue :: (resOld.out ++ resNew.out),
            resOld.rm.interpolate resNew.rm (timeSeconds t1 / timeSeconds blendLen)⟩
      else
        let isTrue2 := ctx.conds.getD condIdx false
        if isTrue2 ≠ isTrue then
          if blendLen = 0 then
            let r1 ← nodeSkip ctx fuel (if isTrue then tn else fn) r
            let out2 ← nodeEnter ctx fuel (if isTrue2 then tn else fn)
            some ⟨r1, SItem.condData t0 isTrue2 :: out2, rm⟩
          else
            let resOld ← nodeUpdate ctx fuel (if isTrue2 then fn else tn) r rm
            let out2 ← nodeEnter ctx fuel (if isTrue2 then tn else fn)
            some ⟨resOld.rest, SItem.condData 0 isTrue2 :: (resOld.out ++ out2), resOld.rm⟩
        else
          let res ← nodeUpdate ctx fuel (if isTrue then tn else fn) r rm
          some ⟨res.rest, SItem.condData t0 isTrue :: res.out, res.rm⟩
    | _, _ => some ⟨inp, [], rm⟩
  | fuel + 1, .selectN blendLen inputIdx children, inp, rm =>
    if children.isEmpty then some ⟨inp, [], rm⟩
    else do
      let ((src, dst, t0), r) ← readSelData inp
      let childIdx := selectChildIndex children (getInputValue ctx inputIdx)
      if src ≠ dst then
        let t1 := t0 + ctx.timeDelta
        if blendLen < t1 then
          let cF ← children[src]?
          let r1 ← nodeSkip ctx fuel cF.2 r
          let cT ← children[dst]?
          let res ← nodeUpdate ctx fuel cT.2 r1 rm
          some ⟨res.rest, SItem.selData dst dst 0 :: res.out, res.rm⟩
        else
          let cF ← children[src]?
          let resF ← nodeUpdate ctx fuel cF.2 r rm
          let cT ← children[dst]?
          let resT ← nodeUpdate ctx fuel cT.2 resF.rest LRT.id
          some ⟨resT.rest, SItem.selData src dst t1 :: (resF.out ++ resT.out),
            resF.rm.interpolate resT.rm (timeSeconds t1 / timeSeconds blendLen)⟩
      else
        if childIdx ≠ src then
          let cF ← children[src]?
          let resF ← nodeUpdate ctx fuel cF.2 r rm
          let cT ← children[childIdx]?
          let outT ← nodeEnter ctx fuel cT.2
          some ⟨resF.rest, SItem.selData src childIdx 0 :: (resF.out ++ outT), resF.rm⟩
        else
          let t1 := t0 + ctx.timeDelta
          let cF ← children[src]?
          let res ← nodeUpdate ctx fuel cF.2 r rm
          some ⟨res.rest, SItem.selData src dst t1 :: res.out, res.rm⟩
  | fuel + 1, .groupN blendLen children transitions, inp, rm => do
    let ((src, dst, t0, bl0), r) ← readGrpData inp
    if children.isEmpty then some ⟨r, [SItem.grpData src dst t0 bl0], rm⟩
    else
      if src ≠ dst then
        let t1 := t0 + ctx.timeDelta
        if bl0 < t1 then
          let cF ← children[src]?
          let r1 ← nodeSkip ctx fuel cF.2.2 r
          let cT ← children[dst]?
          let res ← nodeUpdate ctx fuel cT.2.2 r1 rm
          some ⟨res.rest, SItem.grpData dst dst 0 bl0 :: res.out, res.rm⟩
        else
          let cF ← children[src]?
          let resF ← nodeUpdate ctx fuel cF.2.2 r rm
          let cT ← children[dst]?
          let resT ← nodeUpdate ctx fuel cT.2.2 resF.rest LRT.id
          some ⟨resT.rest, SItem.grpData src dst t1 bl0 :: (resF.out ++ resT.out),
            resF.rm.interpolate resT.rm (timeSeconds t1 / timeSeconds bl0)⟩
      else
        let cCur ← children[src]?
        let isCurrentMatching := ctx.conds.getD cCur.2.1 false
        let isSelectable := cCur.1
        if !isCurrentMatching || !isSelectable then
          let lenF := nodeLength ctx cCur.2.2 r
          let begF := nodeTime ctx cCur.2.2 r
          let dec ← groupDecide ctx children transitions blendLen src dst lenF begF
            isCurrentMatching
          match dec with
          | GDec.fire d bl =>
            let resF ← nodeUpdate ctx fuel cCur.2.2 r rm
            let cT ← children[d]?
            let outT ← nodeEnter ctx fuel cT.2.2
            some ⟨resF.rest, SItem.grpData src d 0 bl :: (resF.out ++ outT), resF.rm⟩
          | GDec.stable =>
            let res ← nodeUpdate ctx fuel cCur.2.2 r rm
            some ⟨res.rest, SItem.grpData src dst (t0 + ctx.timeDelta) bl0 :: res.out, res.rm⟩
        else
          let res ← nodeUpdate ctx fuel cCur.2.2 r rm
          some ⟨res.rest, SItem.grpData src dst (t0 + ctx.timeDelta) bl0 :: res.out, res.rm⟩
  | fuel + 1, .layersN layers, inp, rm => do
    let res ← layers.foldlM
      (fun (acc : List SItem × List SItem × LRT × Bool) l => do
        let st ← nodeUpdate ctx fuel l.2 acc.1 LRT.id
        pure (st.rest, acc.2.1 ++ st.out,
          (if acc.2.2.2 then st.rm else acc.2.2.1), false))
      (inp, [], rm, true)
    some ⟨res.1, res.2.1, res.2.2.1⟩


/- ### Shared concrete scenario ingredients for the controller-tree claims -/

/-- A ready 2-second animation clip whose root-motion samples are all the
identity (`Animation` resource as seen through `RuntimeContext::animations`). -/
def aRes : AnimRes := ⟨true, 2 * oneSecond, fun _ => LRT.id⟩

/-- Runtime context with one ready clip and a single boolean input that is
currently true (`RuntimeContext` fed to `enter`/`update`/`skip`). -/
def ctxCondTrue : Ctx := ⟨[some aRes], [], [true], 100⟩

/-- The same context after the boolean input flipped to false. -/
def ctxCondFalse : Ctx := ⟨[some aRes], [], [false], 100⟩

/-- A Condition node with zero blend length whose true branch is a Group node
with no children and whose false branch is an Animation node — buildable in
the editor, so its runtime states are reachable. -/
def c1tree : ANode :=
  ANode.condN 0 0 (some (ANode.groupN 0 [] [])) (some (ANode.animN 0 true))

/-- C1: the update pass and the skip/getPose pass do NOT stay aligned on
every reachable stream.  A Group node with no children can be entered (its
`enter` writes the header `{0,0,0,0}` and guards the child enter with
`runtime_data.from < m_children.size()`), and `GroupNode::update` likewise
guards `m_children.empty()` and consumes exactly the header; but
`GroupNode::skip` reads the header and then unconditionally evaluates
`m_children[data.from]` (nodes.cpp:1065-1071), an out-of-bounds access on the
empty child array.  Concretely: entering `c1tree` under a true condition
writes the two-item stream; the next tick under a false condition makes
`ConditionNode::update` call `skip` on the group branch, which faults (the
model returns `none` where the C++ indexes out of bounds), even though
`update` on the very same node and stream succeeds and consumes the same
header.  So skip does not advance the cursor by what update consumed. -/
theorem groupSkipUpdateDiverge :
    nodeEnter ctxCondTrue 5 c1tree
        = some [SItem.condData 0 true, SItem.grpData 0 0 0 0]
      ∧ nodeUpdate ctxCondFalse 5 c1tree
          [SItem.condData 0 true, SItem.grpData 0 0 0 0] LRT.id = none
      ∧ nodeUpdate ctxCondFalse 5 (ANode.groupN 0 [] [])
          [SItem.grpData 0 0 0 0] LRT.id
          = some ⟨[], [SItem.grpData 0 0 0 0], LRT.id⟩
      ∧ nodeSkip ctxCondFalse 5 (ANode.groupN 0 [] [])
          [SItem.grpData 0 0 0 0] = none :=
  ⟨rfl, rfl, rfl, rfl⟩

/-- Group node for the exit-time scenario: two animation children (the first
unselectable by its guard, the second matching), and one transition from
child 0 to child 1 with exit time 0.5 and blend length 77. -/
def c4tree : ANode := ANode.groupN 30
  [(true, 0, ANode.animN 0 true), (true, 1, ANode.animN 1 true)]
  [⟨some 0, some 1, 1/2, 77⟩]

/-- Context for the exit-time scenario: both slots hold the ready 2-second
clip; input 0 (guarding child 0) is false, input 1 (guarding child 1) is
true; `dt` is the tick's time delta. -/
def c4ctx (dt : Nat) : Ctx := ⟨[some aRes, some aRes], [], [false, true], dt⟩

/-- C4: in a non-transitioning Group state whose current child fails its
guard, a transition with exit-time gate 0.5 out of a 2-second clip fires in
exactly the tick whose window `[beg, beg + dt)` contains the 1-second point
of the current loop (`beg - beg % 65536 + 32768` raw ticks), and in no other
tick: the header written by `GroupNode::update` starts the blend to child 1
with the transition's blend length exactly under that condition, and
otherwise rewrites the stable header with the advanced time. -/
theorem groupExitTimeGate (beg dt t0 bl0 : Nat) :
    (nodeUpdate (c4ctx dt) 5 c4tree
        [SItem.grpData 0 0 t0 bl0, SItem.time beg] LRT.id).map
        (fun r => r.out.head?) =
      some (some (if beg ≤ beg - beg % (2 * oneSecond) + oneSecond ∧
                    beg - beg % (2 * oneSecond) + oneSecond < beg + dt
                  then SItem.grpData 0 1 0 77
                  else SItem.grpData 0 0 (t0 + dt) bl0)) := by
  set_option maxHeartbeats 2000000 in
  simp [c4tree, c4ctx, aRes, nodeUpdate, readGrpData, nodeLength, nodeTime, readTime,
    groupDecide, groupTrLoop, groupScan, nodeEnter, nodeSkip, getInputValue,
    timeSeconds, timeFromSeconds, oneSecond, getRootMotion, getRootMotionEx,
    timeMulQ, timeDivTime, lerpTime, qfmod1]
  have hfl : (⌊(2⁻¹ * (65536 / 32768) * 32768 : ℚ)⌋).toNat = 32768 := by
    have h2 : (2⁻¹ * (65536 / 32768) * 32768 : ℚ) = 32768 := by norm_num
    rw [h2]
    rfl
  rw [hfl]
  by_cases h : beg - beg % 65536 + 32768 < beg ∨ beg + dt ≤ beg - beg % 65536 + 32768
  · rw [if_pos h,
      if_neg (show ¬(beg ≤ beg - beg % 65536 + 32768 ∧ beg - beg % 65536 + 32768 < beg + dt)
        by omega)]
    rfl
  · rw [if_neg h,
      if_pos (show beg ≤ beg - beg % 65536 + 32768 ∧ beg - beg % 65536 + 32768 < beg + dt
        by omega)]
    simp [nodeEnter]

/- ### C5: early returns on missing/unready resources -/

/-- Context whose single animation slot is empty (`ctx.animations[slot]` is
null) and with no inputs. -/
def ctxNone (dt : Nat) : Ctx := ⟨[none], [], [], dt⟩

/-- A Blend2D node with three children (so `m_children.size() > 2` holds and
the ready checks are reached), all mapped to the empty animation slot, and no
triangles. -/
def b2node : ANode := ANode.blend2dN 0 1 [(⟨0, 0⟩, 0), (⟨1, 0⟩, 0), (⟨0, 1⟩, 0)] []

/-- A non-identity value sitting in the caller\'s root-motion variable (in the
C++ this is an uninitialized stack temporary or the previous tick\'s value). -/
def rmStale : LRT := ⟨⟨1, 0, 0⟩, Quat.id⟩

/-- C5 counterexample: when one of the Blend2D node\'s active animations is
missing/unready, `Blend2DNode::update` writes the time back and returns
without assigning `root_motion` (nodes.cpp:137-140) — so the caller\'s
root-motion variable keeps its stale value, which is not the identity
transform the claim promises. -/
theorem blend2dUnreadyKeepsStaleRootMotion :
    nodeUpdate (ctxNone 1000) 5 b2node [SItem.flt 0] rmStale
        = some ⟨[], [SItem.flt 0], rmStale⟩
      ∧ rmStale ≠ LRT.id :=
  ⟨rfl, by decide⟩

/-- Module-level animator state, as read by
`AnimationModuleImpl::updateAnimator` (animation_module.cpp:614-653).  The
pose type is abstract (`π`); `resource`/`model` are `some isReady` when
present.  `hasCtx` models `animator.ctx`, `poseLockable` models
`lockPose(entity)` returning non-null, `entityTf` the entity\'s world
transform. -/
structure ModAnimator (π : Type) where
  resource : Option Bool
  hasCtx : Bool
  hasModelInstance : Bool
  model : Option Bool
  poseLockable : Bool
  pose : π
  rootMotion : LRT
  useRootMotion : Bool
  entityTf : Tfm

/-- `AnimationModuleImpl::updateAnimator`: the guard chain (resource present
and ready; runtime context created on demand; model-instance component;
model present and ready; pose lockable), then the body — modelled by the
abstract blend-stack evaluation `evalPose` and the root motion `resUpdate`
computed by `animator.resource->update` — and finally the optional
root-motion application to the entity transform. -/
def updateAnimator {π : Type} (a : ModAnimator π)
    (evalPose : π → π) (resUpdate : LRT) : ModAnimator π :=
  match a.resource with
  | none => a
  | some rdy =>
    if !rdy then a else
    let a1 := if a.hasCtx then a else { a with hasCtx := true }
    if !a1.hasModelInstance then a1 else
    match a1.model with
    | none => a1
    | some mrdy =>
      if !mrdy then a1 else
      if !a1.poseLockable then a1 else
      let a2 := { a1 with pose := evalPose a1.pose, rootMotion := resUpdate }
      if a2.useRootMotion then
        { a2 with entityTf :=
            ⟨a2.entityTf.pos.add (a2.entityTf.rot.rotate a2.rootMotion.pos),
             a2.rootMotion.rot.mul a2.entityTf.rot,
             a2.entityTf.scale⟩ }
      else a2

/-- Helper: every guard-failure path of `updateAnimator` leaves the pose,
the stored root motion and the entity transform unchanged. -/
theorem updateAnimator_early {π : Type} (a : ModAnimator π) (evalPose : π → π)
    (resUpdate : LRT)
    (h : ¬(a.resource = some true ∧ a.hasModelInstance = true
        ∧ a.model = some true ∧ a.poseLockable = true)) :
    (updateAnimator a evalPose resUpdate).pose = a.pose
      ∧ (updateAnimator a evalPose resUpdate).rootMotion = a.rootMotion
      ∧ (updateAnimator a evalPose resUpdate).entityTf = a.entityTf := by
  obtain ⟨res, hctx, hmi, mdl, pl, ps, rm, urm, tf⟩ := a
  rcases res with _ | rdy
  · exact ⟨rfl, rfl, rfl⟩
  · cases rdy
    · exact ⟨rfl, rfl, rfl⟩
    · cases hctx <;> cases hmi <;> (rcases mdl with _ | mrdy) <;>
        (try cases mrdy) <;> cases pl <;>
        first
          | exact ⟨rfl, rfl, rfl⟩
          | exact absurd ⟨rfl, rfl, rfl, rfl⟩ h

/-- C5 (amended): when a required resource is missing or unready the update
functions return early without propagating an error, leaving the pose
untouched — but the root-motion out-parameter is only reset to the identity
by the Animation leaf node; `Blend2DNode::update` leaves it at the caller\'s
stale value, and the module-level `updateAnimator` leaves the animator\'s
stored root motion, the pose and the entity transform untouched (only the
runtime context may be created on the way out). -/
theorem unreadyEarlyReturnBehavior :
    (∀ (dt t0 : Nat) (rmIn : LRT),
        nodeUpdate (ctxNone dt) 5 (ANode.animN 0 true) [SItem.time t0] rmIn
          = some ⟨[], [SItem.time (t0 + dt)], LRT.id⟩)
      ∧ (∀ (dt : Nat) (relt : ℚ) (rmIn : LRT),
          nodeUpdate (ctxNone dt) 5 b2node [SItem.flt relt] rmIn
            = some ⟨[], [SItem.flt relt], rmIn⟩)
      ∧ (∀ (π : Type) (a : ModAnimator π) (evalPose : π → π) (resUpdate : LRT),
          (a.resource = none ∨ a.resource = some false ∨ a.hasModelInstance = false
            ∨ a.model = none ∨ a.model = some false ∨ a.poseLockable = false) →
          (updateAnimator a evalPose resUpdate).pose = a.pose
            ∧ (updateAnimator a evalPose resUpdate).rootMotion = a.rootMotion
            ∧ (updateAnimator a evalPose resUpdate).entityTf = a.entityTf) := by
  refine ⟨fun dt t0 rmIn => rfl, fun dt relt rmIn => rfl, ?_⟩
  intro π a evalPose resUpdate hg
  refine updateAnimator_early a evalPose resUpdate ?_
  rintro ⟨h1, h2, h3, h4⟩
  rcases hg with h | h | h | h | h | h <;> simp_all

/- ### C3: `setParent` — well-formedness of the hierarchy store -/

/-- Forward record consistency: every stored `m_entities[x].hierarchy` index
points at a hierarchy record whose `entity` field is `x`. -/
def RecFwd (w : World) : Prop :=
  ∀ x i, hiOf w x = some i → ∃ h, w.hierarchy[i]? = some h ∧ h.entity = x

/-- Backward record consistency: the entity named by each hierarchy record
points back at that record. -/
def RecBack (w : World) : Prop :=
  ∀ i h, w.hierarchy[i]? = some h → hiOf w h.entity = some i

/-- Executable check of `RecFwd`. -/
def recFwdB (w : World) : Bool :=
  (List.range w.entities.length).all fun x =>
    match hiOf w x with
    | none => true
    | some i =>
      match w.hierarchy[i]? with
      | some h => h.entity == x
      | none => false

/-- Executable check of `RecBack`. -/
def recBackB (w : World) : Bool :=
  (List.range w.hierarchy.length).all fun i =>
    match w.hierarchy[i]? with
    | some h => hiOf w h.entity == some i
    | none => true

/-- No record links to its own entity (parent, first-child or next-sibling). -/
def noSelfB (w : World) : Bool :=
  w.hierarchy.all fun h =>
    (h.parent != some h.entity) && (h.firstChild != some h.entity)
      && (h.nextSibling != some h.entity)

/-- Local link consistency: a first-child target's parent is the linking
record's entity; a next-sibling target has the same parent as the record. -/
def ptrParentB (w : World) : Bool :=
  w.hierarchy.all fun h =>
    (match h.firstChild with
     | some c => getParent w c == some h.entity
     | none => true)
    && (match h.nextSibling with
        | some z => getParent w z == h.parent
        | none => true)

/-- Every record entity's sibling chain is a terminating duplicate-free list
(the spec's acyclicity/forest invariant on the enumeration order). -/
def chainsOkB (w : World) : Bool :=
  w.hierarchy.all fun h =>
    match childListF w h.entity with
    | some L => decide L.Nodup
    | none => false

/-- Every parented record appears in its parent's child chain. -/
def coverageB (w : World) : Bool :=
  w.hierarchy.all fun h =>
    match h.parent with
    | some q => decide (h.entity ∈ (childListF w q).getD [])
    | none => true

/-- The hierarchy-store invariants of a well-formed `World` (spec §3: the
parent graph is a forest; sibling chains are proper lists; the sparse
hierarchy array and the dense entity array point at each other
consistently). -/
def wfHier (w : World) : Bool :=
  recFwdB w && recBackB w && noSelfB w && ptrParentB w && chainsOkB w && coverageB w

theorem recFwd_of_wf {w : World} (h : recFwdB w = true) : RecFwd w := by
  intro x i hx
  have hxlt : x < w.entities.length := by
    unfold hiOf at hx
    cases he : w.entities[x]? with
    | none => rw [he] at hx; cases hx
    | some d => exact (List.getElem?_eq_some.mp he).1
  have h1 := (List.all_eq_true.mp h) x (List.mem_range.mpr hxlt)
  rw [hx] at h1
  have h2 : (match w.hierarchy[i]? with
      | some hr => hr.entity == x
      | none => false) = true := h1
  cases hh : w.hierarchy[i]? with
  | none => rw [hh] at h2; cases h2
  | some hr =>
    rw [hh] at h2
    have h3 : (hr.entity == x) = true := h2
    exact ⟨hr, rfl, eq_of_beq h3⟩

theorem recBack_of_wf {w : World} (h : recBackB w = true) : RecBack w := by
  intro i hr hh
  have hilt : i < w.hierarchy.length := (List.getElem?_eq_some.mp hh).1
  have := (List.all_eq_true.mp h) i (List.mem_range.mpr hilt)
  rw [hh] at this
  exact eq_of_beq this

theorem noSelf_of_wf {w : World} (h : noSelfB w = true) :
    ∀ hr ∈ w.hierarchy, hr.parent ≠ some hr.entity ∧ hr.firstChild ≠ some hr.entity
      ∧ hr.nextSibling ≠ some hr.entity := by
  intro hr hmem
  have := (List.all_eq_true.mp h) hr hmem
  simp only [Bool.and_eq_true, bne_iff_ne, ne_eq] at this
  exact ⟨this.1.1, this.1.2, this.2⟩

/-- Record-level to view-level: the record of `x`, when `x` has one. -/
theorem hrecOf_eq {w : World} {x : Nat} {h : Hrec} :
    hrecOf w x = some h ↔ ∃ i, hiOf w x = some i ∧ w.hierarchy[i]? = some h := by
  unfold hrecOf
  cases hi : hiOf w x with
  | none => simp
  | some i => simp [hi]

theorem getParent_rec {w : World} {x : Nat} :
    getParent w x = (hrecOf w x).bind (·.parent) := by
  unfold getParent
  cases h : hrecOf w x <;> rfl

theorem getFirstChild_rec {w : World} {x : Nat} :
    getFirstChild w x = (hrecOf w x).bind (·.firstChild) := by
  unfold getFirstChild
  cases h : hrecOf w x <;> rfl

theorem getNextSibling_rec {w : World} {x : Nat} :
    getNextSibling w x = (hrecOf w x).bind (·.nextSibling) := by
  unfold getNextSibling
  cases h : hrecOf w x <;> rfl

theorem mem_of_elem {α : Type} {l : List α} {n : Nat} {a : α} (h : l[n]? = some a) :
    a ∈ l := by
  obtain ⟨hlt, heq⟩ := List.getElem?_eq_some.mp h
  exact heq ▸ List.getElem_mem hlt

/-- View form of the first-child half of `ptrParentB`. -/
theorem fcParent_of_wf {w : World} (hp : ptrParentB w = true) (hf : RecFwd w) :
    ∀ q c, getFirstChild w q = some c → getParent w c = some q := by
  intro q c hqc
  rw [getFirstChild_rec] at hqc
  cases hr : hrecOf w q with
  | none => rw [hr] at hqc; cases hqc
  | some hh =>
    rw [hr] at hqc
    obtain ⟨i, hi, hgi⟩ := hrecOf_eq.mp hr
    have hmem : hh ∈ w.hierarchy := mem_of_elem hgi
    have hall := (List.all_eq_true.mp hp) hh hmem
    simp only [Bool.and_eq_true] at hall
    have h1 := hall.1
    rw [show hh.firstChild = some c from hqc] at h1
    have hent : hh.entity = q := by
      obtain ⟨h2, hg2, he2⟩ := hf q i hi
      rw [hgi] at hg2
      cases hg2
      exact he2
    rw [hent] at h1
    exact eq_of_beq h1

/-- View form of the next-sibling half of `ptrParentB`. -/
theorem sibParent_of_wf {w : World} (hp : ptrParentB w = true) :
    ∀ x z, getNextSibling w x = some z → getParent w z = getParent w x := by
  intro x z hxz
  rw [getNextSibling_rec] at hxz
  cases hr : hrecOf w x with
  | none => rw [hr] at hxz; cases hxz
  | some hh =>
    rw [hr] at hxz
    obtain ⟨i, hi, hgi⟩ := hrecOf_eq.mp hr
    have hmem : hh ∈ w.hierarchy := mem_of_elem hgi
    have hall := (List.all_eq_true.mp hp) hh hmem
    simp only [Bool.and_eq_true] at hall
    have h2 := hall.2
    rw [show hh.nextSibling = some z from hxz] at h2
    have hbeq : (getParent w z == hh.parent) = true := h2
    have hx : getParent w x = hh.parent := by
      rw [getParent_rec, hr]
      rfl
    rw [hx]
    exact eq_of_beq hbeq

/- ### C3: basic update/view lemmas -/

theorem hierUpdate_entities (w : World) (i : Nat) (f : Hrec → Hrec) :
    (hierUpdate w i f).entities = w.entities := by
  unfold hierUpdate
  split <;> rfl

theorem hierUpdate_length (w : World) (i : Nat) (f : Hrec → Hrec) :
    (hierUpdate w i f).hierarchy.length = w.hierarchy.length := by
  unfold hierUpdate
  split
  · rfl
  · simp [List.length_set]

theorem hiOf_hierUpdate (w : World) (i : Nat) (f : Hrec → Hrec) (x : Nat) :
    hiOf (hierUpdate w i f) x = hiOf w x := by
  unfold hiOf
  rw [hierUpdate_entities]

theorem hierUpdate_getElem_ne (w : World) (i : Nat) (f : Hrec → Hrec) (j : Nat)
    (hj : j ≠ i) : (hierUpdate w i f).hierarchy[j]? = w.hierarchy[j]? := by
  unfold hierUpdate
  split
  · rfl
  · exact List.getElem?_set_ne (fun h => hj h.symm)

theorem hierUpdate_getElem_self (w : World) (i : Nat) (f : Hrec → Hrec) (hr : Hrec)
    (h : w.hierarchy[i]? = some hr) :
    (hierUpdate w i f).hierarchy[i]? = some (f hr) := by
  unfold hierUpdate
  rw [h]
  have hlt : i < w.hierarchy.length := (List.getElem?_eq_some.mp h).1
  simp [List.getElem?_set_self', List.getElem?_eq_some.mpr, h]

theorem hrecOf_hierUpdate_ne (w : World) (i : Nat) (f : Hrec → Hrec) (x : Nat)
    (hx : hiOf w x ≠ some i) :
    hrecOf (hierUpdate w i f) x = hrecOf w x := by
  unfold hrecOf
  rw [hiOf_hierUpdate]
  cases hh : hiOf w x with
  | none => rfl
  | some j =>
    have hj : j ≠ i := fun he => hx (he ▸ hh)
    exact hierUpdate_getElem_ne w i f j hj

theorem hrecOf_hierUpdate_self (w : World) (i : Nat) (f : Hrec → Hrec) (x : Nat)
    (hx : hiOf w x = some i) (hr : Hrec) (hh : w.hierarchy[i]? = some hr) :
    hrecOf (hierUpdate w i f) x = some (f hr) := by
  unfold hrecOf
  rw [hiOf_hierUpdate, hx]
  exact hierUpdate_getElem_self w i f hr hh

theorem entUpdate_hierarchy (w : World) (j : Nat) (f : EData → EData) :
    (entUpdate w j f).hierarchy = w.hierarchy := by
  unfold entUpdate
  split <;> rfl

theorem hiOf_entUpdate_ne (w : World) (j : Nat) (f : EData → EData) (x : Nat)
    (hx : x ≠ j) : hiOf (entUpdate w j f) x = hiOf w x := by
  unfold entUpdate hiOf
  split
  · rfl
  · simp only
    rw [List.getElem?_set_ne (fun h => hx h.symm)]

theorem hrecOf_entUpdate_ne (w : World) (j : Nat) (f : EData → EData) (x : Nat)
    (hx : x ≠ j) : hrecOf (entUpdate w j f) x = hrecOf w x := by
  unfold hrecOf
  rw [hiOf_entUpdate_ne w j f x hx, entUpdate_hierarchy]

theorem getParent_congr {w w' : World} {x : Nat} (h : hrecOf w' x = hrecOf w x) :
    getParent w' x = getParent w x := by
  rw [getParent_rec, getParent_rec, h]

theorem getFirstChild_congr {w w' : World} {x : Nat} (h : hrecOf w' x = hrecOf w x) :
    getFirstChild w' x = getFirstChild w x := by
  rw [getFirstChild_rec, getFirstChild_rec, h]

theorem getNextSibling_congr {w w' : World} {x : Nat} (h : hrecOf w' x = hrecOf w x) :
    getNextSibling w' x = getNextSibling w x := by
  rw [getNextSibling_rec, getNextSibling_rec, h]

/-- A link update that keeps the `parent` field preserves every parent view. -/
theorem getParent_hierUpdate (w : World) (i : Nat) (f : Hrec → Hrec)
    (hf : ∀ h, (f h).parent = h.parent) (x : Nat) :
    getParent (hierUpdate w i f) x = getParent w x := by
  by_cases hx : hiOf w x = some i
  · cases hh : w.hierarchy[i]? with
    | none =>
      have hwid : hierUpdate w i f = w := by unfold hierUpdate; rw [hh]
      rw [hwid]
    | some hr =>
      rw [getParent_rec, getParent_rec, hrecOf_hierUpdate_self w i f x hx hr hh]
      have hrx : hrecOf w x = some hr := by
        unfold hrecOf
        rw [hx]
        exact hh
      rw [hrx]
      simp [hf]
  · exact getParent_congr (hrecOf_hierUpdate_ne w i f x hx)

/-- A link update that keeps the `firstChild` field preserves every
first-child view. -/
theorem getFirstChild_hierUpdate (w : World) (i : Nat) (f : Hrec → Hrec)
    (hf : ∀ h, (f h).firstChild = h.firstChild) (x : Nat) :
    getFirstChild (hierUpdate w i f) x = getFirstChild w x := by
  by_cases hx : hiOf w x = some i
  · cases hh : w.hierarchy[i]? with
    | none =>
      have hwid : hierUpdate w i f = w := by unfold hierUpdate; rw [hh]
      rw [hwid]
    | some hr =>
      rw [getFirstChild_rec, getFirstChild_rec, hrecOf_hierUpdate_self w i f x hx hr hh]
      have hrx : hrecOf w x = some hr := by
        unfold hrecOf
        rw [hx]
        exact hh
      rw [hrx]
      simp [hf]
  · exact getFirstChild_congr (hrecOf_hierUpdate_ne w i f x hx)

/-- A link update that keeps the `nextSibling` field preserves every
next-sibling view. -/
theorem getNextSibling_hierUpdate (w : World) (i : Nat) (f : Hrec → Hrec)
    (hf : ∀ h, (f h).nextSibling = h.nextSibling) (x : Nat) :
    getNextSibling (hierUpdate w i f) x = getNextSibling w x := by
  by_cases hx : hiOf w x = some i
  · cases hh : w.hierarchy[i]? with
    | none =>
      have hwid : hierUpdate w i f = w := by unfold hierUpdate; rw [hh]
      rw [hwid]
    | some hr =>
      rw [getNextSibling_rec, getNextSibling_rec, hrecOf_hierUpdate_self w i f x hx hr hh]
      have hrx : hrecOf w x = some hr := by
        unfold hrecOf
        rw [hx]
        exact hh
      rw [hrx]
      simp [hf]
  · exact getNextSibling_congr (hrecOf_hierUpdate_ne w i f x hx)

/-- Record-entity preserving updates keep `RecFwd`. -/
theorem recFwd_hierUpdate (w : World) (i : Nat) (f : Hrec → Hrec)
    (hf : ∀ h, (f h).entity = h.entity) (H : RecFwd w) :
    RecFwd (hierUpdate w i f) := by
  intro x j hx
  rw [hiOf_hierUpdate] at hx
  obtain ⟨hr, hh, he⟩ := H x j hx
  by_cases hj : j = i
  · subst hj
    exact ⟨f hr, hierUpdate_getElem_self w j f hr hh, by rw [hf, he]⟩
  · exact ⟨hr, by rw [hierUpdate_getElem_ne w i f j hj]; exact hh, he⟩

/-- Record-entity preserving updates keep `RecBack`. -/
theorem recBack_hierUpdate (w : World) (i : Nat) (f : Hrec → Hrec)
    (hf : ∀ h, (f h).entity = h.entity) (H : RecBack w) :
    RecBack (hierUpdate w i f) := by
  intro j hr hh
  rw [hiOf_hierUpdate]
  by_cases hj : j = i
  · subst hj
    cases hw : w.hierarchy[j]? with
    | none =>
      rw [show (hierUpdate w j f) = w by unfold hierUpdate; rw [hw]] at hh
      rw [hw] at hh
      cases hh
    | some h0 =>
      rw [hierUpdate_getElem_self w j f h0 hw] at hh
      cases hh
      rw [hf]
      exact H j h0 hw
  · rw [hierUpdate_getElem_ne w i f j hj] at hh
    exact H j hr hh

/- ### C3: sibling-chain lemmas -/

/-- A sibling chain only depends on the next-sibling views of its members. -/
theorem chainListF_congr (w w' : World) :
    ∀ (f : Nat) (s : Option Nat) (L : List Nat), chainListF w s f = some L →
    (∀ x ∈ L, getNextSibling w' x = getNextSibling w x) → chainListF w' s f = some L := by
  intro f
  induction f with
  | zero =>
    intro s L h hv
    cases s with
    | none => exact h
    | some a => cases h
  | succ g ih =>
    intro s L h hv
    cases s with
    | none => exact h
    | some a =>
      rw [show chainListF w (some a) (g + 1)
            = (match chainListF w (getNextSibling w a) g with
               | none => none
               | some l => some (a :: l)) from rfl] at h
      cases hT : chainListF w (getNextSibling w a) g with
      | none => rw [hT] at h; cases h
      | some T =>
        rw [hT] at h
        cases h
        have hva : getNextSibling w' a = getNextSibling w a :=
          hv a (List.mem_cons_self a T)
        have hT' : chainListF w' (getNextSibling w a) g = some T :=
          ih _ _ hT (fun x hx => hv x (List.mem_cons_of_mem a hx))
        rw [show chainListF w' (some a) (g + 1)
              = (match chainListF w' (getNextSibling w' a) g with
                 | none => none
                 | some l => some (a :: l)) from rfl]
        rw [hva, hT']

/-- A chain obtained with some fuel is obtained with any fuel at least its
length. -/
theorem chainListF_fuel (w : World) :
    ∀ (f : Nat) (s : Option Nat) (L : List Nat), chainListF w s f = some L →
    ∀ f', L.length ≤ f' → chainListF w s f' = some L := by
  intro f
  induction f with
  | zero =>
    intro s L h f' hf'
    cases s with
    | none =>
      cases h
      cases f' with
      | zero => rfl
      | succ g => rfl
    | some a => cases h
  | succ g ih =>
    intro s L h f' hf'
    cases s with
    | none =>
      cases h
      cases f' with
      | zero => rfl
      | succ g' => rfl
    | some a =>
      rw [show chainListF w (some a) (g + 1)
            = (match chainListF w (getNextSibling w a) g with
               | none => none
               | some l => some (a :: l)) from rfl] at h
      cases hT : chainListF w (getNextSibling w a) g with
      | none => rw [hT] at h; cases h
      | some T =>
        rw [hT] at h
        cases h
        cases f' with
        | zero => simp at hf'
        | succ f'' =>
          have hT' : chainListF w (getNextSibling w a) f'' = some T :=
            ih _ _ hT f'' (by simpa using Nat.lt_succ_iff.mp (Nat.lt_of_lt_of_le (Nat.lt_succ_self _) hf'))
          rw [show chainListF w (some a) (f'' + 1)
                = (match chainListF w (getNextSibling w a) f'' with
                   | none => none
                   | some l => some (a :: l)) from rfl]
          rw [hT']

/-- Every member of a chain whose start and links satisfy the parent
consistency conditions has the given parent. -/
theorem chain_parent (w : World) (q : Nat)
    (Hb : ∀ x z, getNextSibling w x = some z → getParent w z = getParent w x) :
    ∀ (f : Nat) (s : Option Nat) (L : List Nat), chainListF w s f = some L →
    (∀ a, s = some a → getParent w a = some q) →
    ∀ x ∈ L, getParent w x = some q := by
  intro f
  induction f with
  | zero =>
    intro s L h hs x hx
    cases s with
    | none => cases h; cases hx
    | some a => cases h
  | succ g ih =>
    intro s L h hs x hx
    cases s with
    | none => cases h; cases hx
    | some a =>
      rw [show chainListF w (some a) (g + 1)
            = (match chainListF w (getNextSibling w a) g with
               | none => none
               | some l => some (a :: l)) from rfl] at h
      cases hT : chainListF w (getNextSibling w a) g with
      | none => rw [hT] at h; cases h
      | some T =>
        rw [hT] at h
        cases h
        have hpa : getParent w a = some q := hs a rfl
        cases List.mem_cons.mp hx with
        | inl he => rw [he]; exact hpa
        | inr ht =>
          refine ih _ _ hT ?_ x ht
          intro b hb
          rw [Hb a b hb, hpa]

/-- A duplicate-free list of naturals below `n` has length at most `n`. -/
theorem nodup_lt_length {l : List Nat} {n : Nat} (hnd : l.Nodup)
    (hlt : ∀ x ∈ l, x < n) : l.length ≤ n := by
  have h1 : l.toFinset.card = l.length := List.toFinset_card_of_nodup hnd
  have h2 : l.toFinset ⊆ Finset.range n := by
    intro x hx
    rw [List.mem_toFinset] at hx
    exact Finset.mem_range.mpr (hlt x hx)
  calc l.length = l.toFinset.card := h1.symm
    _ ≤ (Finset.range n).card := Finset.card_le_card h2
    _ = n := Finset.card_range n

/-- A duplicate-free chain owns a duplicate-free set of record indices
covering all members but possibly the last. -/
theorem chain_indices (w : World) (Hfwd : RecFwd w) :
    ∀ (f : Nat) (s : Option Nat) (L : List Nat), chainListF w s f = some L → L.Nodup →
    ∃ I : List Nat, I.Nodup
      ∧ (∀ i ∈ I, i < w.hierarchy.length ∧ ∃ x ∈ L, hiOf w x = some i)
      ∧ L.length ≤ I.length + 1 := by
  intro f
  induction f with
  | zero =>
    intro s L h hnd
    cases s with
    | none => cases h; exact ⟨[], List.nodup_nil, by simp, by simp⟩
    | some a => cases h
  | succ g ih =>
    intro s L h hnd
    cases s with
    | none => cases h; exact ⟨[], List.nodup_nil, by simp, by simp⟩
    | some a =>
      rw [show chainListF w (some a) (g + 1)
            = (match chainListF w (getNextSibling w a) g with
               | none => none
               | some l => some (a :: l)) from rfl] at h
      cases hT : chainListF w (getNextSibling w a) g with
      | none => rw [hT] at h; cases h
      | some T =>
        rw [hT] at h
        cases h
        cases hia : hiOf w a with
        | none =>
          have hsib : getNextSibling w a = none := by
            rw [getNextSibling_rec]
            unfold hrecOf
            rw [hia]
            rfl
          rw [hsib] at hT
          cases g with
          | zero => cases hT; exact ⟨[], List.nodup_nil, by simp, by simp⟩
          | succ g' => cases hT; exact ⟨[], List.nodup_nil, by simp, by simp⟩
        | some ia =>
          obtain ⟨I', hnd', hmem', hlen'⟩ := ih _ _ hT (List.Nodup.of_cons hnd)
          have hiaI : ia ∉ I' := by
            intro hin
            obtain ⟨-, x, hxT, hx⟩ := hmem' ia hin
            obtain ⟨h1, hg1, he1⟩ := Hfwd x ia hx
            obtain ⟨h2, hg2, he2⟩ := Hfwd a ia hia
            rw [hg1] at hg2
            cases hg2
            rw [← he1, he2] at hxT
            exact (List.nodup_cons.mp hnd).1 hxT
          refine ⟨ia :: I', List.nodup_cons.mpr ⟨hiaI, hnd'⟩, ?_, ?_⟩
          · intro i hi
            cases List.mem_cons.mp hi with
            | inl he =>
              subst he
              obtain ⟨h2, hg2, he2⟩ := Hfwd a i hia
              exact ⟨(List.getElem?_eq_some.mp hg2).1,
                a, List.mem_cons_self a T, hia⟩
            | inr ht =>
              obtain ⟨hlt, x, hxT, hx⟩ := hmem' i ht
              exact ⟨hlt, x, List.mem_cons_of_mem a hxT, hx⟩
          · simpa using Nat.succ_le_succ hlen'

/-- Bound on a duplicate-free chain avoiding a record-bearing entity. -/
theorem chain_length_bound (w : World) (Hfwd : RecFwd w) (f : Nat) (s : Option Nat)
    (L : List Nat) (h : chainListF w s f = some L) (hnd : L.Nodup)
    (a ia : Nat) (ha : a ∉ L) (hia : hiOf w a = some ia) :
    L.length ≤ w.hierarchy.length := by
  obtain ⟨I, hndI, hmem, hlen⟩ := chain_indices w Hfwd f s L h hnd
  have hiaI : ia ∉ I := by
    intro hin
    obtain ⟨-, x, hxL, hx⟩ := hmem ia hin
    obtain ⟨h1, hg1, he1⟩ := Hfwd x ia hx
    obtain ⟨h2, hg2, he2⟩ := Hfwd a ia hia
    rw [hg1] at hg2
    cases hg2
    rw [← he1, he2] at hxL
    exact ha hxL
  have hiaLt : ia < w.hierarchy.length := by
    obtain ⟨h2, hg2, -⟩ := Hfwd a ia hia
    exact (List.getElem?_eq_some.mp hg2).1
  have hbig : (ia :: I).length ≤ w.hierarchy.length := by
    refine nodup_lt_length (List.nodup_cons.mpr ⟨hiaI, hndI⟩) ?_
    intro x hx
    cases List.mem_cons.mp hx with
    | inl he => subst he; exact hiaLt
    | inr ht => exact (hmem x ht).1
  have : I.length + 1 ≤ w.hierarchy.length := by simpa using hbig
  omega

/- ### C3: the unlink walk -/

/-- A chain uses at least its length in fuel. -/
theorem chainListF_length_le (w : World) :
    ∀ (f : Nat) (s : Option Nat) (L : List Nat), chainListF w s f = some L →
    L.length ≤ f := by
  intro f
  induction f with
  | zero =>
    intro s L h
    cases s with
    | none => cases h; simp
    | some a => cases h
  | succ g ih =>
    intro s L h
    cases s with
    | none => cases h; simp
    | some a =>
      rw [show chainListF w (some a) (g + 1)
            = (match chainListF w (getNextSibling w a) g with
               | none => none
               | some l => some (a :: l)) from rfl] at h
      cases hT : chainListF w (getNextSibling w a) g with
      | none => rw [hT] at h; cases h
      | some T =>
        rw [hT] at h
        cases h
        simpa using Nat.succ_le_succ (ih _ _ hT)

/-- Any nonempty chain starts at its head. -/
theorem chain_start {w : World} {s : Option Nat} {f : Nat} {z : Nat} {l : List Nat}
    (h : chainListF w s f = some (z :: l)) : s = some z := by
  cases s with
  | none =>
    cases f with
    | zero => cases h
    | succ g => cases h
  | some a =>
    cases f with
    | zero => cases h
    | succ g =>
      rw [show chainListF w (some a) (g + 1)
            = (match chainListF w (getNextSibling w a) g with
               | none => none
               | some l => some (a :: l)) from rfl] at h
      cases hT : chainListF w (getNextSibling w a) g with
      | none => rw [hT] at h; cases h
      | some T => rw [hT] at h; cases h; rfl

/-- Destructuring of a nonempty chain. -/
theorem chain_cons {w : World} {y : Nat} {flen : Nat} {L : List Nat}
    (h : chainListF w (some y) flen = some (y :: L)) :
    ∃ fl, flen = fl + 1 ∧ chainListF w (getNextSibling w y) fl = some L := by
  cases flen with
  | zero => cases h
  | succ fl =>
    rw [show chainListF w (some y) (fl + 1)
          = (match chainListF w (getNextSibling w y) fl with
             | none => none
             | some l => some (y :: l)) from rfl] at h
    cases hT : chainListF w (getNextSibling w y) fl with
    | none => rw [hT] at h; cases h
    | some T =>
      rw [hT] at h
      injection h with h1
      injection h1 with h2 h3
      subst h3
      exact ⟨fl, rfl, hT⟩

/-- Building a chain from a head whose sibling view starts a known chain. -/
theorem chain_build {w : World} {y : Nat} {fl : Nat} {L : List Nat}
    (h : chainListF w (getNextSibling w y) fl = some L) :
    chainListF w (some y) (fl + 1) = some (y :: L) := by
  rw [show chainListF w (some y) (fl + 1)
        = (match chainListF w (getNextSibling w y) fl with
           | none => none
           | some l => some (y :: l)) from rfl]
  rw [h]

/-- The record and the view of the next sibling agree. -/
theorem sib_view {w : World} {y yi : Nat} {yh : Hrec}
    (hi : hiOf w y = some yi) (hg : w.hierarchy[yi]? = some yh) :
    getNextSibling w y = yh.nextSibling := by
  rw [getNextSibling_rec]
  unfold hrecOf
  rw [hi]
  show (w.hierarchy[yi]?).bind _ = _
  rw [hg]
  rfl

/-- Specification of the unlink loop of `World::setParent` beyond the first
link: starting from the head of a chain that contains `child` strictly
later, the walk reaches the unique predecessor of `child` along the chain
and redirects that record's next-sibling pointer to
`getNextSibling w child`, which erases `child` from the chain and leaves
every other link untouched. -/
theorem unlinkWalk_spec (w : World) (e : Nat) (ns : Option Nat) (Hfwd : RecFwd w)
    (hns : ns = getNextSibling w e) :
    ∀ (L : List Nat) (y g flen : Nat),
    chainListF w (some y) flen = some (y :: L) →
    e ∈ L → (y :: L).Nodup → L.length ≤ g →
    ∃ yi yh ypred L2,
      unlinkWalk w e ns y g
          = hierUpdate w yi (fun h => { h with nextSibling := ns })
        ∧ hiOf w ypred = some yi ∧ w.hierarchy[yi]? = some yh ∧ yh.entity = ypred
        ∧ yh.nextSibling = some e ∧ ypred ∈ y :: L
        ∧ chainListF (hierUpdate w yi (fun h => { h with nextSibling := ns }))
            (some y) ((y :: L2).length) = some (y :: L2)
        ∧ e ∉ y :: L2 ∧ (y :: L2).Nodup ∧ (∀ x ∈ y :: L2, x ∈ y :: L)
        ∧ (y :: L2).length ≤ (y :: L).length := by
  subst hns
  intro L
  induction L with
  | nil => intro y g flen hch he hnd hg; cases he
  | cons z L' ih =>
    intro y g flen hch he hnd hg
    obtain ⟨fl, rfl, htail⟩ := chain_cons hch
    have hsy : getNextSibling w y = some z := chain_start htail
    rw [hsy] at htail
    have hyeL : y ∉ z :: L' := (List.nodup_cons.mp hnd).1
    have hyne : y ≠ e := fun hye => hyeL (hye ▸ he)
    obtain ⟨yh, hrec⟩ : ∃ yh, hrecOf w y = some yh := by
      have hsy2 := hsy
      rw [getNextSibling_rec] at hsy2
      cases hr : hrecOf w y with
      | none => rw [hr] at hsy2; cases hsy2
      | some yh0 => exact ⟨yh0, rfl⟩
    obtain ⟨yi, hiy, hgy⟩ := hrecOf_eq.mp hrec
    have hsrec : yh.nextSibling = some z := by
      rw [sib_view hiy hgy] at hsy
      exact hsy
    have hent : yh.entity = y := by
      obtain ⟨h2, hg2, he2⟩ := Hfwd y yi hiy
      rw [hgy] at hg2
      cases hg2
      exact he2
    cases g with
    | zero => simp at hg
    | succ g' =>
      have hwalk : unlinkWalk w e (getNextSibling w e) y (g' + 1)
          = if z = e then
              hierUpdate w yi (fun h => { h with nextSibling := getNextSibling w e })
            else unlinkWalk w e (getNextSibling w e) z g' := by
        rw [show unlinkWalk w e (getNextSibling w e) y (g' + 1)
              = (match hiOf w y with
                 | none => w
                 | some yi0 =>
                   match w.hierarchy[yi0]? with
                   | none => w
                   | some yh0 =>
                     match yh0.nextSibling with
                     | none => w
                     | some z0 =>
                       if z0 = e then
                         hierUpdate w yi0
                           (fun h => { h with nextSibling := getNextSibling w e })
                       else unlinkWalk w e (getNextSibling w e) z0 g') from rfl]
        rw [hiy]
        show (match w.hierarchy[yi]? with
              | none => w
              | some yh0 =>
                match yh0.nextSibling with
                | none => w
                | some z0 =>
                  if z0 = e then
                    hierUpdate w yi
                      (fun h => { h with nextSibling := getNextSibling w e })
                  else unlinkWalk w e (getNextSibling w e) z0 g') = _
        rw [hgy]
        show (match yh.nextSibling with
              | none => w
              | some z0 =>
                if z0 = e then
                  hierUpdate w yi
                    (fun h => { h with nextSibling := getNextSibling w e })
                else unlinkWalk w e (getNextSibling w e) z0 g') = _
        rw [hsrec]
      by_cases hze : z = e
      · subst hze
        rw [hwalk, if_pos rfl]
        have hzL' : z ∉ L' := (List.nodup_cons.mp (List.Nodup.of_cons hnd)).1
        obtain ⟨fl', rfl, htail'⟩ := chain_cons htail
        have hrecne : ∀ x ∈ L', hrecOf (hierUpdate w yi
            (fun h => { h with nextSibling := getNextSibling w z })) x
            = hrecOf w x := by
          intro x hx
          refine hrecOf_hierUpdate_ne w yi _ x ?_
          intro hxi
          obtain ⟨h2, hg2, he2⟩ := Hfwd x yi hxi
          rw [hgy] at hg2
          cases hg2
          rw [← he2, hent] at hx
          exact hyeL (List.mem_cons_of_mem z hx)
        have hchainU : chainListF (hierUpdate w yi
            (fun h => { h with nextSibling := getNextSibling w z }))
            (getNextSibling w z) fl' = some L' := by
          refine chainListF_congr w _ fl' _ L' htail' ?_
          intro x hx
          exact getNextSibling_congr (hrecne x hx)
        have hsibU : getNextSibling (hierUpdate w yi
            (fun h => { h with nextSibling := getNextSibling w z })) y
            = getNextSibling w z := by
          rw [getNextSibling_rec,
            hrecOf_hierUpdate_self w yi _ y hiy yh hgy]
          rfl
        have hchainU2 : chainListF (hierUpdate w yi
            (fun h => { h with nextSibling := getNextSibling w z }))
            (some y) (L'.length + 1) = some (y :: L') := by
          refine chain_build ?_
          rw [hsibU]
          exact chainListF_fuel _ fl' _ L' hchainU L'.length (Nat.le_refl _)
        refine ⟨yi, yh, y, L', rfl, hiy, hgy, hent, hsrec, List.mem_cons_self y _,
          hchainU2, ?_, ?_, ?_, by simp⟩
        · intro hmem
          cases List.mem_cons.mp hmem with
          | inl h1 => exact hyne h1.symm
          | inr h2 => exact hzL' h2
        · exact List.nodup_cons.mpr
            ⟨fun hy => hyeL (List.mem_cons_of_mem z hy),
             List.Nodup.of_cons (List.Nodup.of_cons hnd)⟩
        · intro x hx
          cases List.mem_cons.mp hx with
          | inl h1 => exact h1 ▸ List.mem_cons_self y _
          | inr h2 => exact List.mem_cons_of_mem y (List.mem_cons_of_mem z h2)
      · rw [hwalk, if_neg hze]
        have heL' : e ∈ L' := by
          cases List.mem_cons.mp he with
          | inl h1 => exact absurd h1.symm hze
          | inr h2 => exact h2
        have hgL : L'.length ≤ g' := by
          simp only [List.length_cons] at hg
          omega
        obtain ⟨yi', yh', ypred', L2', hwalk', hiy', hgy', hent', hsib', hmem',
          hchain', hne', hnd'', hsub', hlen'⟩ :=
          ih z g' fl htail heL' (List.Nodup.of_cons hnd) hgL
        have hypy : ypred' ≠ y := by
          intro hpy
          exact hyeL (hpy ▸ hmem')
        have hyine : hiOf w y ≠ some yi' := by
          intro hxi
          obtain ⟨h2, hg2, he2⟩ := Hfwd y yi' hxi
          rw [hgy'] at hg2
          cases hg2
          exact hypy (hent' ▸ he2.symm).symm
        have hsibyU : getNextSibling (hierUpdate w yi'
            (fun h => { h with nextSibling := getNextSibling w e })) y = some z := by
          rw [getNextSibling_congr (hrecOf_hierUpdate_ne w yi' _ y hyine)]
          exact hsy
        have hchainY : chainListF (hierUpdate w yi'
            (fun h => { h with nextSibling := getNextSibling w e }))
            (some y) ((z :: L2').length + 1) = some (y :: z :: L2') := by
          refine chain_build ?_
          rw [hsibyU]
          exact hchain'
        refine ⟨yi', yh', ypred', z :: L2', hwalk', hiy', hgy', hent', hsib',
          List.mem_cons_of_mem y hmem', hchainY, ?_, ?_, ?_, ?_⟩
        · intro hmem
          cases List.mem_cons.mp hmem with
          | inl h1 => exact hyne h1.symm
          | inr h2 => exact hne' h2
        · refine List.nodup_cons.mpr ⟨?_, hnd''⟩
          intro hy
          exact hyeL (hsub' y hy)
        · intro x hx
          cases List.mem_cons.mp hx with
          | inl h1 => exact h1 ▸ List.mem_cons_self y _
          | inr h2 => exact List.mem_cons_of_mem y (hsub' x h2)
        · simp only [List.length_cons] at hlen' ⊢
          omega

/- ### C3: the record garbage collector -/

theorem entUpdate_entities_eq (w : World) (j : Nat) (f : EData → EData) (d : EData)
    (h : w.entities[j]? = some d) :
    (entUpdate w j f).entities = w.entities.set j (f d) := by
  unfold entUpdate
  rw [h]

theorem World.ext' {a b : World} (h1 : a.entities = b.entities)
    (h2 : a.transforms = b.transforms) (h3 : a.names = b.names)
    (h4 : a.hierarchy = b.hierarchy) (h5 : a.firstFree = b.firstFree) : a = b := by
  cases a
  cases b
  simp_all

theorem entUpdate_transforms (w : World) (j : Nat) (f : EData → EData) :
    (entUpdate w j f).transforms = w.transforms := by
  unfold entUpdate; split <;> rfl

theorem entUpdate_names (w : World) (j : Nat) (f : EData → EData) :
    (entUpdate w j f).names = w.names := by
  unfold entUpdate; split <;> rfl

theorem entUpdate_firstFree (w : World) (j : Nat) (f : EData → EData) :
    (entUpdate w j f).firstFree = w.firstFree := by
  unfold entUpdate; split <;> rfl

theorem hierUpdate_transforms (w : World) (i : Nat) (f : Hrec → Hrec) :
    (hierUpdate w i f).transforms = w.transforms := by
  unfold hierUpdate; split <;> rfl

theorem hierUpdate_names (w : World) (i : Nat) (f : Hrec → Hrec) :
    (hierUpdate w i f).names = w.names := by
  unfold hierUpdate; split <;> rfl

theorem hierUpdate_firstFree (w : World) (i : Nat) (f : Hrec → Hrec) :
    (hierUpdate w i f).firstFree = w.firstFree := by
  unfold hierUpdate; split <;> rfl

/-- Specification of the `collectGarbage` lambda in `World::setParent`: it
either leaves the world untouched (entity has a parent or children, or no
record), or frees the entity's record by swapping the last record into its
slot — preserving record consistency, every other entity's record view, and
dropping exactly one record. -/
theorem gc_spec (w : World) (q : Nat) (Hfwd : RecFwd w) (Hback : RecBack w) :
    collectGarbage w q = w
    ∨ (RecFwd (collectGarbage w q) ∧ RecBack (collectGarbage w q)
       ∧ (collectGarbage w q).entities.length = w.entities.length
       ∧ w.hierarchy.length = (collectGarbage w q).hierarchy.length + 1
       ∧ hiOf (collectGarbage w q) q = none
       ∧ getParent w q = none
       ∧ (∀ x, x ≠ q → hrecOf (collectGarbage w q) x = hrecOf w x
            ∧ (hiOf (collectGarbage w q) x).isSome = (hiOf w x).isSome)) := by
  cases hq : hiOf w q with
  | none =>
    left
    unfold collectGarbage
    rw [hq]
  | some hidx =>
    cases hrec : w.hierarchy[hidx]? with
    | none =>
      left
      unfold collectGarbage
      rw [hq]
      show (match w.hierarchy[hidx]? with
            | none => w
            | some h =>
              if h.parent.isSome then w
              else if h.firstChild.isSome then w
              else
                match w.hierarchy.getLast? with
                | none => w
                | some last =>
                  let w1 := entUpdate w last.entity
                    (fun d => { d with hierarchy := some hidx })
                  let w2 := entUpdate w1 q (fun d => { d with hierarchy := none })
                  let w3 := hierUpdate w2 hidx (fun _ => last)
                  { w3 with hierarchy := w3.hierarchy.dropLast }) = w
      rw [hrec]
    | some h =>
      have hred : collectGarbage w q =
          (if h.parent.isSome then w
           else if h.firstChild.isSome then w
           else
             match w.hierarchy.getLast? with
             | none => w
             | some last =>
               let w1 := entUpdate w last.entity
                 (fun d => { d with hierarchy := some hidx })
               let w2 := entUpdate w1 q (fun d => { d with hierarchy := none })
               let w3 := hierUpdate w2 hidx (fun _ => last)
               { w3 with hierarchy := w3.hierarchy.dropLast }) := by
        unfold collectGarbage
        rw [hq]
        show (match w.hierarchy[hidx]? with
              | none => w
              | some h =>
                if h.parent.isSome then w
                else if h.firstChild.isSome then w
                else
                  match w.hierarchy.getLast? with
                  | none => w
                  | some last =>
                    let w1 := entUpdate w last.entity
                      (fun d => { d with hierarchy := some hidx })
                    let w2 := entUpdate w1 q (fun d => { d with hierarchy := none })
                    let w3 := hierUpdate w2 hidx (fun _ => last)
                    { w3 with hierarchy := w3.hierarchy.dropLast }) = _
        rw [hrec]
      by_cases hpar : h.parent.isSome = true
      · left
        rw [hred, if_pos hpar]
      · by_cases hfc : h.firstChild.isSome = true
        · left
          rw [hred, if_neg hpar, if_pos hfc]
        · cases hlast : w.hierarchy.getLast? with
          | none =>
            left
            rw [hred, if_neg hpar, if_neg hfc, hlast]
          | some last =>
            right
            obtain ⟨hidxlt, hrecE⟩ := List.getElem?_eq_some.mp hrec
            have hlast' : w.hierarchy[w.hierarchy.length - 1]? = some last := by
              rw [List.getLast?_eq_getElem?] at hlast
              exact hlast
            have hbl : hiOf w last.entity = some (w.hierarchy.length - 1) :=
              Hback _ last hlast'
            obtain ⟨dq, hdq⟩ : ∃ dq, w.entities[q]? = some dq := by
              unfold hiOf at hq
              cases hdq : w.entities[q]? with
              | none => rw [hdq] at hq; cases hq
              | some d => exact ⟨d, rfl⟩
            have hdqh : dq.hierarchy = some hidx := by
              unfold hiOf at hq
              rw [hdq] at hq
              exact hq
            obtain ⟨dL, hdL⟩ : ∃ dL, w.entities[last.entity]? = some dL := by
              unfold hiOf at hbl
              cases hdL0 : w.entities[last.entity]? with
              | none => rw [hdL0] at hbl; cases hbl
              | some d => exact ⟨d, rfl⟩
            have hHentq : h.entity = q := by
              obtain ⟨h2, hg2, he2⟩ := Hfwd q hidx hq
              rw [hrec] at hg2
              cases hg2
              exact he2
            have hgcEq : collectGarbage w q =
                { w with
                  entities := (w.entities.set last.entity
                      { dL with hierarchy := some hidx }).set q
                      { dq with hierarchy := none },
                  hierarchy := (w.hierarchy.set hidx last).dropLast } := by
              rw [hred, if_neg hpar, if_neg hfc, hlast]
              show (
                  let w1 := entUpdate w last.entity
                    (fun d => { d with hierarchy := some hidx });
                  let w2 := entUpdate w1 q (fun d => { d with hierarchy := none });
                  let w3 := hierUpdate w2 hidx (fun _ => last);
                  ({ w3 with hierarchy := w3.hierarchy.dropLast } : World)) = _
              have hw1e : (entUpdate w last.entity
                  (fun d => { d with hierarchy := some hidx })).entities
                  = w.entities.set last.entity { dL with hierarchy := some hidx } :=
                entUpdate_entities_eq w last.entity _ dL hdL
              have hw2e : (entUpdate (entUpdate w last.entity
                  (fun d => { d with hierarchy := some hidx })) q
                  (fun d => { d with hierarchy := none })).entities
                  = (w.entities.set last.entity
                      { dL with hierarchy := some hidx }).set q
                      { dq with hierarchy := none } := by
                by_cases hql : q = last.entity
                · have hlk : (entUpdate w last.entity
                      (fun d => { d with hierarchy := some hidx })).entities[q]?
                      = some { dL with hierarchy := some hidx } := by
                    rw [hw1e, hql, List.getElem?_set_self', hdL]
                    rfl
                  rw [entUpdate_entities_eq _ q _ _ hlk, hw1e]
                  have hdLdq : dL = dq := by
                    rw [hql, hdL] at hdq
                    cases hdq
                    rfl
                  rw [hql, List.set_set, List.set_set, ← hdLdq]
                · have hlk : (entUpdate w last.entity
                      (fun d => { d with hierarchy := some hidx })).entities[q]?
                      = some dq := by
                    rw [hw1e, List.getElem?_set_ne (fun hh => hql hh.symm)]
                    exact hdq
                  rw [entUpdate_entities_eq _ q _ _ hlk, hw1e]
              have hw2h : (entUpdate (entUpdate w last.entity
                  (fun d => { d with hierarchy := some hidx })) q
                  (fun d => { d with hierarchy := none })).hierarchy
                  = w.hierarchy := by
                rw [entUpdate_hierarchy, entUpdate_hierarchy]
              have hw3h : (hierUpdate (entUpdate (entUpdate w last.entity
                  (fun d => { d with hierarchy := some hidx })) q
                  (fun d => { d with hierarchy := none })) hidx
                  (fun _ => last)).hierarchy
                  = w.hierarchy.set hidx last := by
                unfold hierUpdate
                rw [hw2h, hrec]
              refine World.ext' ?_ ?_ ?_ ?_ ?_
              · show (hierUpdate _ hidx _).entities = _
                rw [hierUpdate_entities, hw2e]
              · show (hierUpdate _ hidx _).transforms = _
                rw [hierUpdate_transforms, entUpdate_transforms, entUpdate_transforms]
              · show (hierUpdate _ hidx _).names = _
                rw [hierUpdate_names, entUpdate_names, entUpdate_names]
              · show (hierUpdate _ hidx _).hierarchy.dropLast = _
                rw [hw3h]
              · show (hierUpdate _ hidx _).firstFree = _
                rw [hierUpdate_firstFree, entUpdate_firstFree, entUpdate_firstFree]
            -- shorthand facts about the two new component lists
            have hq_ne_last_of : last.entity = q → hidx = w.hierarchy.length - 1 := by
              intro hql
              rw [hql] at hbl
              rw [hq] at hbl
              cases hbl
              rfl
            have hlast_ne : last.entity ≠ q → hidx < w.hierarchy.length - 1 := by
              intro hql
              rcases Nat.lt_or_ge hidx (w.hierarchy.length - 1) with hlt | hge
              · exact hlt
              · exfalso
                have hin : hidx = w.hierarchy.length - 1 := by omega
                rw [hin, hlast'] at hrec
                cases hrec
                exact hql hHentq
            have hEq' : ((w.entities.set last.entity
                { dL with hierarchy := some hidx }).set q
                { dq with hierarchy := none })[q]?
                = some { dq with hierarchy := none } := by
              by_cases hql : q = last.entity
              · rw [List.getElem?_set_self']
                rw [← hql, List.getElem?_set_self', hdq]
                rfl
              · rw [List.getElem?_set_self']
                rw [List.getElem?_set_ne (fun hh => hql hh.symm), hdq]
                rfl
            have hEx : ∀ x, x ≠ q → ((w.entities.set last.entity
                { dL with hierarchy := some hidx }).set q
                { dq with hierarchy := none })[x]?
                = if x = last.entity
                  then some { dL with hierarchy := some hidx }
                  else w.entities[x]? := by
              intro x hx
              rw [List.getElem?_set_ne (Ne.symm hx)]
              by_cases hxl : x = last.entity
              · rw [if_pos hxl, hxl, List.getElem?_set_self', hdL]
                rfl
              · rw [if_neg hxl, List.getElem?_set_ne (fun hh => hxl hh.symm)]
            have hHj : ∀ j, ((w.hierarchy.set hidx last).dropLast)[j]?
                = if j < w.hierarchy.length - 1
                  then (w.hierarchy.set hidx last)[j]? else none := by
              intro j
              rw [List.dropLast_eq_take, List.getElem?_take, List.length_set]
            have hHj_self : hidx < w.hierarchy.length - 1 →
                ((w.hierarchy.set hidx last).dropLast)[hidx]? = some last := by
              intro hlt
              rw [hHj, if_pos hlt, List.getElem?_set_self', hrec]
              rfl
            have hHj_ne : ∀ j, j ≠ hidx → j < w.hierarchy.length - 1 →
                ((w.hierarchy.set hidx last).dropLast)[j]? = w.hierarchy[j]? := by
              intro j hj hlt
              rw [hHj, if_pos hlt, List.getElem?_set_ne (fun hh => hj hh.symm)]
            have hiq : hiOf (collectGarbage w q) q = none := by
              rw [hgcEq]
              unfold hiOf
              show (((w.entities.set last.entity
                  { dL with hierarchy := some hidx }).set q
                  { dq with hierarchy := none })[q]?).bind _ = none
              rw [hEq']
              rfl
            have hix : ∀ x, x ≠ q → hiOf (collectGarbage w q) x
                = if x = last.entity then some hidx else hiOf w x := by
              intro x hx
              rw [hgcEq]
              unfold hiOf
              show (((w.entities.set last.entity
                  { dL with hierarchy := some hidx }).set q
                  { dq with hierarchy := none })[x]?).bind _ = _
              rw [hEx x hx]
              by_cases hxl : x = last.entity
              · simp only [if_pos hxl]
                rfl
              · simp only [if_neg hxl]
            have hviews : ∀ x, x ≠ q → hrecOf (collectGarbage w q) x = hrecOf w x
                ∧ (hiOf (collectGarbage w q) x).isSome = (hiOf w x).isSome := by
              intro x hx
              by_cases hxl : x = last.entity
              · have hi1 : hiOf (collectGarbage w q) x = some hidx := by
                  rw [hix x hx, if_pos hxl]
                have hlt : hidx < w.hierarchy.length - 1 :=
                  hlast_ne (hxl ▸ hx)
                have hrecQ : hrecOf (collectGarbage w q) x = some last := by
                  unfold hrecOf
                  rw [hi1]
                  show (collectGarbage w q).hierarchy[hidx]? = some last
                  rw [hgcEq]
                  exact hHj_self hlt
                have hrecW : hrecOf w x = some last := by
                  unfold hrecOf
                  rw [hxl, hbl]
                  show w.hierarchy[w.hierarchy.length - 1]? = some last
                  exact hlast'
                refine ⟨by rw [hrecQ, hrecW], ?_⟩
                rw [hi1, hxl, hbl]
                rfl
              · have hi1 : hiOf (collectGarbage w q) x = hiOf w x := by
                  rw [hix x hx, if_neg hxl]
                refine ⟨?_, by rw [hi1]⟩
                unfold hrecOf
                rw [hi1]
                cases hi : hiOf w x with
                | none => rfl
                | some i =>
                  obtain ⟨hx', hg', he'⟩ := Hfwd x i hi
                  have hine : i ≠ hidx := by
                    intro hih
                    rw [hih, hrec] at hg'
                    cases hg'
                    exact hx (he'.symm.trans hHentq)
                  have hin1 : i ≠ w.hierarchy.length - 1 := by
                    intro hih
                    rw [hih, hlast'] at hg'
                    cases hg'
                    exact hxl he'.symm
                  have hilt : i < w.hierarchy.length := (List.getElem?_eq_some.mp hg').1
                  show (collectGarbage w q).hierarchy[i]? = w.hierarchy[i]?
                  rw [hgcEq]
                  show ((w.hierarchy.set hidx last).dropLast)[i]? = w.hierarchy[i]?
                  exact hHj_ne i hine (by omega)
            refine ⟨?_, ?_, ?_, ?_, hiq, ?_, hviews⟩
            · -- RecFwd
              intro x i hxi
              by_cases hxq : x = q
              · rw [hxq, hiq] at hxi
                cases hxi
              · rw [hix x hxq] at hxi
                by_cases hxl : x = last.entity
                · rw [if_pos hxl] at hxi
                  cases hxi
                  refine ⟨last, ?_, hxl.symm⟩
                  rw [hgcEq]
                  show ((w.hierarchy.set hidx last).dropLast)[hidx]? = some last
                  exact hHj_self (hlast_ne (hxl ▸ hxq))
                · rw [if_neg hxl] at hxi
                  obtain ⟨hx', hg', he'⟩ := Hfwd x i hxi
                  have hine : i ≠ hidx := by
                    intro hih
                    rw [hih, hrec] at hg'
                    cases hg'
                    exact hxq (he'.symm.trans hHentq)
                  have hin1 : i ≠ w.hierarchy.length - 1 := by
                    intro hih
                    rw [hih, hlast'] at hg'
                    cases hg'
                    exact hxl he'.symm
                  have hilt : i < w.hierarchy.length := (List.getElem?_eq_some.mp hg').1
                  refine ⟨hx', ?_, he'⟩
                  rw [hgcEq]
                  show ((w.hierarchy.set hidx last).dropLast)[i]? = some hx'
                  rw [hHj_ne i hine (by omega)]
                  exact hg'
            · -- RecBack
              intro j h' hj'
              rw [hgcEq] at hj'
              have hj2 : ((w.hierarchy.set hidx last).dropLast)[j]? = some h' := hj'
              have hjlt : j < w.hierarchy.length - 1 := by
                by_contra hge
                rw [hHj j, if_neg hge] at hj2
                cases hj2
              by_cases hjx : j = hidx
              · subst hjx
                rw [hHj_self hjlt] at hj2
                injection hj2 with hj3
                subst hj3
                have hlq : last.entity ≠ q := by
                  intro hlq
                  have := hq_ne_last_of hlq
                  omega
                rw [hix last.entity hlq, if_pos rfl]
              · rw [hHj_ne j hjx hjlt] at hj2
                have hbk := Hback j h' hj2
                have hne_q : h'.entity ≠ q := by
                  intro heq
                  rw [heq, hq] at hbk
                  cases hbk
                  exact hjx rfl
                have hne_l : h'.entity ≠ last.entity := by
                  intro heq
                  rw [heq, hbl] at hbk
                  cases hbk
                  omega
                rw [hix h'.entity hne_q, if_neg hne_l]
                exact hbk
            · -- entities length
              rw [hgcEq]
              show ((w.entities.set last.entity _).set q _).length = _
              simp [List.length_set]
            · -- hierarchy length
              rw [hgcEq]
              show w.hierarchy.length = ((w.hierarchy.set hidx last).dropLast).length + 1
              rw [List.length_dropLast, List.length_set]
              omega
            · -- parent view of q in the original world
              rw [getParent_rec]
              have hrw : hrecOf w q = some h := hrecOf_eq.mpr ⟨hidx, hq, hrec⟩
              rw [hrw]
              show h.parent = none
              cases hp : h.parent with
              | none => rfl
              | some p =>
                rw [hp] at hpar
                exact absurd rfl hpar

/- ### C3: unlink from siblings -/

/-- The record and the view of the first child agree. -/
theorem fc_view {w : World} {y yi : Nat} {yh : Hrec}
    (hi : hiOf w y = some yi) (hg : w.hierarchy[yi]? = some yh) :
    getFirstChild w y = yh.firstChild := by
  rw [getFirstChild_rec]
  unfold hrecOf
  rw [hi]
  show (w.hierarchy[yi]?).bind _ = _
  rw [hg]
  rfl

/-- The record and the view of the parent agree. -/
theorem par_view {w : World} {y yi : Nat} {yh : Hrec}
    (hi : hiOf w y = some yi) (hg : w.hierarchy[yi]? = some yh) :
    getParent w y = yh.parent := by
  rw [getParent_rec]
  unfold hrecOf
  rw [hi]
  show (w.hierarchy[yi]?).bind _ = _
  rw [hg]
  rfl

/-- Chains from a missing start are empty at any fuel. -/
theorem chainListF_none (w : World) (f : Nat) : chainListF w none f = some [] := by
  cases f <;> rfl

/-- Specification of `unlinkFromSiblings`: with `child` present in the
parent's child chain, the function performs exactly one link redirect, which
removes `child` from the chain, does not touch any parent pointer, any other
entity's first-child pointer, or the next-sibling pointer of any entity
outside the chain. -/
theorem unlink_spec (w : World) (e oldP opIdx : Nat) (oph : Hrec) (M : List Nat)
    (Hfwd : RecFwd w)
    (hnoselfR : ∀ hr ∈ w.hierarchy, hr.nextSibling ≠ some hr.entity)
    (hiop : hiOf w oldP = some opIdx)
    (hoph : w.hierarchy[opIdx]? = some oph)
    (hM : childListF w oldP = some M)
    (hMnd : M.Nodup)
    (heM : e ∈ M)
    (hneOP : e ≠ oldP) :
    ∃ J Fj MA,
      unlinkFromSiblings w opIdx e = hierUpdate w J Fj
      ∧ (∀ h, (Fj h).entity = h.entity)
      ∧ (∀ h, (Fj h).parent = h.parent)
      ∧ (∃ je, hiOf w je = some J ∧ je ≠ e)
      ∧ (∀ x, x ≠ oldP → getFirstChild (hierUpdate w J Fj) x = getFirstChild w x)
      ∧ (∀ x, x ∉ M → getNextSibling (hierUpdate w J Fj) x = getNextSibling w x)
      ∧ chainListF (hierUpdate w J Fj)
          (getFirstChild (hierUpdate w J Fj) oldP) MA.length = some MA
      ∧ e ∉ MA ∧ MA.Nodup ∧ (∀ x ∈ MA, x ∈ M) := by
  have hopent : oph.entity = oldP := by
    obtain ⟨h2, hg2, he2⟩ := Hfwd oldP opIdx hiop
    rw [hoph] at hg2
    cases hg2
    exact he2
  -- the chain is nonempty and starts at the stored first child
  obtain ⟨y0, M', rfl⟩ : ∃ y0 M', M = y0 :: M' := by
    cases M with
    | nil => cases heM
    | cons a b => exact ⟨a, b, rfl⟩
  have hfc0 : getFirstChild w oldP = some y0 := chain_start hM
  have hfcrec : oph.firstChild = some y0 := by
    rw [← fc_view hiop hoph]
    exact hfc0
  have hred : unlinkFromSiblings w opIdx e =
      (if y0 = e then
        hierUpdate w opIdx (fun h => { h with firstChild := getNextSibling w e })
      else unlinkWalk w e (getNextSibling w e) y0 (w.hierarchy.length + 1)) := by
    unfold unlinkFromSiblings
    rw [hoph]
    show (match oph.firstChild with
          | none => w
          | some y0 =>
            if y0 = e then
              hierUpdate w opIdx
                (fun h => { h with firstChild := getNextSibling w e })
            else unlinkWalk w e (getNextSibling w e) y0 (w.hierarchy.length + 1)) = _
    rw [hfcrec]
  by_cases hy0 : y0 = e
  · -- the child is the head of the chain: redirect the first-child pointer
    subst hy0
    rw [hred, if_pos rfl]
    have hM2 : chainListF w (some y0) (w.hierarchy.length + 1) = some (y0 :: M') := by
      rw [← hfc0]
      exact hM
    obtain ⟨fl, hfl, htail⟩ := chain_cons hM2
    refine ⟨opIdx, _, M', rfl, fun h => rfl, fun h => rfl,
      ⟨oldP, hiop, fun hh => hneOP hh.symm⟩, ?_, ?_, ?_, ?_, ?_, ?_⟩
    · intro x hx
      refine getFirstChild_congr (hrecOf_hierUpdate_ne w opIdx _ x ?_)
      intro hxi
      obtain ⟨h2, hg2, he2⟩ := Hfwd x opIdx hxi
      rw [hoph] at hg2
      cases hg2
      exact hx (he2 ▸ hopent ▸ rfl)
    · intro x hx
      exact getNextSibling_hierUpdate w opIdx
        (fun h => { h with firstChild := getNextSibling w y0 }) (fun h => rfl) x
    · have hfcA : getFirstChild (hierUpdate w opIdx
          (fun h => { h with firstChild := getNextSibling w y0 })) oldP
          = getNextSibling w y0 := by
        rw [getFirstChild_rec,
          hrecOf_hierUpdate_self w opIdx _ oldP hiop oph hoph]
        rfl
      rw [hfcA]
      refine chainListF_fuel _ fl _ M' ?_ M'.length (Nat.le_refl _)
      refine chainListF_congr w _ fl _ M' htail ?_
      intro x hx
      exact getNextSibling_hierUpdate w opIdx
        (fun h => { h with firstChild := getNextSibling w y0 }) (fun h => rfl) x
    · exact (List.nodup_cons.mp hMnd).1
    · exact List.Nodup.of_cons hMnd
    · intro x hx
      exact List.mem_cons_of_mem y0 hx
  · -- the child is deeper in: walk to its predecessor
    have heM' : e ∈ M' := by
      cases List.mem_cons.mp heM with
      | inl h1 => exact absurd h1.symm hy0
      | inr h2 => exact h2
    have hch : chainListF w (some y0) (w.hierarchy.length + 1) = some (y0 :: M') := by
      rw [← hfc0]
      exact hM
    have hgM : M'.length ≤ w.hierarchy.length + 1 := by
      have := chainListF_length_le w _ _ _ hch
      simp only [List.length_cons] at this
      omega
    obtain ⟨yi, yh, ypred, L2, hwalkEq, hiy, hgy, hent, hsib, hmem, hchain,
      hne2, hnd2, hsub2, hlen2⟩ :=
      unlinkWalk_spec w e (getNextSibling w e) Hfwd rfl M' y0
        (w.hierarchy.length + 1) (w.hierarchy.length + 1) hch heM' hMnd hgM
    rw [hred, if_neg hy0, hwalkEq]
    have hypredne : ypred ≠ e := by
      intro hpe
      have hmem2 : yh ∈ w.hierarchy := mem_of_elem hgy
      exact hnoselfR yh hmem2 (by rw [hsib, hent, hpe])
    refine ⟨yi, _, y0 :: L2, rfl, fun h => rfl, fun h => rfl,
      ⟨ypred, hiy, hypredne⟩, ?_, ?_, ?_, hne2, hnd2, hsub2⟩
    · intro x hx
      exact getFirstChild_hierUpdate w yi
        (fun h => { h with nextSibling := getNextSibling w e }) (fun h => rfl) x
    · intro x hx
      refine getNextSibling_congr (hrecOf_hierUpdate_ne w yi _ x ?_)
      intro hxi
      obtain ⟨h2, hg2, he2⟩ := Hfwd x yi hxi
      rw [hgy] at hg2
      cases hg2
      exact hx (he2 ▸ hent ▸ hmem)
    · have hfcA : getFirstChild (hierUpdate w yi
          (fun h => { h with nextSibling := getNextSibling w e })) oldP
          = some y0 := by
        rw [getFirstChild_hierUpdate w yi
          (fun h => { h with nextSibling := getNextSibling w e }) (fun h => rfl) oldP]
        exact hfc0
      rw [hfcA]
      exact hchain

/- ### C3: consequences of well-formedness -/

theorem wf_recFwd {w : World} (h : wfHier w = true) : RecFwd w := by
  unfold wfHier at h
  simp only [Bool.and_eq_true] at h
  exact recFwd_of_wf h.1.1.1.1.1

theorem wf_recBack {w : World} (h : wfHier w = true) : RecBack w := by
  unfold wfHier at h
  simp only [Bool.and_eq_true] at h
  exact recBack_of_wf h.1.1.1.1.2

theorem wf_noSelf {w : World} (h : wfHier w = true) :
    ∀ hr ∈ w.hierarchy, hr.parent ≠ some hr.entity ∧ hr.firstChild ≠ some hr.entity
      ∧ hr.nextSibling ≠ some hr.entity := by
  unfold wfHier at h
  simp only [Bool.and_eq_true] at h
  exact noSelf_of_wf h.1.1.1.2

theorem wf_fcParent {w : World} (h : wfHier w = true) :
    ∀ q c, getFirstChild w q = some c → getParent w c = some q := by
  unfold wfHier at h
  simp only [Bool.and_eq_true] at h
  exact fcParent_of_wf h.1.1.2 (recFwd_of_wf h.1.1.1.1.1)

theorem wf_sibParent {w : World} (h : wfHier w = true) :
    ∀ x z, getNextSibling w x = some z → getParent w z = getParent w x := by
  unfold wfHier at h
  simp only [Bool.and_eq_true] at h
  exact sibParent_of_wf h.1.1.2

theorem wf_chains {w : World} (h : wfHier w = true) :
    ∀ q, ∃ L, childListF w q = some L ∧ L.Nodup := by
  intro q
  cases hrq : hrecOf w q with
  | none =>
    refine ⟨[], ?_, List.nodup_nil⟩
    unfold childListF
    rw [getFirstChild_rec, hrq]
    exact chainListF_none w _
  | some hh =>
    obtain ⟨i, hi, hg⟩ := hrecOf_eq.mp hrq
    have hmem : hh ∈ w.hierarchy := mem_of_elem hg
    have hentq : hh.entity = q := by
      obtain ⟨h2, hg2, he2⟩ := wf_recFwd h q i hi
      rw [hg] at hg2
      cases hg2
      exact he2
    have hc : chainsOkB w = true := by
      unfold wfHier at h
      simp only [Bool.and_eq_true] at h
      exact h.1.2
    have := (List.all_eq_true.mp hc) hh hmem
    rw [hentq] at this
    cases hcl : childListF w q with
    | none => rw [hcl] at this; cases this
    | some L =>
      rw [hcl] at this
      exact ⟨L, rfl, of_decide_eq_true this⟩

theorem wf_coverage {w : World} (h : wfHier w = true) :
    ∀ x q, getParent w x = some q → x ∈ (childListF w q).getD [] := by
  intro x q hp
  rw [getParent_rec] at hp
  cases hrx : hrecOf w x with
  | none => rw [hrx] at hp; cases hp
  | some hx' =>
    rw [hrx] at hp
    obtain ⟨i, hi, hg⟩ := hrecOf_eq.mp hrx
    have hmem : hx' ∈ w.hierarchy := mem_of_elem hg
    have hentx : hx'.entity = x := by
      obtain ⟨h2, hg2, he2⟩ := wf_recFwd h x i hi
      rw [hg] at hg2
      cases hg2
      exact he2
    have hcov : coverageB w = true := by
      unfold wfHier at h
      simp only [Bool.and_eq_true] at h
      exact h.2
    have hall := (List.all_eq_true.mp hcov) hx' hmem
    have hpx : hx'.parent = some q := hp
    rw [hpx] at hall
    have : decide (hx'.entity ∈ (childListF w q).getD []) = true := hall
    rw [hentx] at this
    exact of_decide_eq_true this

/-- Every member of an entity's child list has that entity as parent. -/
theorem members_parent {w : World} (hwf : wfHier w = true) {q : Nat} {L : List Nat}
    (hL : childListF w q = some L) : ∀ x ∈ L, getParent w x = some q := by
  have hc : chainListF w (getFirstChild w q) (w.hierarchy.length + 1) = some L := hL
  exact chain_parent w q (wf_sibParent hwf) _ _ _ hc
    (fun a ha => wf_fcParent hwf q a ha)

/-- No entity is its own parent. -/
theorem parent_ne_self {w : World} (hwf : wfHier w = true) (q : Nat) :
    getParent w q ≠ some q := by
  intro hp
  rw [getParent_rec] at hp
  cases hrq : hrecOf w q with
  | none => rw [hrq] at hp; cases hp
  | some hh =>
    rw [hrq] at hp
    obtain ⟨i, hi, hg⟩ := hrecOf_eq.mp hrq
    have hmem : hh ∈ w.hierarchy := mem_of_elem hg
    have hentq : hh.entity = q := by
      obtain ⟨h2, hg2, he2⟩ := wf_recFwd hwf q i hi
      rw [hg] at hg2
      cases hg2
      exact he2
    exact (wf_noSelf hwf hh hmem).1 (by rw [hentq]; exact hp)

/- ### C3: phase 1 of `setParent` -/

/-- The facts about the world after the unlink/record-creation phase of
`setParent` that the relink phase needs: record consistency, the child has a
record, the dense array kept its size, and the new parent's child chain is a
known duplicate-free list containing neither the child nor the parent. -/
def Phase1Out (w w1 : World) (e p : Nat) : Prop :=
  ∃ L : List Nat,
    RecFwd w1 ∧ RecBack w1
    ∧ (∃ ci hc, hiOf w1 e = some ci ∧ w1.hierarchy[ci]? = some hc ∧ hc.entity = e)
    ∧ w1.entities.length = w.entities.length
    ∧ childListF w1 p = some L ∧ e ∉ L ∧ p ∉ L ∧ L.Nodup

theorem phase1_spec (w : World) (e p : Nat) (hwf : wfHier w = true)
    (he : hasEntity w e = true) (hne : e ≠ p) :
    Phase1Out w (setParentPhase1 w (some p) e) e p := by
  have Hfwd := wf_recFwd hwf
  have Hback := wf_recBack hwf
  obtain ⟨LP, hLP, hLPnd⟩ := wf_chains hwf p
  have hpLP : p ∉ LP := by
    intro hp
    exact parent_ne_self hwf p (members_parent hwf hLP p hp)
  obtain ⟨d0, hd0⟩ : ∃ d0, w.entities[e]? = some d0 := by
    unfold hasEntity at he
    cases hd : w.entities[e]? with
    | none => rw [hd] at he; cases he
    | some d => exact ⟨d, rfl⟩
  cases hie : hiOf w e with
  | none =>
    -- case A: the child has no record; one is appended
    have hdh0 : d0.hierarchy = none := by
      unfold hiOf at hie
      rw [hd0] at hie
      exact hie
    have hredA : setParentPhase1 w (some p) e =
        { w with
          entities := w.entities.set e
            { d0 with hierarchy := some w.hierarchy.length },
          hierarchy := w.hierarchy
            ++ [⟨e, none, none, none, Tfm.id⟩] } := by
      unfold setParentPhase1
      rw [hie]
      refine World.ext' ?_ ?_ ?_ ?_ ?_
      · show (entUpdate w e _).entities = _
        exact entUpdate_entities_eq w e _ d0 hd0
      · show (entUpdate w e _).transforms = _
        rw [entUpdate_transforms]
      · show (entUpdate w e _).names = _
        rw [entUpdate_names]
      · show (entUpdate w e _).hierarchy ++ _ = _
        rw [entUpdate_hierarchy]
      · show (entUpdate w e _).firstFree = _
        rw [entUpdate_firstFree]
    rw [hredA]
    have hiOf1 : ∀ x, hiOf ({ w with
          entities := w.entities.set e
            { d0 with hierarchy := some w.hierarchy.length },
          hierarchy := w.hierarchy ++ [⟨e, none, none, none, Tfm.id⟩] } : World) x
        = if x = e then some w.hierarchy.length else hiOf w x := by
      intro x
      unfold hiOf
      by_cases hx : x = e
      · subst hx
        show ((w.entities.set x _)[x]?).bind _ = _
        rw [List.getElem?_set_self', hd0, if_pos rfl]
        rfl
      · show ((w.entities.set e _)[x]?).bind _ = _
        rw [List.getElem?_set_ne (Ne.symm hx), if_neg hx]
    have rec1 : ∀ j, (w.hierarchy ++ [(⟨e, none, none, none, Tfm.id⟩ : Hrec)])[j]?
        = if j = w.hierarchy.length
          then some ⟨e, none, none, none, Tfm.id⟩ else w.hierarchy[j]? := by
      intro j
      rcases Nat.lt_trichotomy j w.hierarchy.length with hlt | heq | hgt
      · rw [if_neg (by omega), List.getElem?_append, if_pos hlt]
      · subst heq
        rw [if_pos rfl, List.getElem?_append_right (Nat.le_refl _), Nat.sub_self]
        rfl
      · rw [if_neg (by omega)]
        rw [List.getElem?_eq_none_iff.mpr (by simp; omega),
          List.getElem?_eq_none_iff.mpr (by omega)]
    refine ⟨LP, ?_, ?_, ?_, by simp [List.length_set], ?_, ?_, hpLP, hLPnd⟩
    · intro x i hxi
      rw [hiOf1] at hxi
      by_cases hx : x = e
      · rw [if_pos hx] at hxi
        cases hxi
        exact ⟨_, by rw [rec1, if_pos rfl], hx.symm⟩
      · rw [if_neg hx] at hxi
        obtain ⟨hr, hg, hent⟩ := Hfwd x i hxi
        have hilt : i < w.hierarchy.length := (List.getElem?_eq_some.mp hg).1
        exact ⟨hr, by rw [rec1, if_neg (by omega)]; exact hg, hent⟩
    · intro j hr hj
      rw [rec1] at hj
      rw [hiOf1]
      by_cases hjl : j = w.hierarchy.length
      · rw [if_pos hjl] at hj
        cases hj
        rw [if_pos rfl, hjl]
      · rw [if_neg hjl] at hj
        have hbk := Hback j hr hj
        have : hr.entity ≠ e := by
          intro hent
          rw [hent, hie] at hbk
          cases hbk
        rw [if_neg this]
        exact hbk
    · refine ⟨w.hierarchy.length, ⟨e, none, none, none, Tfm.id⟩, ?_, ?_, rfl⟩
      · rw [hiOf1, if_pos rfl]
      · rw [rec1, if_pos rfl]
    · -- the chain of p is unchanged
      have heLP : e ∉ LP := by
        intro hmem
        have := members_parent hwf hLP e hmem
        rw [getParent_rec] at this
        have hre : hrecOf w e = none := by
          unfold hrecOf
          rw [hie]
          rfl
        rw [hre] at this
        cases this
      have hrec_pres : ∀ x, x ≠ e → hrecOf ({ w with
            entities := w.entities.set e
              { d0 with hierarchy := some w.hierarchy.length },
            hierarchy := w.hierarchy ++ [⟨e, none, none, none, Tfm.id⟩] } : World) x
          = hrecOf w x := by
        intro x hx
        unfold hrecOf
        rw [hiOf1, if_neg hx]
        cases hi : hiOf w x with
        | none => rfl
        | some i =>
          obtain ⟨hr, hg, hent⟩ := Hfwd x i hi
          have hilt : i < w.hierarchy.length := (List.getElem?_eq_some.mp hg).1
          show (w.hierarchy ++ _)[i]? = w.hierarchy[i]?
          rw [rec1, if_neg (by omega)]
      have hstart : getFirstChild ({ w with
            entities := w.entities.set e
              { d0 with hierarchy := some w.hierarchy.length },
            hierarchy := w.hierarchy ++ [⟨e, none, none, none, Tfm.id⟩] } : World) p
          = getFirstChild w p :=
        getFirstChild_congr (hrec_pres p (Ne.symm hne))
      have hLc : chainListF w (getFirstChild w p) (w.hierarchy.length + 1)
          = some LP := hLP
      have hchain1 : chainListF ({ w with
            entities := w.entities.set e
              { d0 with hierarchy := some w.hierarchy.length },
            hierarchy := w.hierarchy ++ [⟨e, none, none, none, Tfm.id⟩] } : World)
          (getFirstChild w p) (w.hierarchy.length + 1) = some LP := by
        refine chainListF_congr w _ _ _ _ hLc ?_
        intro x hx
        refine getNextSibling_congr (hrec_pres x ?_)
        intro hxe
        exact heLP (hxe ▸ hx)
      show chainListF _ _ ((w.hierarchy ++ _).length + 1) = some LP
      rw [hstart, List.length_append]
      refine chainListF_fuel _ _ _ _ hchain1 _ ?_
      have := chainListF_length_le w _ _ _ hLc
      simp only [List.length_singleton]
      omega
    · intro hmem
      have := members_parent hwf hLP e hmem
      rw [getParent_rec] at this
      have hre : hrecOf w e = none := by
        unfold hrecOf
        rw [hie]
        rfl
      rw [hre] at this
      cases this
  | some ci =>
    obtain ⟨ch, hrec, hchent⟩ : ∃ ch, w.hierarchy[ci]? = some ch ∧ ch.entity = e := by
      obtain ⟨ch, hg, hent⟩ := Hfwd e ci hie
      exact ⟨ch, hg, hent⟩
    cases hchp : ch.parent with
    | none =>
      -- case B: the child has a record but no parent; nothing happens
      have hredB : setParentPhase1 w (some p) e = w := by
        unfold setParentPhase1
        rw [hie]
        show (match w.hierarchy[ci]? with
              | none => w
              | some ch =>
                match ch.parent with
                | none => w
                | some oldP =>
                  let wA :=
                    match hiOf w oldP with
                    | none => w
                    | some opIdx => unlinkFromSiblings w opIdx e
                  let wB := hierUpdate wA ci
                    (fun h => { h with parent := none, nextSibling := none })
                  collectGarbage wB oldP) = w
        rw [hrec]
        show (match ch.parent with
              | none => w
              | some oldP =>
                let wA :=
                  match hiOf w oldP with
                  | none => w
                  | some opIdx => unlinkFromSiblings w opIdx e
                let wB := hierUpdate wA ci
                  (fun h => { h with parent := none, nextSibling := none })
                collectGarbage wB oldP) = w
        rw [hchp]
      rw [hredB]
      refine ⟨LP, Hfwd, Hback, ⟨ci, ch, hie, hrec, hchent⟩, rfl, hLP, ?_, hpLP, hLPnd⟩
      intro hmem
      have hpar := members_parent hwf hLP e hmem
      rw [par_view hie hrec, hchp] at hpar
      cases hpar
    | some oldP =>
      -- case C: unlink from the old parent, clear links, collect garbage
      have hpe : getParent w e = some oldP := by
        rw [par_view hie hrec, hchp]
      have heOP : e ≠ oldP := by
        intro hh
        exact parent_ne_self hwf e (by rw [← hh] at hpe; exact hpe)
      obtain ⟨M, hM, hMnd⟩ := wf_chains hwf oldP
      have heM : e ∈ M := by
        have hcv := wf_coverage hwf e oldP hpe
        rw [hM] at hcv
        exact hcv
      obtain ⟨y0, M', hMsplit⟩ : ∃ y0 M', M = y0 :: M' := by
        cases M with
        | nil => cases heM
        | cons a b => exact ⟨a, b, rfl⟩
      have hfc0 : getFirstChild w oldP = some y0 := by
        rw [hMsplit] at hM
        exact chain_start hM
      obtain ⟨oph, hopr⟩ : ∃ oph, hrecOf w oldP = some oph := by
        rw [getFirstChild_rec] at hfc0
        cases hr : hrecOf w oldP with
        | none => rw [hr] at hfc0; cases hfc0
        | some oph => exact ⟨oph, rfl⟩
      obtain ⟨opIdx, hiop, hoph⟩ := hrecOf_eq.mp hopr
      have hredC : setParentPhase1 w (some p) e
          = collectGarbage (hierUpdate (unlinkFromSiblings w opIdx e) ci
              (fun h => { h with parent := none, nextSibling := none })) oldP := by
        unfold setParentPhase1
        rw [hie]
        show (match w.hierarchy[ci]? with
              | none => w
              | some ch =>
                match ch.parent with
                | none => w
                | some oldP =>
                  let wA :=
                    match hiOf w oldP with
                    | none => w
                    | some opIdx => unlinkFromSiblings w opIdx e
                  let wB := hierUpdate wA ci
                    (fun h => { h with parent := none, nextSibling := none })
                  collectGarbage wB oldP) = _
        rw [hrec]
        show (match ch.parent with
              | none => w
              | some oldP =>
                let wA :=
                  match hiOf w oldP with
                  | none => w
                  | some opIdx => unlinkFromSiblings w opIdx e
                let wB := hierUpdate wA ci
                  (fun h => { h with parent := none, nextSibling := none })
                collectGarbage wB oldP) = _
        rw [hchp]
        show (let wA :=
                match hiOf w oldP with
                | none => w
                | some opIdx => unlinkFromSiblings w opIdx e;
              let wB := hierUpdate wA ci
                (fun h => { h with parent := none, nextSibling := none });
              collectGarbage wB oldP) = _
        rw [hiop]
      obtain ⟨J, Fj, MA, hEqU, hFent, hFpar, ⟨je, hje, hjene⟩, hfcPre, hsibPre,
        hchainMA, heMA, hMAnd, hMAsub⟩ :=
        unlink_spec w e oldP opIdx oph M Hfwd
          (fun hr hm => (wf_noSelf hwf hr hm).2.2) hiop hoph hM hMnd heM heOP
      rw [hredC, hEqU]
      -- facts about wA := hierUpdate w J Fj
      have HfwdA : RecFwd (hierUpdate w J Fj) := recFwd_hierUpdate w J Fj hFent Hfwd
      have HbackA : RecBack (hierUpdate w J Fj) := recBack_hierUpdate w J Fj hFent Hback
      have hparA : ∀ x, getParent (hierUpdate w J Fj) x = getParent w x :=
        getParent_hierUpdate w J Fj hFpar
      have hioA : ∀ x, hiOf (hierUpdate w J Fj) x = hiOf w x :=
        hiOf_hierUpdate w J Fj
      have hcij : ci ≠ J := by
        intro hcc
        obtain ⟨hr2, hg2, he2⟩ := Hfwd je J hje
        rw [← hcc, hrec] at hg2
        cases hg2
        exact hjene (he2.symm.trans hchent)
      have hrecAci : (hierUpdate w J Fj).hierarchy[ci]? = some ch := by
        rw [hierUpdate_getElem_ne w J Fj ci hcij]
        exact hrec
      -- facts about wB := hierUpdate wA ci clear
      have hioB : ∀ x, hiOf (hierUpdate (hierUpdate w J Fj) ci
          (fun h => { h with parent := none, nextSibling := none })) x = hiOf w x := by
        intro x
        rw [hiOf_hierUpdate, hioA]
      have HfwdB : RecFwd (hierUpdate (hierUpdate w J Fj) ci
          (fun h => { h with parent := none, nextSibling := none })) :=
        recFwd_hierUpdate _ ci _ (fun h => rfl) HfwdA
      have HbackB : RecBack (hierUpdate (hierUpdate w J Fj) ci
          (fun h => { h with parent := none, nextSibling := none })) :=
        recBack_hierUpdate _ ci _ (fun h => rfl) HbackA
      have hrecBci : (hierUpdate (hierUpdate w J Fj) ci
          (fun h => { h with parent := none, nextSibling := none })).hierarchy[ci]?
          = some { ch with parent := none, nextSibling := none } :=
        hierUpdate_getElem_self _ ci _ ch hrecAci
      have hF1B : hiOf (hierUpdate (hierUpdate w J Fj) ci
          (fun h => { h with parent := none, nextSibling := none })) e = some ci := by
        rw [hioB]
        exact hie
      have hrecB_ne : ∀ x, x ≠ e → hrecOf (hierUpdate (hierUpdate w J Fj) ci
          (fun h => { h with parent := none, nextSibling := none })) x
          = hrecOf (hierUpdate w J Fj) x := by
        intro x hx
        refine hrecOf_hierUpdate_ne _ ci _ x ?_
        intro hxi
        rw [hioA] at hxi
        obtain ⟨hr, hg, hent⟩ := Hfwd x ci hxi
        rw [hrec] at hg
        cases hg
        exact hx (hent.symm.trans hchent)
      have hfcB : ∀ x, getFirstChild (hierUpdate (hierUpdate w J Fj) ci
          (fun h => { h with parent := none, nextSibling := none })) x
          = getFirstChild (hierUpdate w J Fj) x :=
        getFirstChild_hierUpdate _ ci _ (fun h => rfl)
      have hparB : ∀ x, x ≠ e → getParent (hierUpdate (hierUpdate w J Fj) ci
          (fun h => { h with parent := none, nextSibling := none })) x
          = getParent w x := by
        intro x hx
        rw [getParent_congr (hrecB_ne x hx), hparA]
      have hlenB : (hierUpdate (hierUpdate w J Fj) ci
          (fun h => { h with parent := none, nextSibling := none })).hierarchy.length
          = w.hierarchy.length := by
        rw [hierUpdate_length, hierUpdate_length]
      have hentB : (hierUpdate (hierUpdate w J Fj) ci
          (fun h => { h with parent := none, nextSibling := none })).entities
          = w.entities := by
        rw [hierUpdate_entities, hierUpdate_entities]
      -- the record of e in wB, as seen through hrecOf
      have hrecBe : hrecOf (hierUpdate (hierUpdate w J Fj) ci
          (fun h => { h with parent := none, nextSibling := none })) e
          = some { ch with parent := none, nextSibling := none } := by
        unfold hrecOf
        rw [hF1B]
        show (hierUpdate (hierUpdate w J Fj) ci _).hierarchy[ci]? = _
        exact hrecBci
      rcases gc_spec (hierUpdate (hierUpdate w J Fj) ci
          (fun h => { h with parent := none, nextSibling := none })) oldP HfwdB HbackB
        with hgcid | ⟨HfwdG, HbackG, hlenG, hhlenG, hioGq, hparWBq, hviewsG⟩
      · -- garbage collection was a no-op
        rw [hgcid]
        by_cases hpold : p = oldP
        · subst hpold
          -- chain of p in wB is MA
          have hchainB : chainListF (hierUpdate (hierUpdate w J Fj) ci
              (fun h => { h with parent := none, nextSibling := none }))
              (getFirstChild (hierUpdate (hierUpdate w J Fj) ci
                (fun h => { h with parent := none, nextSibling := none })) p)
              MA.length = some MA := by
            rw [hfcB]
            refine chainListF_congr _ _ _ _ _ hchainMA ?_
            intro x hx
            exact getNextSibling_congr (hrecB_ne x (fun hxe => heMA (hxe ▸ hx)))
          have hbound : MA.length ≤ (hierUpdate (hierUpdate w J Fj) ci
              (fun h => { h with parent := none, nextSibling := none })).hierarchy.length :=
            chain_length_bound _ HfwdB _ _ _ hchainB hMAnd e ci heMA hF1B
          refine ⟨MA, HfwdB, HbackB,
            ⟨ci, { ch with parent := none, nextSibling := none }, hF1B, hrecBci, hchent⟩,
            by rw [hentB], ?_, heMA, ?_, hMAnd⟩
          · exact chainListF_fuel _ _ _ _ hchainB _ (by omega)
          · intro hmem
            exact parent_ne_self hwf p (members_parent hwf hM p (hMAsub p hmem))
        · -- p keeps its chain LP
          have hLPdisj : ∀ x ∈ LP, x ∉ M := by
            intro x hx hxM
            have h1 := members_parent hwf hLP x hx
            have h2 := members_parent hwf hM x hxM
            rw [h1] at h2
            cases h2
            exact hpold rfl
          have heLP : e ∉ LP := by
            intro hmem
            have h1 := members_parent hwf hLP e hmem
            rw [hpe] at h1
            cases h1
            exact hpold rfl
          have hchainA : chainListF (hierUpdate w J Fj)
              (getFirstChild (hierUpdate w J Fj) p)
              (w.hierarchy.length + 1) = some LP := by
            rw [hfcPre p hpold]
            exact chainListF_congr w _ _ _ LP hLP
              (fun x hx => hsibPre x (hLPdisj x hx))
          have hchainB : chainListF (hierUpdate (hierUpdate w J Fj) ci
              (fun h => { h with parent := none, nextSibling := none }))
              (getFirstChild (hierUpdate (hierUpdate w J Fj) ci
                (fun h => { h with parent := none, nextSibling := none })) p)
              (w.hierarchy.length + 1) = some LP := by
            rw [hfcB]
            refine chainListF_congr _ _ _ _ _ hchainA ?_
            intro x hx
            exact getNextSibling_congr (hrecB_ne x (fun hxe => heLP (hxe ▸ hx)))
          refine ⟨LP, HfwdB, HbackB,
            ⟨ci, { ch with parent := none, nextSibling := none }, hF1B, hrecBci, hchent⟩,
            by rw [hentB], ?_, heLP, hpLP, hLPnd⟩
          show chainListF _ _ ((hierUpdate (hierUpdate w J Fj) ci
              (fun h => { h with parent := none, nextSibling := none })).hierarchy.length
              + 1) = some LP
          rw [hlenB]
          exact hchainB
      · -- the old parent record was freed
        have hF1G : ∃ ci' hc', hiOf (collectGarbage (hierUpdate (hierUpdate w J Fj) ci
            (fun h => { h with parent := none, nextSibling := none })) oldP) e = some ci'
            ∧ (collectGarbage (hierUpdate (hierUpdate w J Fj) ci
                (fun h => { h with parent := none, nextSibling := none })) oldP).hierarchy[ci']?
              = some hc' ∧ hc'.entity = e := by
          obtain ⟨hrG, -⟩ := hviewsG e heOP
          rw [hrecBe] at hrG
          obtain ⟨ci', hi', hg'⟩ := hrecOf_eq.mp hrG
          exact ⟨ci', { ch with parent := none, nextSibling := none }, hi', hg', hchent⟩
        by_cases hpold : p = oldP
        · subst hpold
          -- the freed record was p's own: its chain is now empty
          refine ⟨[], HfwdG, HbackG, hF1G, by rw [hlenG, hentB],
            ?_, by simp, by simp, List.nodup_nil⟩
          unfold childListF
          rw [getFirstChild_rec]
          unfold hrecOf
          rw [hioGq]
          show chainListF _ none _ = some []
          exact chainListF_none _ _
        · -- p is distinct from the freed entity: its chain survives
          have hLPdisj : ∀ x ∈ LP, x ∉ M := by
            intro x hx hxM
            have h1 := members_parent hwf hLP x hx
            have h2 := members_parent hwf hM x hxM
            rw [h1] at h2
            cases h2
            exact hpold rfl
          have heLP : e ∉ LP := by
            intro hmem
            have h1 := members_parent hwf hLP e hmem
            rw [hpe] at h1
            cases h1
            exact hpold rfl
          have holdLP : oldP ∉ LP := by
            intro hmem
            have h1 := members_parent hwf hLP oldP hmem
            have h2 : getParent (hierUpdate (hierUpdate w J Fj) ci
                (fun h => { h with parent := none, nextSibling := none })) oldP
                = some p := by
              rw [hparB oldP (fun hh => heOP hh.symm)]
              exact h1
            rw [hparWBq] at h2
            cases h2
          have hchainA : chainListF (hierUpdate w J Fj)
              (getFirstChild (hierUpdate w J Fj) p)
              (w.hierarchy.length + 1) = some LP := by
            rw [hfcPre p hpold]
            exact chainListF_congr w _ _ _ LP hLP
              (fun x hx => hsibPre x (hLPdisj x hx))
          have hchainB : chainListF (hierUpdate (hierUpdate w J Fj) ci
              (fun h => { h with parent := none, nextSibling := none }))
              (getFirstChild (hierUpdate (hierUpdate w J Fj) ci
                (fun h => { h with parent := none, nextSibling := none })) p)
              (w.hierarchy.length + 1) = some LP := by
            rw [hfcB]
            refine chainListF_congr _ _ _ _ _ hchainA ?_
            intro x hx
            exact getNextSibling_congr (hrecB_ne x (fun hxe => heLP (hxe ▸ hx)))
          have hchainG : chainListF (collectGarbage (hierUpdate (hierUpdate w J Fj) ci
              (fun h => { h with parent := none, nextSibling := none })) oldP)
              (getFirstChild (collectGarbage (hierUpdate (hierUpdate w J Fj) ci
                (fun h => { h with parent := none, nextSibling := none })) oldP) p)
              (w.hierarchy.length + 1) = some LP := by
            have hfcG : getFirstChild (collectGarbage (hierUpdate (hierUpdate w J Fj) ci
                (fun h => { h with parent := none, nextSibling := none })) oldP) p
                = getFirstChild (hierUpdate (hierUpdate w J Fj) ci
                  (fun h => { h with parent := none, nextSibling := none })) p :=
              getFirstChild_congr (hviewsG p hpold).1
            rw [hfcG]
            refine chainListF_congr _ _ _ _ _ hchainB ?_
            intro x hx
            exact getNextSibling_congr (hviewsG x (fun hxo => holdLP (hxo ▸ hx))).1
          obtain ⟨ci', hc', hi', hg', hent'⟩ := hF1G
          have hbound : LP.length ≤ (collectGarbage (hierUpdate (hierUpdate w J Fj) ci
              (fun h => { h with parent := none, nextSibling := none })) oldP).hierarchy.length :=
            chain_length_bound _ HfwdG _ _ _ hchainG hLPnd e ci' heLP hi'
          refine ⟨LP, HfwdG, HbackG, ⟨ci', hc', hi', hg', hent'⟩,
            by rw [hlenG, hentB], ?_, heLP, hpLP, hLPnd⟩
          exact chainListF_fuel _ _ _ _ hchainG _ (by omega)

/- ### C3: phase 2 of `setParent` -/

/-- The three writes at the end of `World::setParent` once the child record
index `ci` and the new-parent record index `pi` are fixed: set the child's
parent and cached local transform, chain the child in front of the parent's
first child, and point the parent's first-child link at the child
(abbreviates the tail of `setParentPhase2`). -/
def relinked (w1 : World) (e p ci pi : Nat) (T : Tfm) : World :=
  hierUpdate (hierUpdate (hierUpdate w1 ci
      (fun h => { h with parent := some p, localTf := T })) ci
      (fun h => { h with nextSibling := ((hierUpdate w1 ci (fun h => { h with parent := some p, localTf := T })).hierarchy[pi]?).bind (·.firstChild) })) pi
      (fun h => { h with firstChild := some e })

/-- The record appended for an entity that has no hierarchy record yet
(`m_hierarchy.emplace()` plus the back-pointer write). -/
def appended (w1 : World) (p : Nat) (dp : EData) : World :=
  { w1 with
    entities := w1.entities.set p { dp with hierarchy := some w1.hierarchy.length },
    hierarchy := w1.hierarchy ++ [⟨p, none, none, none, Tfm.id⟩] }

theorem setParentPhase2_some (w1 : World) (e p ci pi : Nat)
    (hci : hiOf w1 e = some ci) (hip : hiOf w1 p = some pi) :
    setParentPhase2 w1 (some p) e
      = relinked w1 e p ci pi
          ((getTransform w1 p).inverted.mul (getTransform w1 e)) := by
  unfold setParentPhase2
  show (match hiOf w1 e with
        | none => w1
        | some childIdx =>
          let step :=
            match hiOf w1 p with
            | some i => (w1, i)
            | none =>
              let i := w1.hierarchy.length;
              let wn := entUpdate w1 p (fun d => { d with hierarchy := some i });
              ({ wn with hierarchy := wn.hierarchy
                  ++ [(⟨p, none, none, none, Tfm.id⟩ : Hrec)] }, i);
          let w2 := step.1;
          let npIdx := step.2;
          let ptr := getTransform w2 p;
          let ctr := getTransform w2 e;
          let w3 := hierUpdate w2 childIdx
            (fun h => { h with parent := some p, localTf := ptr.inverted.mul ctr });
          let fc := (w3.hierarchy[npIdx]?).bind (·.firstChild);
          let w4 := hierUpdate w3 childIdx (fun h => { h with nextSibling := fc });
          hierUpdate w4 npIdx (fun h => { h with firstChild := some e })) = _
  rw [hci, hip]
  rfl

theorem setParentPhase2_none (w1 : World) (e p ci : Nat) (dp : EData)
    (hci : hiOf w1 e = some ci) (hip : hiOf w1 p = none)
    (hdp : w1.entities[p]? = some dp) :
    setParentPhase2 w1 (some p) e
      = relinked (appended w1 p dp) e p ci w1.hierarchy.length
          ((getTransform (appended w1 p dp) p).inverted.mul
            (getTransform (appended w1 p dp) e)) := by
  have hredApp : (entUpdate w1 p
        (fun d => { d with hierarchy := some w1.hierarchy.length }))
      = { w1 with
          entities := w1.entities.set p
            { dp with hierarchy := some w1.hierarchy.length } } := by
    refine World.ext' ?_ ?_ ?_ ?_ ?_
    · exact entUpdate_entities_eq w1 p _ dp hdp
    · rw [entUpdate_transforms]
    · rw [entUpdate_names]
    · rw [entUpdate_hierarchy]
    · rw [entUpdate_firstFree]
  unfold setParentPhase2
  show (match hiOf w1 e with
        | none => w1
        | some childIdx =>
          let step :=
            match hiOf w1 p with
            | some i => (w1, i)
            | none =>
              let i := w1.hierarchy.length;
              let wn := entUpdate w1 p (fun d => { d with hierarchy := some i });
              ({ wn with hierarchy := wn.hierarchy
                  ++ [(⟨p, none, none, none, Tfm.id⟩ : Hrec)] }, i);
          let w2 := step.1;
          let npIdx := step.2;
          let ptr := getTransform w2 p;
          let ctr := getTransform w2 e;
          let w3 := hierUpdate w2 childIdx
            (fun h => { h with parent := some p, localTf := ptr.inverted.mul ctr });
          let fc := (w3.hierarchy[npIdx]?).bind (·.firstChild);
          let w4 := hierUpdate w3 childIdx (fun h => { h with nextSibling := fc });
          hierUpdate w4 npIdx (fun h => { h with firstChild := some e })) = _
  rw [hci, hip]
  show (let step :=
          (({ (entUpdate w1 p
                (fun d => { d with hierarchy := some w1.hierarchy.length })) with
              hierarchy := (entUpdate w1 p
                (fun d => { d with hierarchy := some w1.hierarchy.length })).hierarchy
                ++ [(⟨p, none, none, none, Tfm.id⟩ : Hrec)] } : World),
            w1.hierarchy.length);
        let w2 := step.1;
        let npIdx := step.2;
        let ptr := getTransform w2 p;
        let ctr := getTransform w2 e;
        let w3 := hierUpdate w2 ci
          (fun h => { h with parent := some p, localTf := ptr.inverted.mul ctr });
        let fc := (w3.hierarchy[npIdx]?).bind (·.firstChild);
        let w4 := hierUpdate w3 ci (fun h => { h with nextSibling := fc });
        hierUpdate w4 npIdx (fun h => { h with firstChild := some e })) = _
  rw [hredApp]
  rfl

theorem relinked_spec (w1 : World) (e p ci pi : Nat) (T : Tfm) (hc hp' : Hrec)
    (L : List Nat) (hne : e ≠ p) (Hfwd1 : RecFwd w1)
    (hci : hiOf w1 e = some ci) (hgci : w1.hierarchy[ci]? = some hc)
    (hcent : hc.entity = e)
    (hip : hiOf w1 p = some pi) (hgpi : w1.hierarchy[pi]? = some hp')
    (hpent : hp'.entity = p)
    (hL1 : childListF w1 p = some L) (heL : e ∉ L) (hpL : p ∉ L) (hLnd : L.Nodup) :
    getParent (relinked w1 e p ci pi T) e = some p
    ∧ ∃ l, childListF (relinked w1 e p ci pi T) p = some l ∧ l.count e = 1 := by
  have hcipi : ci ≠ pi := by
    intro hcc
    rw [← hcc, hgci] at hgpi
    cases hgpi
    exact hne (hcent.symm.trans hpent)
  have hfcval : ((hierUpdate w1 ci (fun h => { h with parent := some p, localTf := T })).hierarchy[pi]?).bind (·.firstChild) = getFirstChild w1 p := by
    rw [hierUpdate_getElem_ne w1 ci _ pi (fun hh => hcipi hh.symm), hgpi]
    rw [fc_view hip hgpi]
    rfl
  have hio3 : ∀ x, hiOf (relinked w1 e p ci pi T) x = hiOf w1 x := by
    intro x
    unfold relinked
    rw [hiOf_hierUpdate, hiOf_hierUpdate, hiOf_hierUpdate]
  have hrecE : (relinked w1 e p ci pi T).hierarchy[ci]?
      = some { hc with parent := some p, localTf := T, nextSibling := getFirstChild w1 p } := by
    unfold relinked
    rw [hierUpdate_getElem_ne _ pi _ ci hcipi]
    rw [hierUpdate_getElem_self _ ci _ _
      (hierUpdate_getElem_self w1 ci _ hc hgci)]
    rw [hfcval]
  have hrecP : (relinked w1 e p ci pi T).hierarchy[pi]?
      = some { hp' with firstChild := some e } := by
    unfold relinked
    rw [hierUpdate_getElem_self _ pi _ hp']
    rw [hierUpdate_getElem_ne _ ci _ pi (fun hh => hcipi hh.symm),
      hierUpdate_getElem_ne w1 ci _ pi (fun hh => hcipi hh.symm)]
    exact hgpi
  have hrE : hrecOf (relinked w1 e p ci pi T) e
      = some { hc with parent := some p, localTf := T, nextSibling := getFirstChild w1 p } := by
    unfold hrecOf
    rw [hio3, hci]
    exact hrecE
  have hrP : hrecOf (relinked w1 e p ci pi T) p
      = some { hp' with firstChild := some e } := by
    unfold hrecOf
    rw [hio3, hip]
    exact hrecP
  have hrec_other : ∀ x, x ≠ e → x ≠ p →
      hrecOf (relinked w1 e p ci pi T) x = hrecOf w1 x := by
    intro x hxe hxp
    have hxci : hiOf w1 x ≠ some ci := by
      intro hxi
      obtain ⟨hr, hg, hent⟩ := Hfwd1 x ci hxi
      rw [hgci] at hg
      cases hg
      exact hxe (hent.symm.trans hcent)
    have hxpi : hiOf w1 x ≠ some pi := by
      intro hxi
      obtain ⟨hr, hg, hent⟩ := Hfwd1 x pi hxi
      rw [hgpi] at hg
      cases hg
      exact hxp (hent.symm.trans hpent)
    unfold relinked
    rw [hrecOf_hierUpdate_ne _ pi _ x
      (by rw [hiOf_hierUpdate, hiOf_hierUpdate]; exact hxpi)]
    rw [hrecOf_hierUpdate_ne _ ci _ x (by rw [hiOf_hierUpdate]; exact hxci)]
    rw [hrecOf_hierUpdate_ne w1 ci _ x hxci]
  constructor
  · rw [getParent_rec, hrE]
    rfl
  · have hfcW : getFirstChild (relinked w1 e p ci pi T) p = some e := by
      rw [getFirstChild_rec, hrP]
      rfl
    have hsibE : getNextSibling (relinked w1 e p ci pi T) e
        = getFirstChild w1 p := by
      rw [getNextSibling_rec, hrE]
      rfl
    have hchainL : chainListF (relinked w1 e p ci pi T)
        (getFirstChild w1 p) (w1.hierarchy.length + 1) = some L := by
      refine chainListF_congr w1 _ _ _ L hL1 ?_
      intro x hx
      exact getNextSibling_congr
        (hrec_other x (fun hh => heL (hh ▸ hx)) (fun hh => hpL (hh ▸ hx)))
    have hbnd : L.length ≤ w1.hierarchy.length :=
      chain_length_bound w1 Hfwd1 _ _ _ hL1 hLnd e ci heL hci
    have hchainL2 : chainListF (relinked w1 e p ci pi T)
        (getFirstChild w1 p) w1.hierarchy.length = some L :=
      chainListF_fuel _ _ _ _ hchainL _ hbnd
    refine ⟨e :: L, ?_, ?_⟩
    · show chainListF _ (getFirstChild _ p)
          ((relinked w1 e p ci pi T).hierarchy.length + 1) = some (e :: L)
      have hlenW : (relinked w1 e p ci pi T).hierarchy.length
          = w1.hierarchy.length := by
        unfold relinked
        rw [hierUpdate_length, hierUpdate_length, hierUpdate_length]
      rw [hfcW, hlenW]
      exact chain_build (hsibE ▸ hchainL2)
    · rw [List.count_cons]
      simp [List.count_eq_zero.mpr heL]

theorem appended_hiOf (w1 : World) (p : Nat) (dp : EData)
    (hdp : w1.entities[p]? = some dp) (x : Nat) :
    hiOf (appended w1 p dp) x
      = if x = p then some w1.hierarchy.length else hiOf w1 x := by
  unfold hiOf appended
  by_cases hx : x = p
  · subst hx
    show ((w1.entities.set x _)[x]?).bind _ = _
    rw [List.getElem?_set_self', hdp, if_pos rfl]
    rfl
  · show ((w1.entities.set p _)[x]?).bind _ = _
    rw [List.getElem?_set_ne (Ne.symm hx), if_neg hx]

theorem appended_rec (w1 : World) (p : Nat) (dp : EData) (j : Nat) :
    (appended w1 p dp).hierarchy[j]?
      = if j = w1.hierarchy.length
        then some ⟨p, none, none, none, Tfm.id⟩ else w1.hierarchy[j]? := by
  show (w1.hierarchy ++ _)[j]? = _
  rcases Nat.lt_trichotomy j w1.hierarchy.length with hlt | heq | hgt
  · rw [if_neg (by omega), List.getElem?_append, if_pos hlt]
  · subst heq
    rw [if_pos rfl, List.getElem?_append_right (Nat.le_refl _), Nat.sub_self]
    rfl
  · rw [if_neg (by omega)]
    rw [List.getElem?_eq_none_iff.mpr (by simp; omega),
      List.getElem?_eq_none_iff.mpr (by omega)]

/-- Specification of the relink phase of `setParent`: given the phase-1
facts, the child's record gains `parent = new parent` and the child is
pushed at the head of the new parent's child list, where it occurs exactly
once. -/
theorem phase2_spec (w w1 : World) (e p : Nat) (hne : e ≠ p)
    (hpl : p < w1.entities.length)
    (H : Phase1Out w w1 e p) :
    getParent (setParentPhase2 w1 (some p) e) e = some p
    ∧ ∃ l, childListF (setParentPhase2 w1 (some p) e) p = some l
        ∧ l.count e = 1 := by
  obtain ⟨L, Hfwd1, Hback1, ⟨ci, hc, hci, hgci, hcent⟩, hlen1, hL1, heL, hpL, hLnd⟩ := H
  have hcilt : ci < w1.hierarchy.length := (List.getElem?_eq_some.mp hgci).1
  cases hip : hiOf w1 p with
  | some pi =>
    obtain ⟨hp', hgpi, hpent⟩ := Hfwd1 p pi hip
    rw [setParentPhase2_some w1 e p ci pi hci hip]
    exact relinked_spec w1 e p ci pi _ hc hp' L hne Hfwd1 hci hgci hcent hip hgpi
      hpent hL1 heL hpL hLnd
  | none =>
    -- the new parent gets a fresh record appended, then the same three writes
    obtain ⟨dp, hdp⟩ : ∃ dp, w1.entities[p]? = some dp := by
      cases hdp : w1.entities[p]? with
      | none =>
        rw [List.getElem?_eq_none_iff] at hdp
        omega
      | some d => exact ⟨d, rfl⟩
    have HfwdApp : RecFwd (appended w1 p dp) := by
      intro x i hxi
      rw [appended_hiOf w1 p dp hdp] at hxi
      by_cases hx : x = p
      · rw [if_pos hx] at hxi
        cases hxi
        exact ⟨_, by rw [appended_rec, if_pos rfl], hx.symm⟩
      · rw [if_neg hx] at hxi
        obtain ⟨hr, hg, hent⟩ := Hfwd1 x i hxi
        have hilt : i < w1.hierarchy.length := (List.getElem?_eq_some.mp hg).1
        exact ⟨hr, by rw [appended_rec, if_neg (by omega)]; exact hg, hent⟩
    have hciApp : hiOf (appended w1 p dp) e = some ci := by
      rw [appended_hiOf w1 p dp hdp, if_neg hne]
      exact hci
    have hgciApp : (appended w1 p dp).hierarchy[ci]? = some hc := by
      rw [appended_rec, if_neg (by omega)]
      exact hgci
    have hipApp : hiOf (appended w1 p dp) p = some w1.hierarchy.length := by
      rw [appended_hiOf w1 p dp hdp, if_pos rfl]
    have hgpiApp : (appended w1 p dp).hierarchy[w1.hierarchy.length]?
        = some ⟨p, none, none, none, Tfm.id⟩ := by
      rw [appended_rec, if_pos rfl]
    have hLApp : childListF (appended w1 p dp) p = some [] := by
      unfold childListF
      have hfcA : getFirstChild (appended w1 p dp) p = none := by
        rw [getFirstChild_rec]
        unfold hrecOf
        rw [hipApp]
        show ((appended w1 p dp).hierarchy[w1.hierarchy.length]?).bind _ = none
        rw [hgpiApp]
        rfl
      rw [hfcA]
      exact chainListF_none _ _
    rw [setParentPhase2_none w1 e p ci dp hci hip hdp]
    exact relinked_spec _ e p ci w1.hierarchy.length _ hc
      ⟨p, none, none, none, Tfm.id⟩ [] hne HfwdApp hciApp hgciApp hcent hipApp
      hgpiApp rfl hLApp (by simp) (by simp) List.nodup_nil

/- ### C3: the `setParent` claim -/

/-- C3: for live entities `e` and distinct `p` in a well-formed world, if
`p` is not a descendant of `e` then after `setParent(p, e)` the parent of
`e` is `p` and `e` occurs exactly once in `p`'s child list; and
`setParent(d, e)` for a descendant `d` of `e` is rejected by the cycle
guard and returns the world completely unchanged (the C++ additionally logs
"Hierarchy can not contains a cycle.", which is outside the model). -/
theorem setParentSpec :
    (∀ w e p, wfHier w = true → hasEntity w e = true → hasEntity w p = true →
      e ≠ p → isDescendant w e p = false →
      getParent (setParent w (some p) e) e = some p
      ∧ ∃ l, childListF (setParent w (some p) e) p = some l ∧ l.count e = 1)
    ∧ (∀ w e d, isDescendant w e d = true → setParent w (some d) e = w) := by
  constructor
  · intro w e p hwf he hp hne hnd
    have hguard : setParent w (some p) e
        = setParentPhase2 (setParentPhase1 w (some p) e) (some p) e := by
      unfold setParent
      show (if isDescendant w e p = true then w
            else setParentPhase2 (setParentPhase1 w (some p) e) (some p) e) = _
      rw [hnd]
      rfl
    obtain ⟨L, h1, h2, h3, hlen, h5, h6, h7, h8⟩ := phase1_spec w e p hwf he hne
    have hplen : p < (setParentPhase1 w (some p) e).entities.length := by
      rw [hlen]
      unfold hasEntity at hp
      cases hdp : w.entities[p]? with
      | none => rw [hdp] at hp; cases hp
      | some d => exact (List.getElem?_eq_some.mp hdp).1
    rw [hguard]
    exact phase2_spec w _ e p hne hplen ⟨L, h1, h2, h3, hlen, h5, h6, h7, h8⟩
  · intro w e d hdesc
    unfold setParent
    show (if isDescendant w e d = true then w
          else setParentPhase2 (setParentPhase1 w (some d) e) (some d) e) = w
    rw [hdesc]
    rfl

end LumixVer
